import Mathlib

/-!
# FreeRDP digital sound processing (`libfreerdp/codec/dsp.c`)

A shallow embedding of the native codec engine: the IMA/DVI-ADPCM and MS-ADPCM
sample steps, their block encoders and decoders, the capability / dispatch
shell around them and the nearest-neighbour resampler; and of the codec mapping of
the external backend (`channels/rdpsnd/client/rdpsnd_ffmpeg.c`).

Conventions of the embedding.

* `BYTE` values are `Nat`, signed C integers are `Int`; a conversion to a narrower
  C type is an explicit reduction (`toINT16`, `toBYTE`, ...).  `INT32` arithmetic that
  can leave the 32-bit range is wrapped with `toINT32`.
* C `/` and `%` on signed integers truncate toward zero: `Int.tdiv`, `Int.tmod`.
* Anything the C standard leaves undefined (a table index outside the table, a read
  outside the source buffer, a store by an encoder behind the buffer it reserved, a
  division by zero) makes the embedded function return `none`.
* A two-element C array is a pair, indexed by a channel of type `Fin 2`.
-/

/-! ## Machine integers -/

/-- Conversion to `INT16` (two's complement). -/
def toINT16 (x : Int) : Int := (x + 32768) % 65536 - 32768

/-- Conversion to `UINT16`. -/
def toUINT16 (x : Int) : Int := x % 65536

/-- Conversion to `INT8` (two's complement). -/
def toINT8 (x : Int) : Int := (x + 128) % 256 - 128

/-- Conversion to `BYTE`. -/
def toBYTE (x : Int) : Nat := (x % 256).toNat

/-- Conversion to `INT32` (two's complement wrap-around). -/
def toINT32 (x : Int) : Int := (x + 2147483648) % 4294967296 - 2147483648

/-- Element `c` of a two-element array. -/
def Arr2.get {α : Type} (a : α × α) (c : Fin 2) : α := if c = 0 then a.1 else a.2

/-- Store `v` at element `c` of a two-element array. -/
def Arr2.set {α : Type} (a : α × α) (c : Fin 2) (v : α) : α × α :=
  if c = 0 then (v, a.2) else (a.1, v)

/-- Read `t[i]` for a signed index; `none` outside the table. -/
def tableAt (t : List Int) (i : Int) : Option Int :=
  if 0 ≤ i then t[i.toNat]? else none

/-! ## Codec state (`union _ADPCM`) -/

/-- The `ima` member of `union _ADPCM`. -/
structure IMA where
  last_sample : Int × Int
  last_step : Int × Int
deriving DecidableEq, Repr

/-- The `ms` member of `union _ADPCM`. -/
structure MS where
  predictor : Nat × Nat
  delta : Int × Int
  sample1 : Int × Int
  sample2 : Int × Int
deriving DecidableEq, Repr

/-- The codec state.  The C type is a union; the two members are kept side by side
here, each codec touching only its own member. -/
structure ADPCM where
  ima : IMA
  ms : MS
deriving DecidableEq, Repr

/-! ## IMA / DVI ADPCM -/

def ima_step_index_table : List Int :=
  [-1, -1, -1, -1, 2, 4, 6, 8,
   -1, -1, -1, -1, 2, 4, 6, 8]

def ima_step_size_table : List Int :=
  [7, 8, 9, 10, 11, 12, 13, 14, 16, 17,
   19, 21, 23, 25, 28, 31, 34, 37, 41, 45,
   50, 55, 60, 66, 73, 80, 88, 97, 107, 118,
   130, 143, 157, 173, 190, 209, 230, 253, 279, 307,
   337, 371, 408, 449, 494, 544, 598, 658, 724, 796,
   876, 963, 1060, 1166, 1282, 1411, 1552, 1707, 1878, 2066,
   2272, 2499, 2749, 3024, 3327, 3660, 4026, 4428, 4871, 5358,
   5894, 6484, 7132, 7845, 8630, 9493, 10442, 11487, 12635, 13899,
   15289, 16818, 18500, 20350, 22385, 24623, 27086, 29794, 32767]

/-- Clamp to the `INT16` range, as the `if (d < -32768) ... else if (d > 32767) ...`
ladders of the source do. -/
def clamp16 (d : Int) : Int :=
  if d < -32768 then -32768 else if d > 32767 then 32767 else d

/-- The step-index update shared by the IMA sample encoder and decoder:
`last_step += ima_step_index_table[code]`, then clamp to `[0, 88]`. -/
def ima_next_step (last_step idx : Int) : Int :=
  let s := toINT16 (last_step + idx)
  if s < 0 then 0 else if s > 88 then 88 else s

/-- The signed difference the decoder builds from a 4-bit code and the step size:
`d = ss >> 3`, plus `ss >> 2`, `ss >> 1`, `ss` for the bits 0, 1, 2 of the code,
negated when bit 3 is set. -/
def ima_decode_delta (ss : Int) (sample : Nat) : Int :=
  let d := ss >>> (3 : Nat)
  let d := if sample &&& 1 ≠ 0 then d + ss >>> (2 : Nat) else d
  let d := if sample &&& 2 ≠ 0 then d + ss >>> (1 : Nat) else d
  let d := if sample &&& 4 ≠ 0 then d + ss else d
  if sample &&& 8 ≠ 0 then -d else d

/-- `dsp_decode_ima_adpcm_sample`: returns the `UINT16` result and the new state. -/
def dsp_decode_ima_adpcm_sample (adpcm : ADPCM) (channel : Fin 2) (sample : Nat) :
    Option (Int × ADPCM) := do
  let ss ← tableAt ima_step_size_table (Arr2.get adpcm.ima.last_step channel)
  let d := ima_decode_delta ss sample
  let d := d + Arr2.get adpcm.ima.last_sample channel
  let d := clamp16 d
  let idx ← ima_step_index_table[sample]?
  let ima : IMA :=
    { last_sample := Arr2.set adpcm.ima.last_sample channel (toINT16 d)
      last_step := Arr2.set adpcm.ima.last_step channel
        (ima_next_step (Arr2.get adpcm.ima.last_step channel) idx) }
  pure (toUINT16 d, { adpcm with ima := ima })

/-- One threshold comparison of the encoder, on the pair `(enc, e)`:
`if (e >= ss) { enc |= bit; e -= ss; }`. -/
def ima_threshold (bit : Nat) (ss : Int) (p : Nat × Int) : Nat × Int :=
  if p.2 ≥ ss then (p.1 ||| bit, p.2 - ss) else p

/-- The encoder's code derivation: the sign test followed by the three threshold
comparisons against `ss`, `ss >> 1`, `ss >> 2`.  Returns `(enc, e)`. -/
def ima_encode_quantize (ss d : Int) : Nat × Int :=
  let p : Nat × Int := if d < 0 then (8, -d) else (0, d)
  let p := ima_threshold 4 ss p
  let ss := ss >>> (1 : Nat)
  let p := ima_threshold 2 ss p
  let ss := ss >>> (1 : Nat)
  ima_threshold 1 ss p

/-- `dsp_encode_ima_adpcm_sample`: returns the 4-bit code and the new state. -/
def dsp_encode_ima_adpcm_sample (adpcm : ADPCM) (channel : Fin 2) (sample : Int) :
    Option (Nat × ADPCM) := do
  let ss ← tableAt ima_step_size_table (Arr2.get adpcm.ima.last_step channel)
  let d := sample - Arr2.get adpcm.ima.last_sample channel
  let diff := ss >>> (3 : Nat)
  let (enc, e) := ima_encode_quantize ss d
  let diff := if d < 0 then d + e - diff else d - e + diff
  let diff := diff + Arr2.get adpcm.ima.last_sample channel
  let diff := clamp16 diff
  let idx ← ima_step_index_table[enc]?
  let ima : IMA :=
    { last_sample := Arr2.set adpcm.ima.last_sample channel (toINT16 diff)
      last_step := Arr2.set adpcm.ima.last_step channel
        (ima_next_step (Arr2.get adpcm.ima.last_step channel) idx) }
  pure (enc, { adpcm with ima := ima })

/-! ## Notions used to state the properties -/

/-- The all-zero codec state of a context obtained from `calloc`. -/
def ADPCM.zero : ADPCM :=
  { ima := { last_sample := (0, 0), last_step := (0, 0) }
    ms := { predictor := (0, 0), delta := (0, 0), sample1 := (0, 0), sample2 := (0, 0) } }

/-- One sample-level call on the IMA state: a decode of a code or an encode of a sample. -/
inductive ImaOp where
  | decode (code : Nat)
  | encode (sample : Int)
deriving DecidableEq, Repr

/-- The argument of the call fits its C use: a 4-bit code, a signed 16-bit sample. -/
def ImaOp.ok : ImaOp → Prop
  | .decode code => code < 16
  | .encode sample => -32768 ≤ sample ∧ sample ≤ 32767

instance (op : ImaOp) : Decidable op.ok := by
  cases op <;> (simp only [ImaOp.ok]; infer_instance)

/-- Every call of the sequence has a well-formed argument. -/
def ImaOp.wellFormed (ops : List ImaOp) : Prop := ∀ op ∈ ops, op.ok

instance (ops : List ImaOp) : Decidable (ImaOp.wellFormed ops) := by
  unfold ImaOp.wellFormed; infer_instance

/-- Perform one sample-level call on channel `c`, keeping the new state. -/
def ImaOp.step (adpcm : ADPCM) (c : Fin 2) : ImaOp → Option ADPCM
  | .decode code => (dsp_decode_ima_adpcm_sample adpcm c code).map Prod.snd
  | .encode sample => (dsp_encode_ima_adpcm_sample adpcm c sample).map Prod.snd

/-- Perform a sequence of sample-level calls on channel `c`. -/
def ima_run_ops (adpcm : ADPCM) (c : Fin 2) : List ImaOp → Option ADPCM
  | [] => some adpcm
  | op :: ops => (ImaOp.step adpcm c op).bind (fun st => ima_run_ops st c ops)

/-! ## Byte access -/

/-- Read a little-endian `INT16` at offset `off` of the source, as
`(INT16)(((UINT16) src[off]) | (((UINT16) src[off + 1]) << 8))` and `*((INT16*) src)` do
(the latter on a little-endian host).  `none` when a byte lies outside the source. -/
def readINT16 (src : List Nat) (off : Nat) : Option Int := do
  let lo ← src[off]?
  let hi ← src[off + 1]?
  pure (toINT16 ((lo ||| (hi <<< 8) : Nat) : Int))

/-- The two bytes stored for a 16-bit value: `v & 0xFF`, then `(v >> 8) & 0xFF`. -/
def bytesINT16 (v : Int) : List Nat := [toBYTE v, toBYTE (v >>> (8 : Nat))]

/-! ## Formats, streams and the context -/

/-- Modelled from the spec: `AUDIO_FORMAT` (the spec's FormatDescriptor) is declared in
`freerdp/codec/audio.h`, which is not among the sources: tag, channel count, sample rate,
average byte rate, block alignment, bits per sample and the size of the extra data. -/
structure AUDIO_FORMAT where
  wFormatTag : Nat
  nChannels : Nat
  nSamplesPerSec : Nat
  nAvgBytesPerSec : Nat
  nBlockAlign : Nat
  wBitsPerSample : Nat
  cbSize : Nat
deriving DecidableEq, Repr

/-- Modelled from the spec: the format tag of linear PCM, a constant of
`freerdp/codec/audio.h` (not among the sources); the registered RIFF value. -/
def WAVE_FORMAT_PCM : Nat := 0x0001

/-- Modelled from the spec: the format tag of MS-ADPCM, a constant of
`freerdp/codec/audio.h` (not among the sources); the registered RIFF value. -/
def WAVE_FORMAT_ADPCM : Nat := 0x0002

/-- Modelled from the spec: the format tag of IMA/DVI-ADPCM, a constant of
`freerdp/codec/audio.h` (not among the sources); the registered RIFF value. -/
def WAVE_FORMAT_DVI_ADPCM : Nat := 0x0011

/-- Modelled from the spec: `wStream` (the spec's caller-visible growable output buffer)
is declared in `winpr/stream.h`, which is not among the sources: the bytes of the buffer
and the offset of the stream pointer from the start of the buffer.  The bytes of `buffer` are
the bytes known to be allocated (an implementation may allocate more).  Growing the buffer
(`Stream_EnsureCapacity`, `Stream_EnsureRemainingCapacity`) is taken to succeed and to
keep the contents. -/
structure wStream where
  buffer : List Nat
  pointer : Nat
deriving DecidableEq, Repr

/-- Modelled from the spec: `Stream_Write(out, data, length)` of `winpr/stream.h` copies
the bytes to the stream pointer and advances the pointer by their number. -/
def Stream_Write (out : wStream) (data : List Nat) : wStream :=
  { buffer := out.buffer.take out.pointer ++ data ++ out.buffer.drop (out.pointer + data.length)
    pointer := out.pointer + data.length }

/-- The stream after a codec stored the bytes `written` through
`dst = Stream_Buffer(out)`, `*dst++ = ...` and finished with `Stream_SetPointer(out, dst)`:
the bytes lie at the start of the buffer and the pointer is just behind them. -/
def Stream_StoreFromBuffer (out : wStream) (written : List Nat) : wStream :=
  { buffer := written ++ out.buffer.drop written.length
    pointer := written.length }

/-- Modelled from the spec: `Stream_EnsureRemainingCapacity(out, size)` of `winpr/stream.h`
(not among the sources) makes sure that at least `size` bytes are allocated behind the
stream pointer, and keeps the contents and the pointer.  Here the buffer grows by the
least number of bytes that gives this, which is all a caller can rely on (the new bytes
are 0); allocation is taken to succeed. -/
def Stream_EnsureRemainingCapacity (out : wStream) (size : Nat) : wStream :=
  { out with
    buffer := out.buffer ++ List.replicate (out.pointer + size - out.buffer.length) 0 }

/-- The stores `*dst++ = ...` of an encoder that started at `dst = Stream_Buffer(out)`
and finished with `Stream_SetPointer(out, dst)`, on a buffer that is not grown any more:
defined when every byte of `written` lies inside the bytes known to be allocated; a store
behind them is undefined (`none`). -/
def Stream_StoreInside (out : wStream) (written : List Nat) : Option wStream :=
  if written.length ≤ out.buffer.length then some (Stream_StoreFromBuffer out written)
  else none

/-- `struct _FREERDP_DSP_CONTEXT` (build without `WITH_GSM`); a stream pointer that is
`NULL` is `none`. -/
structure FREERDP_DSP_CONTEXT where
  encoder : Bool
  adpcm : ADPCM
  format : AUDIO_FORMAT
  buffer : Option wStream
  resample : Option wStream
deriving DecidableEq, Repr

/-! ## IMA / DVI ADPCM blocks -/

/-- The block header of one channel in `freerdp_dsp_decode_ima_adpcm`: the initial sample
from `src[0..1]`, the step index from `src[2]`, then `src += 4; size -= 4`.  `none` when
fewer than 4 bytes are left. -/
def ima_decode_header (adpcm : ADPCM) (channel : Fin 2) (src : List Nat) :
    Option (ADPCM × List Nat) := do
  let sample ← readINT16 src 0
  let step : Nat ← src[2]?
  if src.length < 4 then none
  else
    let ima : IMA :=
      { last_sample := Arr2.set adpcm.ima.last_sample channel sample
        last_step := Arr2.set adpcm.ima.last_step channel (toINT16 (step : Int)) }
    pure ({ adpcm with ima := ima }, src.drop 4)

/-- The `for (i = 0; i < 8; i++)` loop of the stereo branch of
`freerdp_dsp_decode_ima_adpcm`, from index `i` for `n` more rounds: one source byte per
round, two codes of channel `i < 4 ? 0 : 1`, four bytes stored into the 32-byte window
at `dst`. -/
def ima_decode_stereo_bytes : Nat → Nat → ADPCM → List Nat → List Nat →
    Option (ADPCM × List Nat × List Nat)
  | 0, _, adpcm, src, win => some (adpcm, src, win)
  | n + 1, i, adpcm, src, win => do
    let channel : Fin 2 := if i < 4 then 0 else 1
    let b ← src[0]?
    let sample := b &&& 0x0f
    let (decoded, adpcm) ← dsp_decode_ima_adpcm_sample adpcm channel sample
    let win := win.set (((i &&& 3) <<< 3) + (channel.val <<< 1)) (toBYTE (decoded % 256))
    let win := win.set (((i &&& 3) <<< 3) + (channel.val <<< 1) + 1) (toBYTE (decoded / 256))
    let sample := b >>> 4
    let (decoded, adpcm) ← dsp_decode_ima_adpcm_sample adpcm channel sample
    let win := win.set (((i &&& 3) <<< 3) + (channel.val <<< 1) + 4) (toBYTE (decoded % 256))
    let win := win.set (((i &&& 3) <<< 3) + (channel.val <<< 1) + 5) (toBYTE (decoded / 256))
    ima_decode_stereo_bytes n (i + 1) adpcm (src.drop 1) win

/-- The `while (size > 0)` loop of `freerdp_dsp_decode_ima_adpcm`.  `src` is the part of
the source not yet consumed (`size` is its length), `dst` the bytes stored so far.  The
first argument bounds the number of rounds; every round consumes at least one byte. -/
def ima_decode_loop (block_size channels : Nat) : Nat → ADPCM → List Nat → List Nat →
    Option (ADPCM × List Nat)
  | 0, adpcm, src, dst => if src.length = 0 then some (adpcm, dst) else none
  | fuel + 1, adpcm, src, dst =>
    if src.length = 0 then some (adpcm, dst)
    else if block_size = 0 then none
    else do
      let (adpcm, src) ←
        if src.length % block_size = 0 then do
          let (adpcm, src) ← ima_decode_header adpcm 0 src
          if channels > 1 then ima_decode_header adpcm 1 src else pure (adpcm, src)
        else pure (adpcm, src)
      if channels > 1 then do
        let (adpcm, src, win) ← ima_decode_stereo_bytes 8 0 adpcm src (List.replicate 32 0)
        ima_decode_loop block_size channels fuel adpcm src (dst ++ win)
      else do
        let b ← src[0]?
        let sample := b &&& 0x0f
        let (decoded, adpcm) ← dsp_decode_ima_adpcm_sample adpcm 0 sample
        let dst := dst ++ [toBYTE (decoded % 256), toBYTE (decoded / 256)]
        let sample := b >>> 4
        let (decoded, adpcm) ← dsp_decode_ima_adpcm_sample adpcm 0 sample
        let dst := dst ++ [toBYTE (decoded % 256), toBYTE (decoded / 256)]
        ima_decode_loop block_size channels fuel adpcm (src.drop 1) dst

/-- `freerdp_dsp_decode_ima_adpcm`: the result flag, the context and the output stream
after the call.  The `size * 4` bytes the call reserves from the start of the buffer
(`Stream_EnsureCapacity`) are taken to hold the bytes it stores. -/
def freerdp_dsp_decode_ima_adpcm (context : FREERDP_DSP_CONTEXT) (src : List Nat)
    (out : wStream) : Option (Bool × FREERDP_DSP_CONTEXT × wStream) := do
  let (adpcm, dst) ← ima_decode_loop context.format.nBlockAlign context.format.nChannels
    src.length context.adpcm src []
  pure (true, { context with adpcm := adpcm }, Stream_StoreFromBuffer out dst)

/-- The table `ima_stereo_encode_map`: `(byte_num, byte_shift)`. -/
def ima_stereo_encode_map : List (Nat × Nat) :=
  [(0, 0), (4, 0), (0, 4), (4, 4),
   (1, 0), (5, 0), (1, 4), (5, 4),
   (2, 0), (6, 0), (2, 4), (6, 4),
   (3, 0), (7, 0), (3, 4), (7, 4)]

/-- The four header bytes of one channel in `freerdp_dsp_encode_ima_adpcm`. -/
def ima_encode_header (adpcm : ADPCM) (channel : Fin 2) : List Nat :=
  [toBYTE (Arr2.get adpcm.ima.last_sample channel),
   toBYTE ((Arr2.get adpcm.ima.last_sample channel) >>> (8 : Nat)),
   toBYTE (Arr2.get adpcm.ima.last_step channel),
   0]

/-- The `for (i = 0; i < 16; i++)` loop of the stereo branch of
`freerdp_dsp_encode_ima_adpcm`, from index `i` for `n` more rounds: one sample of channel
`i % 2` per round, its code or-ed into the 8-byte window at `dst`. -/
def ima_encode_stereo_samples : Nat → Nat → ADPCM → List Nat → List Nat →
    Option (ADPCM × List Nat × List Nat)
  | 0, _, adpcm, src, win => some (adpcm, src, win)
  | n + 1, i, adpcm, src, win => do
    let sample ← readINT16 src 0
    let src := src.drop 2
    let channel : Fin 2 := if i % 2 = 0 then 0 else 1
    let (encoded, adpcm) ← dsp_encode_ima_adpcm_sample adpcm channel sample
    let (byte_num, byte_shift) ← ima_stereo_encode_map[i]?
    let old ← win[byte_num]?
    let win := win.set byte_num ((old ||| (encoded <<< byte_shift)) % 256)
    ima_encode_stereo_samples n (i + 1) adpcm src win

/-- The `while (size > 0)` loop of `freerdp_dsp_encode_ima_adpcm`.  `src` is the part of
the source not yet consumed, `dst` the bytes stored so far (`dst - Stream_Buffer(out)` is
its length).  The first argument bounds the number of rounds; every round consumes at
least four bytes. -/
def ima_encode_loop (block_align channels : Nat) : Nat → ADPCM → List Nat → List Nat →
    Option (ADPCM × List Nat)
  | 0, adpcm, src, dst => if src.length = 0 then some (adpcm, dst) else none
  | fuel + 1, adpcm, src, dst =>
    if src.length = 0 then some (adpcm, dst)
    else if block_align = 0 then none
    else do
      let dst :=
        if dst.length % block_align = 0 then
          let dst := dst ++ ima_encode_header adpcm 0
          if channels > 1 then dst ++ ima_encode_header adpcm 1 else dst
        else dst
      if channels > 1 then do
        let (adpcm, src, win) ← ima_encode_stereo_samples 16 0 adpcm src (List.replicate 8 0)
        ima_encode_loop block_align channels fuel adpcm src (dst ++ win)
      else do
        let sample ← readINT16 src 0
        let src := src.drop 2
        let (encoded, adpcm) ← dsp_encode_ima_adpcm_sample adpcm 0 sample
        let sample ← readINT16 src 0
        let src := src.drop 2
        let (encoded2, adpcm) ← dsp_encode_ima_adpcm_sample adpcm 0 sample
        let encoded := (encoded ||| (encoded2 <<< 4)) % 256
        ima_encode_loop block_align channels fuel adpcm src (dst ++ [encoded])

/-- `freerdp_dsp_encode_ima_adpcm`: the result flag, the context and the output stream
after the call.  The call reserves `out_size = size / 2` bytes behind the stream pointer
(`UINT32 out_size`) and then stores from the start of the buffer; it is undefined (`none`)
when the bytes it stores do not fit the buffer it reserved. -/
def freerdp_dsp_encode_ima_adpcm (context : FREERDP_DSP_CONTEXT) (src : List Nat)
    (out : wStream) : Option (Bool × FREERDP_DSP_CONTEXT × wStream) := do
  let out_size := src.length / 2 % 4294967296
  let out := Stream_EnsureRemainingCapacity out out_size
  let (adpcm, dst) ← ima_encode_loop context.format.nBlockAlign context.format.nChannels
    src.length context.adpcm src []
  let out ← Stream_StoreInside out dst
  pure (true, { context with adpcm := adpcm }, out)

/-! ## Microsoft ADPCM -/

def ms_adpcm_adaptation_table : List Int :=
  [230, 230, 230, 230, 307, 409, 512, 614,
   768, 614, 512, 409, 307, 230, 230, 230]

def ms_adpcm_coeffs1 : List Int := [256, 512, 0, 192, 240, 460, 392]

def ms_adpcm_coeffs2 : List Int := [0, -256, 0, 64, 0, -208, -232]

/-- The prediction shared by the MS sample decoder and encoder:
`((sample1 * coeffs1[predictor]) + (sample2 * coeffs2[predictor])) / 256` in `INT32`
arithmetic.  `none` when the predictor index is outside the 7-entry tables. -/
def ms_adpcm_predict (adpcm : ADPCM) (channel : Fin 2) : Option Int := do
  let c1 ← ms_adpcm_coeffs1[Arr2.get adpcm.ms.predictor channel]?
  let c2 ← ms_adpcm_coeffs2[Arr2.get adpcm.ms.predictor channel]?
  pure (Int.tdiv (toINT32 (toINT32 (Arr2.get adpcm.ms.sample1 channel * c1) +
    toINT32 (Arr2.get adpcm.ms.sample2 channel * c2))) 256)

/-- The state update shared by the MS sample decoder and encoder: shift the sample
history, store the reconstructed sample, adapt `delta` by the table entry and floor it
at 16. -/
def ms_adpcm_update (adpcm : ADPCM) (channel : Fin 2) (presample adapt : Int) : ADPCM :=
  let delta := Int.tdiv (toINT32 (Arr2.get adpcm.ms.delta channel * adapt)) 256
  let delta := if delta < 16 then 16 else delta
  { adpcm with ms :=
    { predictor := adpcm.ms.predictor
      sample2 := Arr2.set adpcm.ms.sample2 channel (Arr2.get adpcm.ms.sample1 channel)
      sample1 := Arr2.set adpcm.ms.sample1 channel presample
      delta := Arr2.set adpcm.ms.delta channel delta } }

/-- The clamp `if (x > 32767) x = 32767; else if (x < -32768) x = -32768;` of the MS
sample functions. -/
def ms_clamp (presample : Int) : Int :=
  if presample > 32767 then 32767 else if presample < -32768 then -32768 else presample

/-- `freerdp_dsp_decode_ms_adpcm_sample`: returns the `INT16` result and the new state. -/
def freerdp_dsp_decode_ms_adpcm_sample (adpcm : ADPCM) (sample : Nat) (channel : Fin 2) :
    Option (Int × ADPCM) := do
  let nibble : Int := toINT8 (if sample &&& 0x08 ≠ 0 then toINT8 (sample : Int) - 16 else sample)
  let presample ← ms_adpcm_predict adpcm channel
  let presample := toINT32 (presample + toINT32 (nibble * Arr2.get adpcm.ms.delta channel))
  let presample := ms_clamp presample
  let adapt ← ms_adpcm_adaptation_table[sample]?
  pure (toINT16 presample, ms_adpcm_update adpcm channel presample adapt)

/-- The quotient `errordelta` of the MS sample encoder before it is clamped:
`err / delta`, incremented when `err % delta > delta / 2`. -/
def ms_encode_errordelta (err delta : Int) : Int :=
  let errordelta := Int.tdiv err delta
  if Int.tmod err delta > Int.tdiv delta 2 then toINT32 (errordelta + 1) else errordelta

/-- The clamp `if (errordelta > 7) errordelta = 7; else if (errordelta < -8) errordelta = -8;`. -/
def ms_clamp_nibble (errordelta : Int) : Int :=
  if errordelta > 7 then 7 else if errordelta < -8 then -8 else errordelta

/-- `freerdp_dsp_encode_ms_adpcm_sample`: returns the 4-bit code and the new state.
`none` when the division by `delta` is undefined (`delta` is 0, or the quotient
overflows). -/
def freerdp_dsp_encode_ms_adpcm_sample (adpcm : ADPCM) (sample : Int) (channel : Fin 2) :
    Option (Nat × ADPCM) := do
  let presample ← ms_adpcm_predict adpcm channel
  let delta := Arr2.get adpcm.ms.delta channel
  let err := toINT32 (sample - presample)
  if delta = 0 ∨ (err = -2147483648 ∧ delta = -1) then none
  else
    let errordelta := ms_encode_errordelta err delta
    let errordelta := ms_clamp_nibble errordelta
    let presample := toINT32 (presample + toINT32 (delta * errordelta))
    let presample := ms_clamp presample
    let adapt ← ms_adpcm_adaptation_table[toBYTE errordelta &&& 0x0F]?
    pure (toBYTE errordelta &&& 0x0F, ms_adpcm_update adpcm channel presample adapt)

/-- The block header of `freerdp_dsp_decode_ms_adpcm`, stereo branch: 14 bytes are read
into the state of both channels and the four header samples are stored.  Returns the
state, the rest of the source and the bytes stored. -/
def ms_decode_header_stereo (adpcm : ADPCM) (src : List Nat) :
    Option (ADPCM × List Nat × List Nat) := do
  let p0 ← src[0]?
  let p1 ← src[1]?
  let d0 ← readINT16 src 2
  let d1 ← readINT16 src 4
  let s10 ← readINT16 src 6
  let s11 ← readINT16 src 8
  let s20 ← readINT16 src 10
  let s21 ← readINT16 src 12
  let ms : MS :=
    { predictor := (p0, p1), delta := (d0, d1), sample1 := (s10, s11), sample2 := (s20, s21) }
  pure ({ adpcm with ms := ms }, src.drop 14,
    bytesINT16 (toINT16 s20) ++ bytesINT16 (toINT16 s21) ++
    bytesINT16 (toINT16 s10) ++ bytesINT16 (toINT16 s11))

/-- The block header of `freerdp_dsp_decode_ms_adpcm`, mono branch: 7 bytes are read into
the state of channel 0 and the two header samples are stored. -/
def ms_decode_header_mono (adpcm : ADPCM) (src : List Nat) :
    Option (ADPCM × List Nat × List Nat) := do
  let p0 ← src[0]?
  let d0 ← readINT16 src 1
  let s10 ← readINT16 src 3
  let s20 ← readINT16 src 5
  let ms : MS :=
    { predictor := Arr2.set adpcm.ms.predictor 0 p0
      delta := Arr2.set adpcm.ms.delta 0 d0
      sample1 := Arr2.set adpcm.ms.sample1 0 s10
      sample2 := Arr2.set adpcm.ms.sample2 0 s20 }
  pure ({ adpcm with ms := ms }, src.drop 7,
    bytesINT16 (toINT16 s20) ++ bytesINT16 (toINT16 s10))

/-- The block-boundary step of `freerdp_dsp_decode_ms_adpcm`: at `size % block_size == 0`
the header is parsed, otherwise nothing happens.  `none` when `block_size` is 0. -/
def ms_decode_header (block_size channels : Nat) (adpcm : ADPCM) (src : List Nat) :
    Option (ADPCM × List Nat × List Nat) :=
  if block_size = 0 then none
  else if src.length % block_size = 0 then
    if channels > 1 then ms_decode_header_stereo adpcm src
    else ms_decode_header_mono adpcm src
  else some (adpcm, src, [])

/-- One data byte of `freerdp_dsp_decode_ms_adpcm`: the high nibble is decoded on channel
`chHi`, then the low nibble on channel `chLo`; four bytes are stored. -/
def ms_decode_byte (adpcm : ADPCM) (src : List Nat) (chHi chLo : Fin 2) :
    Option (ADPCM × List Nat × List Nat) := do
  let sample ← src[0]?
  let (r1, adpcm) ← freerdp_dsp_decode_ms_adpcm_sample adpcm (sample >>> 4) chHi
  let (r2, adpcm) ← freerdp_dsp_decode_ms_adpcm_sample adpcm (sample &&& 0x0F) chLo
  pure (adpcm, src.drop 1, bytesINT16 r1 ++ bytesINT16 r2)

/-- The `while (size > 0)` loop of `freerdp_dsp_decode_ms_adpcm`.  `src` is the part of
the source not yet consumed (`size` is its length), `dst` the bytes stored so far.  The
first argument bounds the number of rounds; every round consumes at least one byte. -/
def ms_decode_loop (block_size channels : Nat) : Nat → ADPCM → List Nat → List Nat →
    Option (ADPCM × List Nat)
  | 0, adpcm, src, dst => if src.length = 0 then some (adpcm, dst) else none
  | fuel + 1, adpcm, src, dst =>
    if src.length = 0 then some (adpcm, dst)
    else do
      let (adpcm, src, hdr) ← ms_decode_header block_size channels adpcm src
      let dst := dst ++ hdr
      if channels > 1 then do
        let (adpcm, src, w1) ← ms_decode_byte adpcm src 0 1
        let (adpcm, src, w2) ← ms_decode_byte adpcm src 0 1
        ms_decode_loop block_size channels fuel adpcm src (dst ++ w1 ++ w2)
      else do
        let (adpcm, src, w) ← ms_decode_byte adpcm src 0 0
        ms_decode_loop block_size channels fuel adpcm src (dst ++ w)

/-- `freerdp_dsp_decode_ms_adpcm`: the result flag, the context and the output stream
after the call.  The `size * 4` bytes the call reserves from the start of the buffer
(`Stream_EnsureCapacity`) are taken to hold the bytes it stores. -/
def freerdp_dsp_decode_ms_adpcm (context : FREERDP_DSP_CONTEXT) (src : List Nat)
    (out : wStream) : Option (Bool × FREERDP_DSP_CONTEXT × wStream) := do
  let (adpcm, dst) ← ms_decode_loop context.format.nBlockAlign context.format.nChannels
    src.length context.adpcm src []
  pure (true, { context with adpcm := adpcm }, Stream_StoreFromBuffer out dst)

/-- The floor `if (delta[c] < 16) delta[c] = 16;` applied to both channels at the start
of `freerdp_dsp_encode_ms_adpcm`. -/
def ms_encode_init (adpcm : ADPCM) : ADPCM :=
  let delta := adpcm.ms.delta
  let delta := if Arr2.get delta 0 < 16 then Arr2.set delta 0 16 else delta
  let delta := if Arr2.get delta 1 < 16 then Arr2.set delta 1 16 else delta
  { adpcm with ms := { adpcm.ms with delta := delta } }

/-- The block header of `freerdp_dsp_encode_ms_adpcm`, stereo branch: predictors and
deltas are stored, the first two samples of each channel are read into the state and
stored; 8 source bytes are consumed. -/
def ms_encode_header_stereo (adpcm : ADPCM) (src : List Nat) :
    Option (ADPCM × List Nat × List Nat) := do
  let s10 ← readINT16 src 4
  let s11 ← readINT16 src 6
  let s20 ← readINT16 src 0
  let s21 ← readINT16 src 2
  let ms : MS := { adpcm.ms with sample1 := (s10, s11), sample2 := (s20, s21) }
  pure ({ adpcm with ms := ms }, src.drop 8,
    [Arr2.get adpcm.ms.predictor 0 % 256, Arr2.get adpcm.ms.predictor 1 % 256] ++
    bytesINT16 (Arr2.get adpcm.ms.delta 0) ++ bytesINT16 (Arr2.get adpcm.ms.delta 1) ++
    bytesINT16 (toINT16 s10) ++ bytesINT16 (toINT16 s11) ++
    bytesINT16 (toINT16 s20) ++ bytesINT16 (toINT16 s21))

/-- The block header of `freerdp_dsp_encode_ms_adpcm`, mono branch: predictor and delta
are stored, the first two samples are read into the state and stored; 4 source bytes
are consumed. -/
def ms_encode_header_mono (adpcm : ADPCM) (src : List Nat) :
    Option (ADPCM × List Nat × List Nat) := do
  let s10 ← readINT16 src 2
  let s20 ← readINT16 src 0
  let ms : MS :=
    { adpcm.ms with
      sample1 := Arr2.set adpcm.ms.sample1 0 s10
      sample2 := Arr2.set adpcm.ms.sample2 0 s20 }
  pure ({ adpcm with ms := ms }, src.drop 4,
    [Arr2.get adpcm.ms.predictor 0 % 256] ++ bytesINT16 (Arr2.get adpcm.ms.delta 0) ++
    bytesINT16 (toINT16 s10) ++ bytesINT16 (toINT16 s20))

/-- The `while (size > 0)` loop of `freerdp_dsp_encode_ms_adpcm`.  `src` is the part of
the source not yet consumed, `dst` the bytes stored so far (`dst - Stream_Buffer(out)` is
its length).  The first argument bounds the number of rounds; every round consumes at
least four bytes. -/
def ms_encode_loop (block_align channels : Nat) : Nat → ADPCM → List Nat → List Nat →
    Option (ADPCM × List Nat)
  | 0, adpcm, src, dst => if src.length = 0 then some (adpcm, dst) else none
  | fuel + 1, adpcm, src, dst =>
    if src.length = 0 then some (adpcm, dst)
    else if block_align = 0 then none
    else do
      let (adpcm, src, hdr) ←
        if dst.length % block_align = 0 then
          if channels > 1 then ms_encode_header_stereo adpcm src
          else ms_encode_header_mono adpcm src
        else pure (adpcm, src, [])
      let dst := dst ++ hdr
      let sample ← readINT16 src 0
      let src := src.drop 2
      let (e1, adpcm) ← freerdp_dsp_encode_ms_adpcm_sample adpcm sample 0
      let byte := (e1 <<< 4) % 256
      let sample ← readINT16 src 0
      let src := src.drop 2
      let (e2, adpcm) ←
        freerdp_dsp_encode_ms_adpcm_sample adpcm sample (if channels > 1 then 1 else 0)
      let byte := (byte + e2) % 256
      ms_encode_loop block_align channels fuel adpcm src (dst ++ [byte])

/-- `freerdp_dsp_encode_ms_adpcm`: the result flag, the context and the output stream
after the call.  The call reserves `out_size = size / 2` bytes behind the stream pointer
(`UINT32 out_size`), raises the deltas to the floor and then stores from the start of the
buffer; it is undefined (`none`) when the bytes it stores do not fit the buffer it
reserved. -/
def freerdp_dsp_encode_ms_adpcm (context : FREERDP_DSP_CONTEXT) (src : List Nat)
    (out : wStream) : Option (Bool × FREERDP_DSP_CONTEXT × wStream) := do
  let out_size := src.length / 2 % 4294967296
  let out := Stream_EnsureRemainingCapacity out out_size
  let (adpcm, dst) ← ms_encode_loop context.format.nBlockAlign context.format.nChannels
    src.length (ms_encode_init context.adpcm) src []
  let out ← Stream_StoreInside out dst
  pure (true, { context with adpcm := adpcm }, out)

/-! ## Context life cycle, dispatch and capabilities (build without `WITH_FFMPEG` and
`WITH_GSM`) -/

/-- `freerdp_dsp_context_new`: a zero-filled context (`calloc`) with the mode flag set;
allocation is taken to succeed. -/
def freerdp_dsp_context_new (encoder : Bool) : FREERDP_DSP_CONTEXT :=
  { encoder := encoder
    adpcm := ADPCM.zero
    format :=
      { wFormatTag := 0, nChannels := 0, nSamplesPerSec := 0, nAvgBytesPerSec := 0,
        nBlockAlign := 0, wBitsPerSample := 0, cbSize := 0 }
    buffer := none
    resample := none }

/-- `freerdp_dsp_supports_format`. -/
def freerdp_dsp_supports_format (format : AUDIO_FORMAT) (_encode : Bool) : Bool :=
  if format.wFormatTag = WAVE_FORMAT_PCM then true
  else if format.wFormatTag = WAVE_FORMAT_ADPCM then true
  else if format.wFormatTag = WAVE_FORMAT_DVI_ADPCM then true
  else false

/-- `freerdp_dsp_context_reset`: the result flag and the context after the call; a `NULL`
argument is `none`. -/
def freerdp_dsp_context_reset (context : Option FREERDP_DSP_CONTEXT)
    (targetFormat : Option AUDIO_FORMAT) : Bool × Option FREERDP_DSP_CONTEXT :=
  match context, targetFormat with
  | some ctx, some fmt => (true, some { ctx with format := fmt })
  | _, _ => (false, context)

/-- `freerdp_dsp_encode`: the result flag, the context and the output stream after the
call; a `NULL` argument is `none`; `length` is the length of `data`. -/
def freerdp_dsp_encode (context : Option FREERDP_DSP_CONTEXT) (srcFormat : Option AUDIO_FORMAT)
    (data : Option (List Nat)) (out : Option wStream) :
    Option (Bool × Option FREERDP_DSP_CONTEXT × Option wStream) :=
  match context, srcFormat, data, out with
  | some ctx, some _, some data, some out =>
    if !ctx.encoder then some (false, some ctx, some out)
    else if ctx.format.wFormatTag = WAVE_FORMAT_PCM then
      some (true, some ctx, some (Stream_Write out data))
    else if ctx.format.wFormatTag = WAVE_FORMAT_ADPCM then
      (freerdp_dsp_encode_ms_adpcm ctx data out).map (fun r => (r.1, some r.2.1, some r.2.2))
    else if ctx.format.wFormatTag = WAVE_FORMAT_DVI_ADPCM then
      (freerdp_dsp_encode_ima_adpcm ctx data out).map (fun r => (r.1, some r.2.1, some r.2.2))
    else some (false, some ctx, some out)
  | _, _, _, _ => some (false, context, out)

/-- `freerdp_dsp_decode`: the result flag, the context and the output stream after the
call; a `NULL` argument is `none`; `length` is the length of `data`. -/
def freerdp_dsp_decode (context : Option FREERDP_DSP_CONTEXT) (srcFormat : Option AUDIO_FORMAT)
    (data : Option (List Nat)) (out : Option wStream) :
    Option (Bool × Option FREERDP_DSP_CONTEXT × Option wStream) :=
  match context, srcFormat, data, out with
  | some ctx, some _, some data, some out =>
    if ctx.encoder then some (false, some ctx, some out)
    else if ctx.format.wFormatTag = WAVE_FORMAT_PCM then
      some (true, some ctx, some (Stream_Write out data))
    else if ctx.format.wFormatTag = WAVE_FORMAT_ADPCM then
      (freerdp_dsp_decode_ms_adpcm ctx data out).map (fun r => (r.1, some r.2.1, some r.2.2))
    else if ctx.format.wFormatTag = WAVE_FORMAT_DVI_ADPCM then
      (freerdp_dsp_decode_ima_adpcm ctx data out).map (fun r => (r.1, some r.2.1, some r.2.2))
    else some (false, some ctx, some out)
  | _, _, _, _ => some (false, context, out)

/-! ## Further notions used to state the properties -/

/-- A sample MS state: predictor 1 and 6, delta 16 and -3, a short sample history. -/
def ms_state_example : ADPCM :=
  { ima := { last_sample := (0, 0), last_step := (0, 0) }
    ms := { predictor := (1, 6), delta := (16, -3), sample1 := (100, -7), sample2 := (90, 12) } }

/-- The bytes of a sequence of 16-bit samples, little-endian, in order. -/
def pcm16 (samples : List Int) : List Nat := samples.flatMap bytesINT16

/-- The values the encoder reconstructs for a sequence of samples of one channel:
`last_sample[c]` right after each call of `dsp_encode_ima_adpcm_sample`, together with the
state after the last call. -/
def ima_encode_trace (adpcm : ADPCM) (c : Fin 2) : List Int → Option (ADPCM × List Int)
  | [] => some (adpcm, [])
  | s :: rest => do
    let (_, adpcm) ← dsp_encode_ima_adpcm_sample adpcm c s
    let (final, tr) ← ima_encode_trace adpcm c rest
    pure (final, Arr2.get adpcm.ima.last_sample c :: tr)

/-- The state fits its C types on channel 0 and its step index is inside the table. -/
def ima_ok (adpcm : ADPCM) : Prop :=
  0 ≤ Arr2.get adpcm.ima.last_step 0 ∧ Arr2.get adpcm.ima.last_step 0 ≤ 88 ∧
  -32768 ≤ Arr2.get adpcm.ima.last_sample 0 ∧ Arr2.get adpcm.ima.last_sample 0 ≤ 32767

instance (adpcm : ADPCM) : Decidable (ima_ok adpcm) := by
  unfold ima_ok; infer_instance

/-- A mono IMA/DVI-ADPCM format with `nBlockAlign = 5`: one data byte per block. -/
def ima_mono_format : AUDIO_FORMAT :=
  { wFormatTag := WAVE_FORMAT_DVI_ADPCM, nChannels := 1, nSamplesPerSec := 8000,
    nAvgBytesPerSec := 0, nBlockAlign := 5, wBitsPerSample := 4, cbSize := 0 }

/-- An MP3 format (tag `0x0055`), which the native engine has no codec for. -/
def mp3_format : AUDIO_FORMAT :=
  { wFormatTag := 0x0055, nChannels := 2, nSamplesPerSec := 44100,
    nAvgBytesPerSec := 16000, nBlockAlign := 1, wBitsPerSample := 0, cbSize := 12 }

/-- A 16-bit stereo PCM format. -/
def pcm_format : AUDIO_FORMAT :=
  { wFormatTag := WAVE_FORMAT_PCM, nChannels := 2, nSamplesPerSec := 44100,
    nAvgBytesPerSec := 176400, nBlockAlign := 4, wBitsPerSample := 16, cbSize := 0 }

/-- A mono IMA/DVI-ADPCM format with `nBlockAlign = 4`: the size of the header alone. -/
def ima_mono_format4 : AUDIO_FORMAT :=
  { wFormatTag := WAVE_FORMAT_DVI_ADPCM, nChannels := 1, nSamplesPerSec := 8000,
    nAvgBytesPerSec := 0, nBlockAlign := 4, wBitsPerSample := 4, cbSize := 0 }

/-- The MS state at the start of a stereo block whose header carries predictor 0,
delta 16 and zero samples on both channels. -/
def ms_state_stereo_start : ADPCM :=
  { ima := { last_sample := (0, 0), last_step := (0, 0) }
    ms := { predictor := (0, 0), delta := (16, 16), sample1 := (0, 0), sample2 := (0, 0) } }

/-- An MS state with predictor 0 on channel 1, a large delta and a non-zero history. -/
def ms_zero_code_state : ADPCM :=
  { ima := { last_sample := (0, 0), last_step := (0, 0) }
    ms := { predictor := (3, 0), delta := (16, 70000), sample1 := (5, -1234),
            sample2 := (6, 31000) } }

/-- The MS encoder can step on channel 0 and on channel `c1` (the second channel in use:
1 for stereo, 0 for mono): the predictor indices are inside the coefficient tables and
the deltas are at least 16. -/
def ms_encode_ok (adpcm : ADPCM) (c1 : Fin 2) : Prop :=
  Arr2.get adpcm.ms.predictor 0 ≤ 6 ∧ Arr2.get adpcm.ms.predictor c1 ≤ 6 ∧
  16 ≤ Arr2.get adpcm.ms.delta 0 ∧ 16 ≤ Arr2.get adpcm.ms.delta c1

/-- The MS decoder can step on channel 0 and on channel `c1`: the predictor indices are
inside the coefficient tables. -/
def ms_decode_ok (adpcm : ADPCM) (c1 : Fin 2) : Prop :=
  Arr2.get adpcm.ms.predictor 0 ≤ 6 ∧ Arr2.get adpcm.ms.predictor c1 ≤ 6

/-- A mono MS-ADPCM format with `nBlockAlign = 8`: the 7-byte header and one data byte. -/
def ms_mono_format8 : AUDIO_FORMAT :=
  { wFormatTag := WAVE_FORMAT_ADPCM, nChannels := 1, nSamplesPerSec := 8000,
    nAvgBytesPerSec := 0, nBlockAlign := 8, wBitsPerSample := 4, cbSize := 32 }

/-- A stereo MS-ADPCM format with `nBlockAlign = 15`: the 14-byte header and one data
byte. -/
def ms_stereo_format15 : AUDIO_FORMAT :=
  { wFormatTag := WAVE_FORMAT_ADPCM, nChannels := 2, nSamplesPerSec := 8000,
    nAvgBytesPerSec := 0, nBlockAlign := 15, wBitsPerSample := 4, cbSize := 32 }

/-! ## Linear resampler -/

/-- Conversion to `UINT32`. -/
def toUINT32 (x : Int) : Int := x % 4294967296

/-- Conversion to a 64-bit `size_t`. -/
def toSIZE (x : Int) : Int := x % 18446744073709551616

/-- The source frame `n1` of output frame `i` in `freerdp_dsp_resample`:
`n1 = i * srate / rrate` (unsigned 32-bit arithmetic, stored in an `int`), replaced by
`sframes - 1` when `n1 >= sframes` (compared as `size_t`). -/
def resample_n1 (srate rrate sframes : Nat) (i : Int) : Int :=
  let n1 := toINT32 (toUINT32 (i * srate) / rrate)
  if toSIZE n1 ≥ sframes then toINT32 (toSIZE ((sframes : Int) - 1)) else n1

/-- The source frame `n2` of output frame `i` in `freerdp_dsp_resample`:
`n1 * rrate == i * srate || n1 == sframes - 1 ? n1 : n1 + 1`. -/
def resample_n2 (srate rrate sframes : Nat) (i : Int) : Int :=
  let n1 := resample_n1 srate rrate sframes i
  if toUINT32 (n1 * rrate) = toUINT32 (i * srate) ∨ toSIZE n1 = toSIZE ((sframes : Int) - 1)
  then n1 else toINT32 (n1 + 1)

/-- The index of the source byte copied to lane `j` of output frame `i`:
`i * srate - n1 * rrate > n2 * rrate - i * srate ? n2 * sbytes + (j % sbytes)
 : n1 * sbytes + (j % sbytes)`, the comparison in unsigned 32-bit arithmetic. -/
def resample_index (srate rrate sframes : Nat) (sbytes i j : Int) : Int :=
  let n1 := resample_n1 srate rrate sframes i
  let n2 := resample_n2 srate rrate sframes i
  if toUINT32 (toUINT32 (i * srate) - toUINT32 (n1 * rrate)) >
      toUINT32 (toUINT32 (n2 * rrate) - toUINT32 (i * srate))
  then toINT32 (toINT32 (n2 * sbytes) + Int.tmod j sbytes)
  else toINT32 (toINT32 (n1 * sbytes) + Int.tmod j sbytes)

/-- The byte stored for lane `j` of output frame `i`; `none` when a division by zero
(`rrate`, `sbytes`) or a read outside the source makes it undefined. -/
def resample_byte (src : List Nat) (srate rrate sframes : Nat) (sbytes i j : Int) :
    Option Nat :=
  if rrate = 0 ∨ sbytes = 0 then none
  else
    let idx := resample_index srate rrate sframes sbytes i j
    if 0 ≤ idx then src[idx.toNat]? else none

/-- The loop `for (j = ...; j < rbytes; j++)` of `freerdp_dsp_resample` for output frame
`i`, from lane `j` for `n` more lanes. -/
def resample_lanes (src : List Nat) (srate rrate sframes : Nat) (sbytes i : Int) :
    Nat → Int → Option (List Nat)
  | 0, _ => some []
  | n + 1, j => do
    let b ← resample_byte src srate rrate sframes sbytes i j
    let rest ← resample_lanes src srate rrate sframes sbytes i n (j + 1)
    pure (b :: rest)

/-- The loop `for (i = ...; i < rframes; i++)` of `freerdp_dsp_resample`, from frame `i`
for `n` more frames. -/
def resample_frames (src : List Nat) (srate rrate sframes : Nat) (sbytes rbytes : Int) :
    Nat → Int → Option (List Nat)
  | 0, _ => some []
  | n + 1, i => do
    let frame ← resample_lanes src srate rrate sframes sbytes i rbytes.toNat 0
    let rest ← resample_frames src srate rrate sframes sbytes rbytes n (i + 1)
    pure (frame ++ rest)

/-- `freerdp_dsp_resample`: the result flag and the context after the call.  The bytes
are stored from the start of the buffer of `context->resample`, whose pointer is set
behind them; `none` when `context->resample` is `NULL`, when `srate` is 0, or when the
loop is undefined. -/
def freerdp_dsp_resample (context : FREERDP_DSP_CONTEXT) (src : List Nat)
    (bytes_per_sample schan srate sframes rchan rrate : Nat) :
    Option (Bool × FREERDP_DSP_CONTEXT) :=
  let sbytes := toINT32 (toSIZE ((bytes_per_sample : Int) * schan))
  let rbytes := toINT32 (toSIZE ((bytes_per_sample : Int) * rchan))
  if srate = 0 then none
  else
    let rframes := toINT32 (toSIZE ((sframes : Int) * rrate) / srate)
    match context.resample with
    | none => none
    | some stream => do
      let written ← resample_frames src srate rrate sframes sbytes rbytes rframes.toNat 0
      pure (true, { context with resample := some (Stream_StoreFromBuffer stream written) })

/-- A context whose resample stream has been created (empty). -/
def resample_context : FREERDP_DSP_CONTEXT :=
  { freerdp_dsp_context_new true with resample := some { buffer := [], pointer := 0 } }

/-! ## External backend: capability query (`channels/rdpsnd/client/rdpsnd_ffmpeg.c`) -/

/-- Modelled from the spec: the tag of an unknown format, a constant of
`freerdp/codec/audio.h` (not among the sources); the registered RIFF value. -/
def WAVE_FORMAT_UNKNOWN : Nat := 0x0000

/-- Modelled from the spec: the tag of IEEE float PCM, a constant of
`freerdp/codec/audio.h` (not among the sources); the registered RIFF value. -/
def WAVE_FORMAT_IEEE_FLOAT : Nat := 0x0003

/-- Modelled from the spec: the tag of A-law, a constant of `freerdp/codec/audio.h` (not
among the sources); the registered RIFF value. -/
def WAVE_FORMAT_ALAW : Nat := 0x0006

/-- Modelled from the spec: the tag of µ-law, a constant of `freerdp/codec/audio.h` (not
among the sources); the registered RIFF value. -/
def WAVE_FORMAT_MULAW : Nat := 0x0007

/-- Modelled from the spec: the tag of OKI ADPCM, a constant of `freerdp/codec/audio.h`
(not among the sources); the registered RIFF value. -/
def WAVE_FORMAT_OKI_ADPCM : Nat := 0x0010

/-- Modelled from the spec: the tag of G.723 ADPCM, a constant of `freerdp/codec/audio.h`
(not among the sources); the registered RIFF value. -/
def WAVE_FORMAT_G723_ADPCM : Nat := 0x0014

/-- Modelled from the spec: the tag of GSM 6.10, a constant of `freerdp/codec/audio.h`
(not among the sources); the registered RIFF value. -/
def WAVE_FORMAT_GSM610 : Nat := 0x0031

/-- Modelled from the spec: the tag of MPEG layer 3, a constant of
`freerdp/codec/audio.h` (not among the sources); the registered RIFF value. -/
def WAVE_FORMAT_MPEGLAYER3 : Nat := 0x0055

/-- Modelled from the spec: the tag of G.726 ADPCM, a constant of `freerdp/codec/audio.h`
(not among the sources); the registered RIFF value. -/
def WAVE_FORMAT_G726_ADPCM : Nat := 0x0064

/-- Modelled from the spec: the tag of G.722 ADPCM, a constant of `freerdp/codec/audio.h`
(not among the sources); the registered RIFF value. -/
def WAVE_FORMAT_G722_ADPCM : Nat := 0x0065

/-- Modelled from the spec: the tag of G.729A, a constant of `freerdp/codec/audio.h` (not
among the sources); the registered RIFF value. -/
def WAVE_FORMAT_G729A : Nat := 0x0083

/-- Modelled from the spec: the tag of AC-3 over S/PDIF, a constant of
`freerdp/codec/audio.h` (not among the sources); the registered RIFF value. -/
def WAVE_FORMAT_DOLBY_AC3_SPDIF : Nat := 0x0092

/-- Modelled from the spec: the tag of WMA version 2, a constant of
`freerdp/codec/audio.h` (not among the sources); the registered RIFF value. -/
def WAVE_FORMAT_WMAUDIO2 : Nat := 0x0161

/-- Modelled from the spec: the tag of WMA lossless, a constant of
`freerdp/codec/audio.h` (not among the sources); the registered RIFF value. -/
def WAVE_FORMAT_WMAUDIO_LOSSLESS : Nat := 0x0163

/-- Modelled from the spec: the tag of AAC, a constant of `freerdp/codec/audio.h` (not
among the sources); the registered RIFF value. -/
def WAVE_FORMAT_AAC_MS : Nat := 0xA106

/-- Modelled from the spec: the backend codec identifiers, the members of
`enum AVCodecID` of the external library (not among the sources) that
`rdpsnd_ffmpeg_get_avcodec` returns. -/
inductive AVCodecID where
  | AV_CODEC_ID_NONE
  | AV_CODEC_ID_PCM_U16LE
  | AV_CODEC_ID_PCM_U8
  | AV_CODEC_ID_ADPCM_MS
  | AV_CODEC_ID_PCM_F32LE
  | AV_CODEC_ID_PCM_ALAW
  | AV_CODEC_ID_PCM_MULAW
  | AV_CODEC_ID_ADPCM_IMA_OKI
  | AV_CODEC_ID_G723_1
  | AV_CODEC_ID_GSM_MS
  | AV_CODEC_ID_MP3
  | AV_CODEC_ID_ADPCM_G726
  | AV_CODEC_ID_ADPCM_G722
  | AV_CODEC_ID_G729
  | AV_CODEC_ID_AC3
  | AV_CODEC_ID_WMAV2
  | AV_CODEC_ID_WMALOSSLESS
  | AV_CODEC_ID_AAC
deriving DecidableEq, Repr

/-- `rdpsnd_ffmpeg_get_avcodec`; a `NULL` format is `none`.  The `switch` on the tag is a
chain of tests in the order of its `case` labels. -/
def rdpsnd_ffmpeg_get_avcodec (format : Option AUDIO_FORMAT) : AVCodecID :=
  match format with
  | none => AVCodecID.AV_CODEC_ID_NONE
  | some format =>
    if format.wFormatTag = WAVE_FORMAT_UNKNOWN then AVCodecID.AV_CODEC_ID_NONE
    else if format.wFormatTag = WAVE_FORMAT_PCM then
      if format.wBitsPerSample = 16 then AVCodecID.AV_CODEC_ID_PCM_U16LE
      else if format.wBitsPerSample = 8 then AVCodecID.AV_CODEC_ID_PCM_U8
      else AVCodecID.AV_CODEC_ID_NONE
    else if format.wFormatTag = WAVE_FORMAT_ADPCM then AVCodecID.AV_CODEC_ID_ADPCM_MS
    else if format.wFormatTag = WAVE_FORMAT_IEEE_FLOAT then AVCodecID.AV_CODEC_ID_PCM_F32LE
    else if format.wFormatTag = WAVE_FORMAT_ALAW then AVCodecID.AV_CODEC_ID_PCM_ALAW
    else if format.wFormatTag = WAVE_FORMAT_MULAW then AVCodecID.AV_CODEC_ID_PCM_MULAW
    else if format.wFormatTag = WAVE_FORMAT_OKI_ADPCM then AVCodecID.AV_CODEC_ID_ADPCM_IMA_OKI
    else if format.wFormatTag = WAVE_FORMAT_G723_ADPCM then AVCodecID.AV_CODEC_ID_G723_1
    else if format.wFormatTag = WAVE_FORMAT_GSM610 then AVCodecID.AV_CODEC_ID_GSM_MS
    else if format.wFormatTag = WAVE_FORMAT_MPEGLAYER3 then AVCodecID.AV_CODEC_ID_MP3
    else if format.wFormatTag = WAVE_FORMAT_G726_ADPCM then AVCodecID.AV_CODEC_ID_ADPCM_G726
    else if format.wFormatTag = WAVE_FORMAT_G722_ADPCM then AVCodecID.AV_CODEC_ID_ADPCM_G722
    else if format.wFormatTag = WAVE_FORMAT_G729A then AVCodecID.AV_CODEC_ID_G729
    else if format.wFormatTag = WAVE_FORMAT_DOLBY_AC3_SPDIF then AVCodecID.AV_CODEC_ID_AC3
    else if format.wFormatTag = WAVE_FORMAT_WMAUDIO2 then AVCodecID.AV_CODEC_ID_WMAV2
    else if format.wFormatTag = WAVE_FORMAT_WMAUDIO_LOSSLESS then AVCodecID.AV_CODEC_ID_WMALOSSLESS
    else if format.wFormatTag = WAVE_FORMAT_AAC_MS then AVCodecID.AV_CODEC_ID_AAC
    else AVCodecID.AV_CODEC_ID_NONE

/-- `rdpsnd_ffmpeg_format_supported`.  The first argument stands for the external
library: whether `avcodec_find_decoder(id)` is not `NULL`. -/
def rdpsnd_ffmpeg_format_supported (avcodec_find_decoder : AVCodecID → Bool)
    (format : Option AUDIO_FORMAT) : Bool :=
  let id := rdpsnd_ffmpeg_get_avcodec format
  if id = AVCodecID.AV_CODEC_ID_NONE then false
  else avcodec_find_decoder id

/-- The tags that have a `case` label in `rdpsnd_ffmpeg_get_avcodec`. -/
def rdpsnd_ffmpeg_tags : List Nat :=
  [WAVE_FORMAT_UNKNOWN, WAVE_FORMAT_PCM, WAVE_FORMAT_ADPCM, WAVE_FORMAT_IEEE_FLOAT,
   WAVE_FORMAT_ALAW, WAVE_FORMAT_MULAW, WAVE_FORMAT_OKI_ADPCM, WAVE_FORMAT_G723_ADPCM,
   WAVE_FORMAT_GSM610, WAVE_FORMAT_MPEGLAYER3, WAVE_FORMAT_G726_ADPCM,
   WAVE_FORMAT_G722_ADPCM, WAVE_FORMAT_G729A, WAVE_FORMAT_DOLBY_AC3_SPDIF,
   WAVE_FORMAT_WMAUDIO2, WAVE_FORMAT_WMAUDIO_LOSSLESS, WAVE_FORMAT_AAC_MS]

/-- The values the stereo encoder reconstructs for interleaved samples: sample `i` belongs
to channel `i % 2`, and `last_sample[i % 2]` is recorded right after each call of
`dsp_encode_ima_adpcm_sample`; returned with the state after the last call. -/
def ima_encode_stereo_trace (adpcm : ADPCM) (i : Nat) : List Int → Option (ADPCM × List Int)
  | [] => some (adpcm, [])
  | s :: rest => do
    let channel : Fin 2 := if i % 2 = 0 then 0 else 1
    let (_, adpcm) ← dsp_encode_ima_adpcm_sample adpcm channel s
    let (final, tr) ← ima_encode_stereo_trace adpcm (i + 1) rest
    pure (final, Arr2.get adpcm.ima.last_sample channel :: tr)

/-- An IMA state with different step indices and samples on the two channels. -/
def ima_stereo_state : ADPCM :=
  { ima := { last_sample := (1000, -2000), last_step := (30, 55) }
    ms := { predictor := (0, 0), delta := (0, 0), sample1 := (0, 0), sample2 := (0, 0) } }

/-- Eight stereo frames, left and right interleaved. -/
def ima_stereo_frames : List Int :=
  [1200, -2500, 900, -1000, 32767, -32768, 0, 0, -5, 7, 20000, -20000, 123, 456, -789, 1011]

/-- The state the MS encoder keeps between samples when it started from a zero-filled
context: predictor 0 on both channels, every delta in `[16, 32767]` and every `sample1` in
the 16-bit range. -/
def ms_delta_inv (adpcm : ADPCM) : Prop :=
  adpcm.ms.predictor = (0, 0) ∧
  16 ≤ Arr2.get adpcm.ms.delta 0 ∧ Arr2.get adpcm.ms.delta 0 ≤ 32767 ∧
  16 ≤ Arr2.get adpcm.ms.delta 1 ∧ Arr2.get adpcm.ms.delta 1 ≤ 32767 ∧
  -32768 ≤ Arr2.get adpcm.ms.sample1 0 ∧ Arr2.get adpcm.ms.sample1 0 ≤ 32767 ∧
  -32768 ≤ Arr2.get adpcm.ms.sample1 1 ∧ Arr2.get adpcm.ms.sample1 1 ≤ 32767

instance (adpcm : ADPCM) : Decidable (ms_delta_inv adpcm) := by
  unfold ms_delta_inv; infer_instance

/-- The delta fields of an MS block header carry the deltas of a state: the 16-bit
values at the offsets where `freerdp_dsp_decode_ms_adpcm` reads `delta[0]` (and, for
stereo, `delta[1]`) are the deltas of the state. -/
def ms_header_carries (channels : Nat) (block : List Nat) (adpcm : ADPCM) : Prop :=
  if channels > 1 then
    readINT16 block 2 = some (Arr2.get adpcm.ms.delta 0) ∧
    readINT16 block 4 = some (Arr2.get adpcm.ms.delta 1)
  else readINT16 block 1 = some (Arr2.get adpcm.ms.delta 0)

instance (channels : Nat) (block : List Nat) (adpcm : ADPCM) :
    Decidable (ms_header_carries channels block adpcm) := by
  unfold ms_header_carries; infer_instance

/-- The number of 16-bit samples `freerdp_dsp_encode_ms_adpcm` consumes for one block of
`block_align` bytes: the header takes two samples per channel and each of the remaining
bytes takes two samples. -/
def ms_block_samples (block_align channels : Nat) : Nat :=
  if channels > 1 then 2 * (block_align - 12) else 2 * (block_align - 6)

/-- The number of rounds of the encoder loop that store one block: one round per data
byte, the header being stored in the round of the first data byte. -/
def ms_block_rounds (block_align channels : Nat) : Nat :=
  if channels > 1 then block_align - 14 else block_align - 7

/-- An input made of whole blocks of signed 16-bit samples for the format. -/
def ms_whole_blocks (format : AUDIO_FORMAT) (S : List Int) : Prop :=
  S.length % ms_block_samples format.nBlockAlign format.nChannels = 0 ∧
  ∀ s ∈ S, -32768 ≤ s ∧ s ≤ 32767

instance (format : AUDIO_FORMAT) (S : List Int) : Decidable (ms_whole_blocks format S) := by
  unfold ms_whole_blocks; infer_instance

/-- The number of bytes `freerdp_dsp_encode_ms_adpcm` stores for an input of whole
blocks: `nBlockAlign` bytes for every block. -/
def ms_encoded_size (format : AUDIO_FORMAT) (S : List Int) : Nat :=
  S.length / ms_block_samples format.nBlockAlign format.nChannels * format.nBlockAlign

/-- A sequence of calls of `freerdp_dsp_encode` on one context, each with the stored
format as source format and the stream left by the call before; `none` as soon as a call
is undefined or fails. -/
def ms_encode_calls (context : FREERDP_DSP_CONTEXT) (out : wStream) :
    List (List Nat) → Option (FREERDP_DSP_CONTEXT × wStream)
  | [] => some (context, out)
  | data :: more =>
    match freerdp_dsp_encode (some context) (some context.format) (some data) (some out) with
    | some (true, some context', some out') => ms_encode_calls context' out' more
    | _ => none

/-! # Theorems -/

/-! ## Arithmetic of shifts, masks and truncating division -/

theorem sar1 (x : Int) : x >>> (1 : Nat) = x / 2 := by
  rw [Int.shiftRight_eq_div_pow]; rfl

theorem sar2 (x : Int) : x >>> (2 : Nat) = x / 4 := by
  rw [Int.shiftRight_eq_div_pow]; rfl

theorem sar3 (x : Int) : x >>> (3 : Nat) = x / 8 := by
  rw [Int.shiftRight_eq_div_pow]; rfl

theorem land_pow_ne_zero (n i : Nat) : n &&& 2 ^ i ≠ 0 ↔ n / 2 ^ i % 2 = 1 := by
  rw [Nat.and_two_pow, Nat.testBit_to_div_mod]
  by_cases h : n / 2 ^ i % 2 = 1 <;> simp [h]

theorem land1_ne_zero (n : Nat) : n &&& 1 ≠ 0 ↔ n % 2 = 1 := by
  simp

theorem land2_ne_zero (n : Nat) : n &&& 2 ≠ 0 ↔ n / 2 % 2 = 1 := by
  simpa using land_pow_ne_zero n 1

theorem land4_ne_zero (n : Nat) : n &&& 4 ≠ 0 ↔ n / 4 % 2 = 1 := by
  simpa using land_pow_ne_zero n 2

theorem land8_ne_zero (n : Nat) : n &&& 8 ≠ 0 ↔ n / 8 % 2 = 1 := by
  simpa using land_pow_ne_zero n 3

theorem Arr2.get_set {α : Type} (a : α × α) (c : Fin 2) (v : α) :
    Arr2.get (Arr2.set a c v) c = v := by
  unfold Arr2.get Arr2.set
  by_cases h : c = 0 <;> simp [h]

theorem toUINT16_toINT16 (x : Int) : toUINT16 (toINT16 x) = toUINT16 x := by
  unfold toUINT16 toINT16; omega

theorem toINT16_clamp16 (x : Int) : toINT16 (clamp16 x) = clamp16 x := by
  unfold toINT16 clamp16; split_ifs <;> omega

/-! ## IMA sample step -/

theorem ima_step_size_at (i : Int) (h0 : 0 ≤ i) (h1 : i ≤ 88) :
    ∃ ss, tableAt ima_step_size_table i = some ss ∧ 7 ≤ ss ∧ ss ≤ 32767 := by
  obtain ⟨n, rfl⟩ := Int.eq_ofNat_of_zero_le h0
  have hn : n ≤ 88 := by omega
  clear h0 h1
  interval_cases n <;> exact ⟨_, rfl, by decide, by decide⟩

theorem ima_step_index_at (n : Nat) (h : n < 16) :
    ∃ idx, ima_step_index_table[n]? = some idx ∧ -1 ≤ idx ∧ idx ≤ 8 := by
  interval_cases n <;> exact ⟨_, rfl, by decide, by decide⟩

theorem ima_next_step_range (s idx : Int) :
    0 ≤ ima_next_step s idx ∧ ima_next_step s idx ≤ 88 := by
  simp only [ima_next_step, toINT16]
  split_ifs <;> omega

theorem ima_threshold_cases (bit : Nat) (ss : Int) (p : Nat × Int) :
    (p.2 ≥ ss ∧ ima_threshold bit ss p = (p.1 ||| bit, p.2 - ss)) ∨
    (p.2 < ss ∧ ima_threshold bit ss p = p) := by
  unfold ima_threshold
  by_cases h : p.2 ≥ ss
  · exact Or.inl ⟨h, if_pos h⟩
  · exact Or.inr ⟨by omega, if_neg h⟩

/-- The encoder's reconstruction `d ∓ e ± (ss >> 3)` is the difference the decoder
builds from the code the encoder emits. -/
theorem ima_quantize_spec (ss d : Int) :
    (ima_encode_quantize ss d).1 < 16 ∧
    (if d < 0 then d + (ima_encode_quantize ss d).2 - ss >>> (3 : Nat)
      else d - (ima_encode_quantize ss d).2 + ss >>> (3 : Nat))
      = ima_decode_delta ss (ima_encode_quantize ss d).1 := by
  simp only [ima_encode_quantize, sar1, sar3]
  by_cases hd : d < 0
  · simp only [hd, if_true]
    rcases ima_threshold_cases 4 ss (8, -d) with ⟨h2, e2⟩ | ⟨h2, e2⟩ <;> rw [e2] <;>
    rcases ima_threshold_cases 2 (ss / 2) _ with ⟨h1, e1⟩ | ⟨h1, e1⟩ <;> rw [e1] <;>
    rcases ima_threshold_cases 1 (ss / 2 / 2) _ with ⟨h0, e0⟩ | ⟨h0, e0⟩ <;>
    rw [e0] <;>
    simp [ima_decode_delta, sar1, sar2, sar3, land1_ne_zero, land2_ne_zero, land4_ne_zero,
      land8_ne_zero] at * <;> omega
  · simp only [hd, if_false]
    rcases ima_threshold_cases 4 ss (0, d) with ⟨h2, e2⟩ | ⟨h2, e2⟩ <;> rw [e2] <;>
    rcases ima_threshold_cases 2 (ss / 2) _ with ⟨h1, e1⟩ | ⟨h1, e1⟩ <;> rw [e1] <;>
    rcases ima_threshold_cases 1 (ss / 2 / 2) _ with ⟨h0, e0⟩ | ⟨h0, e0⟩ <;>
    rw [e0] <;>
    simp [ima_decode_delta, sar1, sar2, sar3, land1_ne_zero, land2_ne_zero, land4_ne_zero,
      land8_ne_zero] at * <;> omega

/-- The residue `e` left by the encoder's three comparisons, when the prediction error
is at most one step beyond the largest magnitude a code can carry. -/
theorem ima_quantize_residue (ss d : Int)
    (hlo : -(ss + (ss + ss / 2 + ss / 4 + ss / 8)) ≤ d)
    (hhi : d ≤ ss + (ss + ss / 2 + ss / 4 + ss / 8)) :
    0 ≤ (ima_encode_quantize ss d).2 ∧ (ima_encode_quantize ss d).2 ≤ ss + ss / 8 := by
  simp only [ima_encode_quantize, sar1]
  by_cases hd : d < 0
  · simp only [hd, if_true]
    rcases ima_threshold_cases 4 ss (8, -d) with ⟨h2, e2⟩ | ⟨h2, e2⟩ <;> rw [e2] <;>
    rcases ima_threshold_cases 2 (ss / 2) _ with ⟨h1, e1⟩ | ⟨h1, e1⟩ <;> rw [e1] <;>
    rcases ima_threshold_cases 1 (ss / 2 / 2) _ with ⟨h0, e0⟩ | ⟨h0, e0⟩ <;>
    rw [e0] <;> simp at * <;> omega
  · simp only [hd, if_false]
    rcases ima_threshold_cases 4 ss (0, d) with ⟨h2, e2⟩ | ⟨h2, e2⟩ <;> rw [e2] <;>
    rcases ima_threshold_cases 2 (ss / 2) _ with ⟨h1, e1⟩ | ⟨h1, e1⟩ <;> rw [e1] <;>
    rcases ima_threshold_cases 1 (ss / 2 / 2) _ with ⟨h0, e0⟩ | ⟨h0, e0⟩ <;>
    rw [e0] <;> simp at * <;> omega

/-- The sample encoder in closed form on an in-range step index. -/
theorem dsp_encode_ima_adpcm_sample_eq (adpcm : ADPCM) (c : Fin 2) (s ss : Int)
    (hss : tableAt ima_step_size_table (Arr2.get adpcm.ima.last_step c) = some ss) :
    ∃ idx, ima_step_index_table[(ima_encode_quantize ss
        (s - Arr2.get adpcm.ima.last_sample c)).1]? = some idx ∧ -1 ≤ idx ∧ idx ≤ 8 ∧
      dsp_encode_ima_adpcm_sample adpcm c s =
        some ((ima_encode_quantize ss (s - Arr2.get adpcm.ima.last_sample c)).1,
          { adpcm with ima :=
            { last_sample := Arr2.set adpcm.ima.last_sample c
                (toINT16 (clamp16 (ima_decode_delta ss (ima_encode_quantize ss
                  (s - Arr2.get adpcm.ima.last_sample c)).1
                  + Arr2.get adpcm.ima.last_sample c)))
              last_step := Arr2.set adpcm.ima.last_step c
                (ima_next_step (Arr2.get adpcm.ima.last_step c) idx) } }) := by
  obtain ⟨hlt, hq⟩ := ima_quantize_spec ss (s - Arr2.get adpcm.ima.last_sample c)
  obtain ⟨idx, hidx, hi0, hi1⟩ := ima_step_index_at _ hlt
  refine ⟨idx, hidx, hi0, hi1, ?_⟩
  simp only [dsp_encode_ima_adpcm_sample, hss, hidx, bind, Option.bind, pure, hq]

/-- The sample decoder in closed form on an in-range step index and a 4-bit code. -/
theorem dsp_decode_ima_adpcm_sample_eq (adpcm : ADPCM) (c : Fin 2) (code : Nat) (ss idx : Int)
    (hss : tableAt ima_step_size_table (Arr2.get adpcm.ima.last_step c) = some ss)
    (hidx : ima_step_index_table[code]? = some idx) :
    dsp_decode_ima_adpcm_sample adpcm c code =
      some (toUINT16 (clamp16 (ima_decode_delta ss code + Arr2.get adpcm.ima.last_sample c)),
        { adpcm with ima :=
          { last_sample := Arr2.set adpcm.ima.last_sample c
              (toINT16 (clamp16 (ima_decode_delta ss code + Arr2.get adpcm.ima.last_sample c)))
            last_step := Arr2.set adpcm.ima.last_step c
              (ima_next_step (Arr2.get adpcm.ima.last_step c) idx) } }) := by
  simp only [dsp_decode_ima_adpcm_sample, hss, hidx, bind, Option.bind, pure]

theorem ima_decode_step_range (adpcm : ADPCM) (c : Fin 2) (code : Nat)
    (hstep : 0 ≤ Arr2.get adpcm.ima.last_step c ∧ Arr2.get adpcm.ima.last_step c ≤ 88)
    (hc : code < 16) :
    ∃ r st', dsp_decode_ima_adpcm_sample adpcm c code = some (r, st') ∧
      0 ≤ Arr2.get st'.ima.last_step c ∧ Arr2.get st'.ima.last_step c ≤ 88 := by
  obtain ⟨ss, hss, _, _⟩ := ima_step_size_at _ hstep.1 hstep.2
  obtain ⟨idx, hidx, _, _⟩ := ima_step_index_at code hc
  refine ⟨_, _, dsp_decode_ima_adpcm_sample_eq adpcm c code ss idx hss hidx, ?_⟩
  simp only [Arr2.get_set]
  exact ima_next_step_range _ _

theorem ima_encode_step_range (adpcm : ADPCM) (c : Fin 2) (s : Int)
    (hstep : 0 ≤ Arr2.get adpcm.ima.last_step c ∧ Arr2.get adpcm.ima.last_step c ≤ 88) :
    ∃ code st', dsp_encode_ima_adpcm_sample adpcm c s = some (code, st') ∧
      0 ≤ Arr2.get st'.ima.last_step c ∧ Arr2.get st'.ima.last_step c ≤ 88 := by
  obtain ⟨ss, hss, _, _⟩ := ima_step_size_at _ hstep.1 hstep.2
  obtain ⟨idx, _, _, _, henc⟩ := dsp_encode_ima_adpcm_sample_eq adpcm c s ss hss
  refine ⟨_, _, henc, ?_⟩
  simp only [Arr2.get_set]
  exact ima_next_step_range _ _

/-- C1. IMA-ADPCM encoder/decoder lock-step: from a state whose step index of channel `c`
is in `[0, 88]`, `dsp_encode_ima_adpcm_sample` returns a code and a post-state, and
`dsp_decode_ima_adpcm_sample` run on that code from the same prior state returns the
post-state's `last_sample[c]` (as 16 bits) and ends in exactly the same post-state. -/
theorem ima_sample_lockstep (adpcm : ADPCM) (c : Fin 2) (s : Int)
    (hstep : 0 ≤ Arr2.get adpcm.ima.last_step c ∧ Arr2.get adpcm.ima.last_step c ≤ 88)
    (_hs : -32768 ≤ s ∧ s ≤ 32767) :
    ∃ code st', dsp_encode_ima_adpcm_sample adpcm c s = some (code, st') ∧
      dsp_decode_ima_adpcm_sample adpcm c code =
        some (toUINT16 (Arr2.get st'.ima.last_sample c), st') := by
  obtain ⟨ss, hss, _, _⟩ := ima_step_size_at _ hstep.1 hstep.2
  obtain ⟨idx, hidx, _, _, henc⟩ := dsp_encode_ima_adpcm_sample_eq adpcm c s ss hss
  refine ⟨_, _, henc, ?_⟩
  rw [dsp_decode_ima_adpcm_sample_eq adpcm c _ ss idx hss hidx]
  simp only [Arr2.get_set, toUINT16_toINT16]

theorem ima_sample_lockstep_witness :
    ∃ code st', dsp_encode_ima_adpcm_sample ADPCM.zero 0 1000 = some (code, st') ∧
      dsp_decode_ima_adpcm_sample ADPCM.zero 0 code =
        some (toUINT16 (Arr2.get st'.ima.last_sample 0), st') :=
  ima_sample_lockstep ADPCM.zero 0 1000 (by decide) (by decide)

/-- C3 (as stated) fails: from the all-zero state (step index 0, step size 7) the sample
1000 is encoded with the saturated code 7 and reconstructed as 11, which is 989 away from
the sample, far more than the step size 7. -/
theorem ima_roundtrip_error_counterexample :
    ∃ code st', dsp_encode_ima_adpcm_sample ADPCM.zero 0 1000 = some (code, st') ∧
      tableAt ima_step_size_table (Arr2.get ADPCM.zero.ima.last_step 0) = some 7 ∧
      code = 7 ∧ Arr2.get st'.ima.last_sample 0 = 11 ∧
      ¬ (|Arr2.get st'.ima.last_sample 0 - 1000| ≤ 7) :=
  ⟨7, _, rfl, by decide, rfl, by decide, by decide⟩

/-- C3 (amended). IMA-ADPCM round-trip error bound when the quantizer is not overloaded:
from a state whose step index of channel `c` is in `[0, 88]` (so that the table lookup
yields a step size `ss`), for a signed 16-bit sample `s` whose prediction error `|s - last_sample[c]|` is at most
`ss + (ss + ss>>1 + ss>>2 + ss>>3)`, the value reconstructed by
`dsp_encode_ima_adpcm_sample` (the new `last_sample[c]`) differs from `s` by at most `ss`. -/
theorem ima_roundtrip_error_bound (adpcm : ADPCM) (c : Fin 2) (s : Int)
    (hs : -32768 ≤ s ∧ s ≤ 32767) (ss : Int)
    (hss : tableAt ima_step_size_table (Arr2.get adpcm.ima.last_step c) = some ss)
    (herr : |s - Arr2.get adpcm.ima.last_sample c| ≤
      ss + (ss + ss >>> (1 : Nat) + ss >>> (2 : Nat) + ss >>> (3 : Nat))) :
    ∃ code st', dsp_encode_ima_adpcm_sample adpcm c s = some (code, st') ∧
      |Arr2.get st'.ima.last_sample c - s| ≤ ss := by
  obtain ⟨idx, _, _, _, henc⟩ := dsp_encode_ima_adpcm_sample_eq adpcm c s ss hss
  refine ⟨_, _, henc, ?_⟩
  obtain ⟨_, hq⟩ := ima_quantize_spec ss (s - Arr2.get adpcm.ima.last_sample c)
  rw [sar1, sar2, sar3, abs_le] at herr
  obtain ⟨he0, he1⟩ := ima_quantize_residue ss (s - Arr2.get adpcm.ima.last_sample c)
    (by omega) (by omega)
  simp only [Arr2.get_set, toINT16_clamp16]
  rw [← hq, sar3, abs_le]
  unfold clamp16
  split_ifs <;> omega

theorem ima_roundtrip_error_bound_witness :
    ∃ code st', dsp_encode_ima_adpcm_sample ADPCM.zero 0 18 = some (code, st') ∧
      |Arr2.get st'.ima.last_sample 0 - 18| ≤ 7 :=
  ima_roundtrip_error_bound ADPCM.zero 0 18 (by decide) 7 (by decide) (by decide)

/-- C5. The IMA step-index bound is preserved by every sample step: from a state whose
step index of channel `c` is in `[0, 88]`, `dsp_decode_ima_adpcm_sample` on any 4-bit code
and `dsp_encode_ima_adpcm_sample` on any signed 16-bit sample return a state whose step
index of channel `c` is in `[0, 88]`; and any sequence of such steps on channel `c` runs to
completion (every table lookup on the way is inside its table) and ends with the step
index in `[0, 88]`. -/
theorem ima_step_index_preserved (adpcm : ADPCM) (c : Fin 2)
    (hstep : 0 ≤ Arr2.get adpcm.ima.last_step c ∧ Arr2.get adpcm.ima.last_step c ≤ 88) :
    (∀ code : Nat, code < 16 → ∃ r st', dsp_decode_ima_adpcm_sample adpcm c code = some (r, st') ∧
      0 ≤ Arr2.get st'.ima.last_step c ∧ Arr2.get st'.ima.last_step c ≤ 88) ∧
    (∀ s : Int, -32768 ≤ s → s ≤ 32767 →
      ∃ code st', dsp_encode_ima_adpcm_sample adpcm c s = some (code, st') ∧
      0 ≤ Arr2.get st'.ima.last_step c ∧ Arr2.get st'.ima.last_step c ≤ 88) ∧
    (∀ ops : List ImaOp, ImaOp.wellFormed ops →
      ∃ st', ima_run_ops adpcm c ops = some st' ∧
      0 ≤ Arr2.get st'.ima.last_step c ∧ Arr2.get st'.ima.last_step c ≤ 88) := by
  refine ⟨fun code hc => ima_decode_step_range adpcm c code hstep hc,
    fun s _ _ => ima_encode_step_range adpcm c s hstep, ?_⟩
  intro ops
  induction ops generalizing adpcm with
  | nil => intro _; exact ⟨adpcm, rfl, hstep⟩
  | cons op ops ih =>
    intro hwf
    have hop : op.ok := hwf op (List.mem_cons_self _ _)
    have hrest : ImaOp.wellFormed ops := fun o ho => hwf o (List.mem_cons_of_mem _ ho)
    cases op with
    | decode code =>
      obtain ⟨r, st', h, hr⟩ := ima_decode_step_range adpcm c code hstep hop
      obtain ⟨st'', h', hr'⟩ := ih st' hr hrest
      exact ⟨st'', by simp [ima_run_ops, ImaOp.step, h, h'], hr'⟩
    | encode s =>
      obtain ⟨r, st', h, hr⟩ := ima_encode_step_range adpcm c s hstep
      obtain ⟨st'', h', hr'⟩ := ih st' hr hrest
      exact ⟨st'', by simp [ima_run_ops, ImaOp.step, h, h'], hr'⟩

theorem ima_step_index_preserved_witness :
    (∃ r st', dsp_decode_ima_adpcm_sample ADPCM.zero 1 7 = some (r, st') ∧
      0 ≤ Arr2.get st'.ima.last_step 1 ∧ Arr2.get st'.ima.last_step 1 ≤ 88) ∧
    (∃ code st', dsp_encode_ima_adpcm_sample ADPCM.zero 1 (-1000) = some (code, st') ∧
      0 ≤ Arr2.get st'.ima.last_step 1 ∧ Arr2.get st'.ima.last_step 1 ≤ 88) ∧
    (∃ st', ima_run_ops ADPCM.zero 1 [.decode 7, .encode 1000, .decode 8] = some st' ∧
      0 ≤ Arr2.get st'.ima.last_step 1 ∧ Arr2.get st'.ima.last_step 1 ≤ 88) :=
  ⟨(ima_step_index_preserved ADPCM.zero 1 (by decide)).1 7 (by decide),
   (ima_step_index_preserved ADPCM.zero 1 (by decide)).2.1 (-1000) (by decide) (by decide),
   (ima_step_index_preserved ADPCM.zero 1 (by decide)).2.2 [.decode 7, .encode 1000, .decode 8]
     (by decide)⟩

/-! ## MS sample step -/

theorem tdiv_of_pos (a b : Int) (h : 0 < b) :
    Int.tdiv a b = if 0 ≤ a then a / b else -((-a) / b) := by
  split
  · exact Int.tdiv_eq_ediv (by omega) (by omega)
  · have ha : a = -(-a) := by omega
    rw [ha, Int.neg_tdiv, Int.tdiv_eq_ediv (by omega) (by omega)]
    simp

theorem toINT32_range (x : Int) : -2147483648 ≤ toINT32 x ∧ toINT32 x ≤ 2147483647 := by
  unfold toINT32; omega

theorem toINT32_of_range (x : Int) (h0 : -2147483648 ≤ x) (h1 : x ≤ 2147483647) :
    toINT32 x = x := by
  unfold toINT32; omega

theorem toINT16_ms_clamp (x : Int) : toINT16 (ms_clamp x) = ms_clamp x := by
  unfold toINT16 ms_clamp; split_ifs <;> omega

theorem ms_coeffs_at (n : Nat) (h : n ≤ 6) :
    ∃ c1 c2, ms_adpcm_coeffs1[n]? = some c1 ∧ ms_adpcm_coeffs2[n]? = some c2 := by
  interval_cases n <;> exact ⟨_, _, rfl, rfl⟩

theorem ms_adaptation_at (n : Nat) (h : n < 16) :
    ∃ a, ms_adpcm_adaptation_table[n]? = some a := by
  interval_cases n <;> exact ⟨_, rfl⟩

/-- The prediction is defined on an in-range predictor index and fits 25 bits. -/
theorem ms_adpcm_predict_some (adpcm : ADPCM) (c : Fin 2)
    (hp : Arr2.get adpcm.ms.predictor c ≤ 6) :
    ∃ p, ms_adpcm_predict adpcm c = some p ∧ -8388608 ≤ p ∧ p ≤ 8388608 := by
  obtain ⟨c1, c2, h1, h2⟩ := ms_coeffs_at _ hp
  refine ⟨_, by simp only [ms_adpcm_predict, h1, h2, bind, Option.bind, pure]; rfl, ?_⟩
  generalize toINT32 (Arr2.get adpcm.ms.sample1 c * c1) +
    toINT32 (Arr2.get adpcm.ms.sample2 c * c2) = y
  have hr := toINT32_range y
  rw [tdiv_of_pos _ _ (by decide : (0 : Int) < 256)]
  split <;> omega

/-- The code of a clamped `errordelta`, read back as the decoder's signed nibble. -/
theorem ms_nibble_of_code (ed : Int) (h0 : -8 ≤ ed) (h1 : ed ≤ 7) :
    toBYTE ed &&& 0x0F < 16 ∧
    toINT8 (if toBYTE ed &&& 0x0F &&& 0x08 ≠ 0 then toINT8 ((toBYTE ed &&& 0x0F : Nat) : Int) - 16
      else ((toBYTE ed &&& 0x0F : Nat) : Int)) = ed := by
  interval_cases ed <;> decide

theorem ms_update_delta_floor (adpcm : ADPCM) (c : Fin 2) (presample adapt : Int) :
    16 ≤ Arr2.get (ms_adpcm_update adpcm c presample adapt).ms.delta c := by
  simp only [ms_adpcm_update, Arr2.get_set]
  split <;> omega

/-- The MS sample decoder in closed form on a defined prediction and a 4-bit code. -/
theorem freerdp_dsp_decode_ms_adpcm_sample_eq (adpcm : ADPCM) (c : Fin 2) (code : Nat)
    (p a : Int) (hp : ms_adpcm_predict adpcm c = some p)
    (ha : ms_adpcm_adaptation_table[code]? = some a) :
    freerdp_dsp_decode_ms_adpcm_sample adpcm code c =
      some (toINT16 (ms_clamp (toINT32 (p + toINT32
          (toINT8 (if code &&& 0x08 ≠ 0 then toINT8 (code : Int) - 16 else code) *
            Arr2.get adpcm.ms.delta c)))),
        ms_adpcm_update adpcm c (ms_clamp (toINT32 (p + toINT32
          (toINT8 (if code &&& 0x08 ≠ 0 then toINT8 (code : Int) - 16 else code) *
            Arr2.get adpcm.ms.delta c)))) a) := by
  simp only [freerdp_dsp_decode_ms_adpcm_sample, hp, ha, bind, Option.bind, pure]

theorem ms_clamp_nibble_range (e : Int) : -8 ≤ ms_clamp_nibble e ∧ ms_clamp_nibble e ≤ 7 := by
  simp only [ms_clamp_nibble]
  split_ifs <;> omega

/-- The MS sample encoder in closed form when the division by `delta` is defined. -/
theorem freerdp_dsp_encode_ms_adpcm_sample_eq (adpcm : ADPCM) (c : Fin 2) (s p : Int)
    (hp : ms_adpcm_predict adpcm c = some p)
    (hd : ¬ (Arr2.get adpcm.ms.delta c = 0 ∨
      (toINT32 (s - p) = -2147483648 ∧ Arr2.get adpcm.ms.delta c = -1))) :
    ∃ a, ms_adpcm_adaptation_table[toBYTE (ms_clamp_nibble (ms_encode_errordelta (toINT32 (s - p))
        (Arr2.get adpcm.ms.delta c))) &&& 0x0F]? = some a ∧
      freerdp_dsp_encode_ms_adpcm_sample adpcm s c =
        some (toBYTE (ms_clamp_nibble (ms_encode_errordelta (toINT32 (s - p)) (Arr2.get adpcm.ms.delta c))) &&& 0x0F,
          ms_adpcm_update adpcm c (ms_clamp (toINT32 (p + toINT32
            (Arr2.get adpcm.ms.delta c *
              ms_clamp_nibble (ms_encode_errordelta (toINT32 (s - p)) (Arr2.get adpcm.ms.delta c)))))) a) := by
  obtain ⟨r0, r1⟩ := ms_clamp_nibble_range (ms_encode_errordelta (toINT32 (s - p)) (Arr2.get adpcm.ms.delta c))
  obtain ⟨hlt, _⟩ := ms_nibble_of_code _ r0 r1
  obtain ⟨a, ha⟩ := ms_adaptation_at _ hlt
  refine ⟨a, ha, ?_⟩
  simp only [freerdp_dsp_encode_ms_adpcm_sample, hp, bind, Option.bind, pure, if_neg hd, ha]

/-- C2. MS-ADPCM encoder/decoder lock-step: from a state with `predictor[c]` in `[0, 6]`,
`delta[c] >= 16` and `sample1[c]`, `sample2[c]` in the 16-bit range,
`freerdp_dsp_encode_ms_adpcm_sample` returns a code and a post-state, and
`freerdp_dsp_decode_ms_adpcm_sample` run on that code from the same prior state returns
the post-state's `sample1[c]` and ends in exactly the same post-state. -/
theorem ms_sample_lockstep (adpcm : ADPCM) (c : Fin 2) (s : Int)
    (hp : Arr2.get adpcm.ms.predictor c ≤ 6)
    (hdelta : 16 ≤ Arr2.get adpcm.ms.delta c)
    (_hs1 : -32768 ≤ Arr2.get adpcm.ms.sample1 c ∧ Arr2.get adpcm.ms.sample1 c ≤ 32767)
    (_hs2 : -32768 ≤ Arr2.get adpcm.ms.sample2 c ∧ Arr2.get adpcm.ms.sample2 c ≤ 32767)
    (_hs : -32768 ≤ s ∧ s ≤ 32767) :
    ∃ code st', freerdp_dsp_encode_ms_adpcm_sample adpcm s c = some (code, st') ∧
      freerdp_dsp_decode_ms_adpcm_sample adpcm code c =
        some (Arr2.get st'.ms.sample1 c, st') := by
  obtain ⟨p, hpred, _, _⟩ := ms_adpcm_predict_some adpcm c hp
  obtain ⟨a, ha, henc⟩ := freerdp_dsp_encode_ms_adpcm_sample_eq adpcm c s p hpred (by omega)
  refine ⟨_, _, henc, ?_⟩
  obtain ⟨r0, r1⟩ := ms_clamp_nibble_range (ms_encode_errordelta (toINT32 (s - p)) (Arr2.get adpcm.ms.delta c))
  obtain ⟨_, hnib⟩ := ms_nibble_of_code _ r0 r1
  rw [freerdp_dsp_decode_ms_adpcm_sample_eq adpcm c _ p a hpred ha, hnib, toINT16_ms_clamp,
    mul_comm]
  simp only [ms_adpcm_update, Arr2.get_set]

theorem ms_sample_lockstep_witness :
    ∃ code st', freerdp_dsp_encode_ms_adpcm_sample ms_state_example 1000 0 = some (code, st') ∧
      freerdp_dsp_decode_ms_adpcm_sample ms_state_example code 0 =
        some (Arr2.get st'.ms.sample1 0, st') :=
  ms_sample_lockstep ms_state_example 0 1000 (by decide) (by decide) (by decide) (by decide)
    (by decide)

/-- C6. MS delta floor after every update: from a state with `predictor[c]` in `[0, 6]`,
`freerdp_dsp_decode_ms_adpcm_sample` on any 4-bit code returns a state with
`delta[c] >= 16`; and, when moreover `delta[c]` is non-zero,
`freerdp_dsp_encode_ms_adpcm_sample` on any signed 16-bit sample returns a state with
`delta[c] >= 16`. -/
theorem ms_delta_floor (adpcm : ADPCM) (c : Fin 2)
    (hp : Arr2.get adpcm.ms.predictor c ≤ 6) :
    (∀ code : Nat, code < 16 →
      ∃ r st', freerdp_dsp_decode_ms_adpcm_sample adpcm code c = some (r, st') ∧
        16 ≤ Arr2.get st'.ms.delta c) ∧
    (Arr2.get adpcm.ms.delta c ≠ 0 → ∀ s : Int, -32768 ≤ s → s ≤ 32767 →
      ∃ code st', freerdp_dsp_encode_ms_adpcm_sample adpcm s c = some (code, st') ∧
        16 ≤ Arr2.get st'.ms.delta c) := by
  obtain ⟨p, hpred, hp0, hp1⟩ := ms_adpcm_predict_some adpcm c hp
  constructor
  · intro code hc
    obtain ⟨a, ha⟩ := ms_adaptation_at code hc
    exact ⟨_, _, freerdp_dsp_decode_ms_adpcm_sample_eq adpcm c code p a hpred ha,
      ms_update_delta_floor _ _ _ _⟩
  · intro hd s hs0 hs1
    have herr : toINT32 (s - p) = s - p := toINT32_of_range _ (by omega) (by omega)
    obtain ⟨a, _, henc⟩ := freerdp_dsp_encode_ms_adpcm_sample_eq adpcm c s p hpred
      (by rw [herr]; omega)
    exact ⟨_, _, henc, ms_update_delta_floor _ _ _ _⟩

theorem ms_delta_floor_witness :
    (∃ r st', freerdp_dsp_decode_ms_adpcm_sample ms_state_example 9 1 = some (r, st') ∧
      16 ≤ Arr2.get st'.ms.delta 1) ∧
    (∃ code st', freerdp_dsp_encode_ms_adpcm_sample ms_state_example 1000 1 = some (code, st') ∧
      16 ≤ Arr2.get st'.ms.delta 1) :=
  ⟨(ms_delta_floor ms_state_example 1 (by decide)).1 9 (by decide),
   (ms_delta_floor ms_state_example 1 (by decide)).2 (by decide) 1000 (by decide) (by decide)⟩

/-! ## MS block header of the decoder -/

/-- C7 (as stated) fails: a mono block whose header carries delta 0 leaves `delta[0] = 0`
after the header has been parsed, and that delta reconstructs the first nibble: the data
byte `0x77` decodes to 0 for its first nibble (7 * 0) and, after the first update has
raised delta to 16, to 112 for its second nibble (7 * 16). -/
theorem ms_decode_header_delta_counterexample :
    ∃ st rest hdr,
      ms_decode_header 8 1 ADPCM.zero [0, 0, 0, 0, 0, 0, 0, 0x77] = some (st, rest, hdr) ∧
      Arr2.get st.ms.delta 0 = 0 ∧ ¬ (16 ≤ Arr2.get st.ms.delta 0) ∧
      (freerdp_dsp_decode_ms_adpcm_sample st 7 0).map Prod.fst = some 0 ∧
      (freerdp_dsp_decode_ms_adpcm
        { freerdp_dsp_context_new false with
          format := { wFormatTag := WAVE_FORMAT_ADPCM, nChannels := 1, nSamplesPerSec := 8000,
                      nAvgBytesPerSec := 0, nBlockAlign := 8, wBitsPerSample := 4,
                      cbSize := 0 } }
        [0, 0, 0, 0, 0, 0, 0, 0x77] { buffer := [], pointer := 0 }).map
        (fun r => r.2.2.buffer) = some [0, 0, 0, 0, 0, 0, 112, 0] :=
  ⟨_, _, _, rfl, by decide, by decide, by decide, by decide⟩

/-- C7 (amended). After `freerdp_dsp_decode_ms_adpcm` has parsed a block header (mono or
stereo), the delta of each channel, which reconstructs the first nibble of that block, is
exactly the signed 16-bit value the header carries for that channel; no floor is applied
to it. -/
theorem ms_decode_header_delta (block_size channels : Nat) (adpcm : ADPCM) (src : List Nat)
    (hb : block_size ≠ 0) (hsz : src.length % block_size = 0)
    (hlen : (if channels > 1 then 14 else 7) ≤ src.length) :
    ∃ st rest hdr, ms_decode_header block_size channels adpcm src = some (st, rest, hdr) ∧
      (channels > 1 → readINT16 src 2 = some (Arr2.get st.ms.delta 0) ∧
        readINT16 src 4 = some (Arr2.get st.ms.delta 1)) ∧
      (¬ channels > 1 → readINT16 src 1 = some (Arr2.get st.ms.delta 0)) := by
  by_cases hc : channels > 1
  · rw [if_pos hc] at hlen
    simp only [ms_decode_header, if_neg hb, hsz, if_true, if_pos hc, ms_decode_header_stereo,
      readINT16, bind, Option.bind, pure]
    rw [List.getElem?_eq_getElem (by omega : 0 < src.length),
      List.getElem?_eq_getElem (by omega : 1 < src.length),
      List.getElem?_eq_getElem (by omega : 2 < src.length),
      List.getElem?_eq_getElem (by omega : 2 + 1 < src.length),
      List.getElem?_eq_getElem (by omega : 4 < src.length),
      List.getElem?_eq_getElem (by omega : 4 + 1 < src.length),
      List.getElem?_eq_getElem (by omega : 6 < src.length),
      List.getElem?_eq_getElem (by omega : 6 + 1 < src.length),
      List.getElem?_eq_getElem (by omega : 8 < src.length),
      List.getElem?_eq_getElem (by omega : 8 + 1 < src.length),
      List.getElem?_eq_getElem (by omega : 10 < src.length),
      List.getElem?_eq_getElem (by omega : 10 + 1 < src.length),
      List.getElem?_eq_getElem (by omega : 12 < src.length),
      List.getElem?_eq_getElem (by omega : 12 + 1 < src.length)]
    exact ⟨_, _, _, rfl, fun _ => ⟨rfl, rfl⟩, fun h => absurd hc h⟩
  · rw [if_neg hc] at hlen
    simp only [ms_decode_header, if_neg hb, hsz, if_true, if_neg hc, ms_decode_header_mono,
      readINT16, bind, Option.bind, pure]
    rw [List.getElem?_eq_getElem (by omega : 0 < src.length),
      List.getElem?_eq_getElem (by omega : 1 < src.length),
      List.getElem?_eq_getElem (by omega : 1 + 1 < src.length),
      List.getElem?_eq_getElem (by omega : 3 < src.length),
      List.getElem?_eq_getElem (by omega : 3 + 1 < src.length),
      List.getElem?_eq_getElem (by omega : 5 < src.length),
      List.getElem?_eq_getElem (by omega : 5 + 1 < src.length)]
    exact ⟨_, _, _, rfl, fun h => absurd h hc, fun _ => by simp only [Arr2.get_set]⟩

theorem ms_decode_header_delta_witness :
    ∃ st rest hdr, ms_decode_header 8 1 ADPCM.zero [0, 3, 0, 0, 0, 0, 0, 0x77] =
        some (st, rest, hdr) ∧
      (1 > 1 → readINT16 [0, 3, 0, 0, 0, 0, 0, 0x77] 2 = some (Arr2.get st.ms.delta 0) ∧
        readINT16 [0, 3, 0, 0, 0, 0, 0, 0x77] 4 = some (Arr2.get st.ms.delta 1)) ∧
      (¬ 1 > 1 → readINT16 [0, 3, 0, 0, 0, 0, 0, 0x77] 1 = some (Arr2.get st.ms.delta 0)) :=
  ms_decode_header_delta 8 1 ADPCM.zero [0, 3, 0, 0, 0, 0, 0, 0x77] (by decide) (by decide)
    (by decide)

/-- C8 (the code at the failing input). A mono MS-ADPCM block whose header starts with the
byte 7: parsing the header stores 7 as `predictor[0]`, outside `[0, 6]`, and the decode of
the first nibble then indexes the 7-entry coefficient tables at 7, which is undefined. -/
theorem ms_decode_predictor_unchecked :
    Arr2.get ADPCM.zero.ms.predictor 0 ≤ 6 ∧ Arr2.get ADPCM.zero.ms.predictor 1 ≤ 6 ∧
    (ms_decode_header 8 1 ADPCM.zero [7, 16, 0, 0, 0, 0, 0, 0]).map
      (fun r => (Arr2.get r.1.ms.predictor 0, r.2.1)) = some (7, [0]) ∧
    ms_adpcm_coeffs1[7]? = none ∧ ms_adpcm_coeffs2[7]? = none ∧
    (ms_decode_header 8 1 ADPCM.zero [7, 16, 0, 0, 0, 0, 0, 0]).bind
      (fun r => freerdp_dsp_decode_ms_adpcm_sample r.1 0 0) = none ∧
    freerdp_dsp_decode_ms_adpcm
      { freerdp_dsp_context_new false with
        format := { wFormatTag := WAVE_FORMAT_ADPCM, nChannels := 1, nSamplesPerSec := 8000,
                    nAvgBytesPerSec := 0, nBlockAlign := 8, wBitsPerSample := 4, cbSize := 0 } }
      [7, 16, 0, 0, 0, 0, 0, 0] { buffer := [], pointer := 0 } = none := by
  decide

/-! ## Capabilities -/

/-- C9. Native capability table: `freerdp_dsp_supports_format` returns TRUE for every
format tagged MS-ADPCM or IMA/DVI-ADPCM, FALSE for every format whose tag is none of PCM,
MS-ADPCM, IMA/DVI-ADPCM, and its result depends on the tag alone: not on the `encode`
flag nor on any other field of the format. -/
theorem supports_format_native :
    (∀ (f : AUDIO_FORMAT) (e : Bool),
      f.wFormatTag = WAVE_FORMAT_ADPCM ∨ f.wFormatTag = WAVE_FORMAT_DVI_ADPCM →
      freerdp_dsp_supports_format f e = true) ∧
    (∀ (f : AUDIO_FORMAT) (e : Bool),
      f.wFormatTag ≠ WAVE_FORMAT_PCM → f.wFormatTag ≠ WAVE_FORMAT_ADPCM →
      f.wFormatTag ≠ WAVE_FORMAT_DVI_ADPCM → freerdp_dsp_supports_format f e = false) ∧
    (∀ (f g : AUDIO_FORMAT) (e e' : Bool), f.wFormatTag = g.wFormatTag →
      freerdp_dsp_supports_format f e = freerdp_dsp_supports_format g e') := by
  refine ⟨?_, ?_, ?_⟩
  · intro f e h
    unfold freerdp_dsp_supports_format
    rcases h with h | h <;> simp [h]
  · intro f e h1 h2 h3
    simp [freerdp_dsp_supports_format, h1, h2, h3]
  · intro f g e e' h
    simp [freerdp_dsp_supports_format, h]

theorem supports_format_native_witness :
    freerdp_dsp_supports_format
      { wFormatTag := WAVE_FORMAT_ADPCM, nChannels := 2, nSamplesPerSec := 22050,
        nAvgBytesPerSec := 0, nBlockAlign := 1024, wBitsPerSample := 4, cbSize := 32 } false
      = true ∧
    freerdp_dsp_supports_format
      { wFormatTag := 0x0055, nChannels := 2, nSamplesPerSec := 44100,
        nAvgBytesPerSec := 0, nBlockAlign := 1, wBitsPerSample := 0, cbSize := 12 } true
      = false :=
  ⟨supports_format_native.1 _ _ (Or.inl rfl),
   supports_format_native.2.1 _ _ (by decide) (by decide) (by decide)⟩

/-- C10 (as stated) fails: a PCM format with 24 bits per sample is reported as supported,
although its bit depth is neither 8 nor 16. -/
theorem supports_format_pcm_counterexample :
    ∃ f : AUDIO_FORMAT, f.wFormatTag = WAVE_FORMAT_PCM ∧ f.wBitsPerSample = 24 ∧
      ¬ (freerdp_dsp_supports_format f false = true ↔
        (f.wBitsPerSample = 8 ∨ f.wBitsPerSample = 16)) :=
  ⟨{ wFormatTag := WAVE_FORMAT_PCM, nChannels := 2, nSamplesPerSec := 44100,
     nAvgBytesPerSec := 264600, nBlockAlign := 6, wBitsPerSample := 24, cbSize := 0 },
   rfl, rfl, by decide⟩

/-- C10 (amended). In the native build, for every format with tag PCM,
`freerdp_dsp_supports_format` returns TRUE, whatever `bits_per_sample` is. -/
theorem supports_format_pcm (f : AUDIO_FORMAT) (e : Bool)
    (h : f.wFormatTag = WAVE_FORMAT_PCM) : freerdp_dsp_supports_format f e = true := by
  simp [freerdp_dsp_supports_format, h]

theorem supports_format_pcm_witness :
    freerdp_dsp_supports_format
      { wFormatTag := WAVE_FORMAT_PCM, nChannels := 2, nSamplesPerSec := 44100,
        nAvgBytesPerSec := 264600, nBlockAlign := 6, wBitsPerSample := 24, cbSize := 0 }
      true = true :=
  supports_format_pcm _ true rfl
theorem sar8 (x : Int) : x >>> (8 : Nat) = x / 256 := by
  rw [Int.shiftRight_eq_div_pow]; rfl

theorem lor_shl8 (lo hi : Nat) (h : lo < 256) : lo ||| (hi <<< 8) = lo + 256 * hi := by
  have := Nat.mul_add_lt_is_or (i := 8) (b := lo) (by simpa using h) hi
  rw [Nat.or_comm, Nat.shiftLeft_eq, Nat.mul_comm hi]
  omega

theorem toBYTE_lt (x : Int) : toBYTE x < 256 := by
  unfold toBYTE; omega

theorem readINT16_cons (lo hi : Nat) (rest : List Nat) (h : lo < 256) :
    readINT16 (lo :: hi :: rest) 0 = some (toINT16 ((lo + 256 * hi : Nat) : Int)) := by
  simp [readINT16, bind, Option.bind, lor_shl8 lo hi h]

theorem readINT16_bytesINT16 (s : Int) (rest : List Nat)
    (h0 : -32768 ≤ s) (h1 : s ≤ 32767) :
    readINT16 (bytesINT16 s ++ rest) 0 = some s := by
  simp only [bytesINT16, List.cons_append, List.nil_append, sar8]
  rw [readINT16_cons _ _ _ (toBYTE_lt _)]
  have e1 : ((toBYTE s : Nat) : Int) = s % 256 := by
    unfold toBYTE; exact Int.toNat_of_nonneg (by omega)
  have e2 : ((toBYTE (s / 256) : Nat) : Int) = s / 256 % 256 := by
    unfold toBYTE; exact Int.toNat_of_nonneg (by omega)
  apply congrArg some
  unfold toINT16
  push_cast
  rw [e1, e2]
  omega

theorem nibbles_of_byte (c1 c2 : Nat) (h1 : c1 < 16) (h2 : c2 < 16) :
    ((c1 ||| (c2 <<< 4)) % 256) &&& 0x0f = c1 ∧ ((c1 ||| (c2 <<< 4)) % 256) >>> 4 = c2 := by
  have key : ∀ a b : Fin 16,
      ((a.val ||| (b.val <<< 4)) % 256) &&& 0x0f = a.val ∧
      ((a.val ||| (b.val <<< 4)) % 256) >>> 4 = b.val := by decide
  exact key ⟨c1, h1⟩ ⟨c2, h2⟩

theorem Arr2.set_get {α : Type} (a : α × α) (c : Fin 2) : Arr2.set a c (Arr2.get a c) = a := by
  unfold Arr2.get Arr2.set
  by_cases h : c = 0 <;> simp [h]

theorem bytes_of_decoded (v : Int) :
    [toBYTE (toUINT16 v % 256), toBYTE (toUINT16 v / 256)] = bytesINT16 v := by
  have e1 : toUINT16 v % 256 % 256 = v % 256 := by unfold toUINT16; omega
  have e2 : toUINT16 v / 256 % 256 = v / 256 % 256 := by unfold toUINT16; omega
  simp only [bytesINT16, toBYTE, sar8, e1, e2]

/-- The decoder reads back from a header the state the encoder wrote into it. -/
theorem ima_header_roundtrip (st : ADPCM) (rest : List Nat) (h : ima_ok st) :
    ima_decode_header st 0 (ima_encode_header st 0 ++ rest) = some (st, rest) := by
  obtain ⟨h0, h1, h2, h3⟩ := h
  have hs := readINT16_bytesINT16 (Arr2.get st.ima.last_sample 0)
    (toBYTE (Arr2.get st.ima.last_step 0) :: 0 :: rest) h2 h3
  have hstep : toINT16 ((toBYTE (Arr2.get st.ima.last_step 0) : Nat) : Int) =
      Arr2.get st.ima.last_step 0 := by
    have e : ((toBYTE (Arr2.get st.ima.last_step 0) : Nat) : Int) =
        Arr2.get st.ima.last_step 0 % 256 := by
      unfold toBYTE; exact Int.toNat_of_nonneg (by omega)
    rw [e]; unfold toINT16; omega
  simp only [bytesINT16, List.cons_append, List.nil_append] at hs
  simp only [ima_decode_header, ima_encode_header, List.cons_append, List.nil_append, hs, bind,
    Option.bind, pure, hstep, Arr2.set_get]
  simp [hstep, Arr2.set_get]

/-- One encoder sample step on channel 0 from a well-formed state: the code is a nibble,
the decoder follows in lock-step, and the new state is well-formed. -/
theorem ima_encode_step_ok (st : ADPCM) (s : Int) (h : ima_ok st) :
    ∃ code st', dsp_encode_ima_adpcm_sample st 0 s = some (code, st') ∧ code < 16 ∧
      dsp_decode_ima_adpcm_sample st 0 code =
        some (toUINT16 (Arr2.get st'.ima.last_sample 0), st') ∧ ima_ok st' := by
  obtain ⟨h0, h1, _, _⟩ := h
  obtain ⟨ss, hss, _, _⟩ := ima_step_size_at _ h0 h1
  obtain ⟨idx, hidx, _, _, henc⟩ := dsp_encode_ima_adpcm_sample_eq st 0 s ss hss
  obtain ⟨hlt, _⟩ := ima_quantize_spec ss (s - Arr2.get st.ima.last_sample 0)
  refine ⟨_, _, henc, hlt, ?_, ?_⟩
  · rw [dsp_decode_ima_adpcm_sample_eq st 0 _ ss idx hss hidx]
    simp only [Arr2.get_set, toUINT16_toINT16]
  · simp only [ima_ok, Arr2.get_set, toINT16_clamp16]
    refine ⟨(ima_next_step_range _ _).1, (ima_next_step_range _ _).2, ?_⟩
    unfold clamp16
    split_ifs <;> omega

theorem bytesINT16_length (v : Int) : (bytesINT16 v).length = 2 := rfl

theorem pcm16_cons (s : Int) (S : List Int) : pcm16 (s :: S) = bytesINT16 s ++ pcm16 S := by
  simp [pcm16]

theorem pcm16_length (S : List Int) : (pcm16 S).length = 2 * S.length := by
  induction S with
  | nil => rfl
  | cons s S ih => rw [pcm16_cons, List.length_append, ih, bytesINT16_length, List.length_cons]; omega

theorem pcm16_append (S T : List Int) : pcm16 (S ++ T) = pcm16 S ++ pcm16 T := by
  simp [pcm16]

/-- One round of the mono encoder loop on two samples. -/
theorem ima_encode_loop_mono_step (B fuel : Nat) (hB : B ≠ 0) (st st1 st2 : ADPCM)
    (s1 s2 : Int) (c1 c2 : Nat) (rest dst : List Nat)
    (hs1 : -32768 ≤ s1 ∧ s1 ≤ 32767) (hs2 : -32768 ≤ s2 ∧ s2 ≤ 32767)
    (e1 : dsp_encode_ima_adpcm_sample st 0 s1 = some (c1, st1))
    (e2 : dsp_encode_ima_adpcm_sample st1 0 s2 = some (c2, st2)) :
    ima_encode_loop B 1 (fuel + 1) st (bytesINT16 s1 ++ (bytesINT16 s2 ++ rest)) dst =
      ima_encode_loop B 1 fuel st2 rest
        ((if dst.length % B = 0 then dst ++ ima_encode_header st 0 else dst) ++
          [(c1 ||| (c2 <<< 4)) % 256]) := by
  have r1 := readINT16_bytesINT16 s1 (bytesINT16 s2 ++ rest) hs1.1 hs1.2
  have r2 := readINT16_bytesINT16 s2 rest hs2.1 hs2.2
  have hd1 : List.drop 2 (bytesINT16 s1 ++ (bytesINT16 s2 ++ rest)) = bytesINT16 s2 ++ rest := by
    simp [bytesINT16]
  have hd2 : List.drop 2 (bytesINT16 s2 ++ rest) = rest := by
    simp [bytesINT16]
  have hne : ¬ (bytesINT16 s1 ++ (bytesINT16 s2 ++ rest)).length = 0 := by
    simp [bytesINT16]
  rw [ima_encode_loop]
  simp only [hne, if_false, hB, r1, hd1, e1, r2, hd2, e2, bind, Option.bind, pure,
    Nat.lt_irrefl, gt_iff_lt]

/-- One round of the mono decoder loop on one data byte, after the block-boundary step. -/
theorem ima_decode_loop_mono_step (B fuel : Nat) (hB : B ≠ 0) (st0 st st1 st2 : ADPCM)
    (b : Nat) (r1 r2 : Int) (src rest dst : List Nat) (hne : src.length ≠ 0)
    (hhdr : (if src.length % B = 0 then ima_decode_header st0 0 src else some (st0, src)) =
      some (st, b :: rest))
    (d1 : dsp_decode_ima_adpcm_sample st 0 (b &&& 0x0f) = some (r1, st1))
    (d2 : dsp_decode_ima_adpcm_sample st1 0 (b >>> 4) = some (r2, st2)) :
    ima_decode_loop B 1 (fuel + 1) st0 src dst =
      ima_decode_loop B 1 fuel st2 rest
        (dst ++ [toBYTE (r1 % 256), toBYTE (r1 / 256)] ++ [toBYTE (r2 % 256), toBYTE (r2 / 256)]) := by
  rw [ima_decode_loop]
  simp only [hne, if_false, hB, bind, Option.bind, pure, Nat.lt_irrefl, gt_iff_lt]
  by_cases hm : src.length % B = 0
  · rw [if_pos hm] at hhdr
    simp only [hm, if_true, hhdr, List.getElem?_cons_zero, d1, d2, List.drop_succ_cons,
      List.drop_zero]
  · rw [if_neg hm] at hhdr
    simp only [hm, if_false]
    injection hhdr with hhdr
    injection hhdr with h1 h2
    subst h1 h2
    simp only [List.getElem?_cons_zero, d1, d2, List.drop_succ_cons, List.drop_zero]

theorem block_boundary_iff (L k B q : Nat) (hB : 5 ≤ B) (hk : k ≤ B - 4) (h : L + k = q * B) :
    L % B = 0 ↔ k = 0 := by
  constructor
  · intro hm
    by_contra hk0
    cases q with
    | zero => simp at h; omega
    | succ q' =>
      have e : L = (B - k) + q' * B := by
        have : (q' + 1) * B = q' * B + B := by ring
        omega
      rw [e, Nat.add_mul_mod_self_right, Nat.mod_eq_of_lt (by omega)] at hm
      omega
  · intro hk0
    subst hk0
    rw [Nat.add_zero] at h
    rw [h, Nat.mul_mod_left]

/-- The mono encoder loop and the mono decoder loop, run side by side: with `k` data bytes
left in the current block and `j` whole blocks after it, the encoder stores a suffix that
the decoder, started in the same state, turns into the encoder's reconstructed samples,
ending in the encoder's final state. -/
theorem ima_mono_loops (B : Nat) (hB : 5 ≤ B) :
    ∀ (n k j : Nat) (st : ADPCM) (S : List Int) (dst : List Nat) (q fuelE : Nat),
      n = k + j * (B - 4) → k ≤ B - 4 → dst.length + k = q * B →
      S.length = 2 * n → (∀ s ∈ S, -32768 ≤ s ∧ s ≤ 32767) → ima_ok st → n ≤ fuelE →
      ∃ stF tr out',
        ima_encode_trace st 0 S = some (stF, tr) ∧
        ima_encode_loop B 1 fuelE st (pcm16 S) dst = some (stF, dst ++ out') ∧
        out'.length = k + j * B ∧ tr.length = S.length ∧
        ∀ (dstD : List Nat) (fuelD : Nat), n ≤ fuelD →
          ima_decode_loop B 1 fuelD st out' dstD = some (stF, dstD ++ pcm16 tr) := by
  intro n
  induction n with
  | zero =>
    intro k j st S dst q fuelE hn hk hq hS _ _ _
    have hk0 : k = 0 := by omega
    have hj0 : j = 0 := by
      have : j * (B - 4) = 0 := by omega
      rcases Nat.mul_eq_zero.mp this with h | h
      · exact h
      · omega
    subst hk0 hj0
    have hS' : S = [] := List.length_eq_zero.mp (by omega)
    subst hS'
    refine ⟨st, [], [], rfl, ?_, by simp, rfl, ?_⟩
    · cases fuelE <;> simp [ima_encode_loop, pcm16]
    · intro dstD fuelD _
      cases fuelD <;> simp [ima_decode_loop, pcm16]
  | succ n ih =>
    intro k j st S dst q fuelE hn hk hq hS hrange hok hfuel
    obtain ⟨s1, S1, rfl⟩ := List.exists_cons_of_length_pos (l := S) (by omega)
    obtain ⟨s2, S', rfl⟩ := List.exists_cons_of_length_pos (l := S1)
      (by simp only [List.length_cons] at hS; omega)
    have hs1 := hrange s1 (by simp)
    have hs2 := hrange s2 (by simp)
    have hrange' : ∀ s ∈ S', -32768 ≤ s ∧ s ≤ 32767 := fun s hs => hrange s (by simp [hs])
    have hS' : S'.length = 2 * n := by simp only [List.length_cons] at hS; omega
    obtain ⟨c1, st1, e1, hc1, d1, hok1⟩ := ima_encode_step_ok st s1 hok
    obtain ⟨c2, st2, e2, hc2, d2, hok2⟩ := ima_encode_step_ok st1 s2 hok1
    obtain ⟨hlo, hhi⟩ := nibbles_of_byte c1 c2 hc1 hc2
    obtain ⟨fE, rfl⟩ : ∃ fE, fuelE = fE + 1 := ⟨fuelE - 1, by omega⟩
    have hB0 : B ≠ 0 := by omega
    have hbd := block_boundary_iff dst.length k B q hB hk hq
    have henc := ima_encode_loop_mono_step B fE hB0 st st1 st2 s1 s2 c1 c2 (pcm16 S') dst
      hs1 hs2 e1 e2
    rw [← pcm16_cons, ← pcm16_cons] at henc
    by_cases hk0 : k = 0
    · -- at a block boundary: header, then the first data byte
      subst hk0
      obtain ⟨j', rfl⟩ : ∃ j', j = j' + 1 := by
        cases j with
        | zero => simp at hn
        | succ j' => exact ⟨j', rfl⟩
      have hmul : (j' + 1) * (B - 4) = j' * (B - 4) + (B - 4) := by ring
      have hmulB : (j' + 1) * B = j' * B + B := by ring
      have hqB : (q + 1) * B = q * B + B := by ring
      rw [if_pos (hbd.mpr rfl)] at henc
      obtain ⟨stF, tr, out', htr, hloop, hlen, htrlen, hdec⟩ :=
        ih (B - 5) j' st2 S' (dst ++ ima_encode_header st 0 ++ [(c1 ||| (c2 <<< 4)) % 256])
          (q + 1) fE (by omega) (by omega)
          (by simp only [List.length_append, ima_encode_header, List.length_cons,
                List.length_nil]; omega)
          hS' hrange' hok2 (by omega)
      refine ⟨stF, Arr2.get st1.ima.last_sample 0 :: Arr2.get st2.ima.last_sample 0 :: tr,
        ima_encode_header st 0 ++ [(c1 ||| (c2 <<< 4)) % 256] ++ out', ?_, ?_, ?_, ?_, ?_⟩
      · simp only [ima_encode_trace, e1, e2, htr, bind, Option.bind, pure]
      · rw [henc, hloop]; simp
      · simp only [List.length_append, ima_encode_header, List.length_cons, List.length_nil,
          hlen]; omega
      · simp [htrlen]
      · intro dstD fuelD hfD
        obtain ⟨fD, rfl⟩ : ∃ fD, fuelD = fD + 1 := ⟨fuelD - 1, by omega⟩
        have hsz : (ima_encode_header st 0 ++ [(c1 ||| (c2 <<< 4)) % 256] ++ out').length % B
            = 0 := by
          simp only [List.length_append, ima_encode_header, List.length_cons, List.length_nil,
            hlen]
          have : 0 + 1 + 1 + 1 + 1 + (0 + 1) + (B - 5 + j' * B) = (j' + 1) * B := by omega
          rw [this, Nat.mul_mod_left]
        have hhdr : (if (ima_encode_header st 0 ++ [(c1 ||| (c2 <<< 4)) % 256] ++ out').length
            % B = 0 then ima_decode_header st 0
              (ima_encode_header st 0 ++ [(c1 ||| (c2 <<< 4)) % 256] ++ out')
            else some (st, ima_encode_header st 0 ++ [(c1 ||| (c2 <<< 4)) % 256] ++ out')) =
            some (st, (c1 ||| (c2 <<< 4)) % 256 :: out') := by
          rw [if_pos hsz, List.append_assoc, ima_header_roundtrip st _ hok]; rfl
        rw [ima_decode_loop_mono_step B fD hB0 st st st1 st2 _ _ _ _ out' dstD
          (by simp [ima_encode_header]) hhdr (by rw [hlo]; exact d1) (by rw [hhi]; exact d2),
          hdec _ fD (by omega), bytes_of_decoded, bytes_of_decoded, pcm16_cons, pcm16_cons]
        simp
    · -- inside a block: one more data byte
      have hnb : ¬ dst.length % B = 0 := fun h => hk0 (hbd.mp h)
      rw [if_neg hnb] at henc
      obtain ⟨stF, tr, out', htr, hloop, hlen, htrlen, hdec⟩ :=
        ih (k - 1) j st2 S' (dst ++ [(c1 ||| (c2 <<< 4)) % 256]) q fE (by omega) (by omega)
          (by simp only [List.length_append, List.length_cons, List.length_nil]; omega)
          hS' hrange' hok2 (by omega)
      refine ⟨stF, Arr2.get st1.ima.last_sample 0 :: Arr2.get st2.ima.last_sample 0 :: tr,
        [(c1 ||| (c2 <<< 4)) % 256] ++ out', ?_, ?_, ?_, ?_, ?_⟩
      · simp only [ima_encode_trace, e1, e2, htr, bind, Option.bind, pure]
      · rw [henc, hloop]; simp
      · simp only [List.length_append, List.length_cons, List.length_nil, hlen]; omega
      · simp [htrlen]
      · intro dstD fuelD hfD
        obtain ⟨fD, rfl⟩ : ∃ fD, fuelD = fD + 1 := ⟨fuelD - 1, by omega⟩
        have hsz : ¬ ([(c1 ||| (c2 <<< 4)) % 256] ++ out').length % B = 0 := by
          simp only [List.length_append, List.length_cons, List.length_nil, hlen]
          have : 0 + 1 + (k - 1 + j * B) = k + j * B := by omega
          rw [this, Nat.add_mul_mod_self_right, Nat.mod_eq_of_lt (by omega)]
          exact hk0
        have hhdr : (if ([(c1 ||| (c2 <<< 4)) % 256] ++ out').length % B = 0 then
              ima_decode_header st 0 ([(c1 ||| (c2 <<< 4)) % 256] ++ out')
            else some (st, [(c1 ||| (c2 <<< 4)) % 256] ++ out')) =
            some (st, (c1 ||| (c2 <<< 4)) % 256 :: out') := by
          rw [if_neg hsz]; rfl
        rw [ima_decode_loop_mono_step B fD hB0 st st st1 st2 _ _ _ _ out' dstD
          (by simp) hhdr (by rw [hlo]; exact d1) (by rw [hhi]; exact d2),
          hdec _ fD (by omega), bytes_of_decoded, bytes_of_decoded, pcm16_cons, pcm16_cons]
        simp

theorem Stream_StoreFromBuffer_written (out : wStream) (written : List Nat) :
    (Stream_StoreFromBuffer out written).buffer.take (Stream_StoreFromBuffer out written).pointer
      = written := by
  simp [Stream_StoreFromBuffer]

/-- A call of the IMA block encoder whose loop stores the bytes `dst`: it returns when
`dst` fits the buffer once `size / 2` bytes are reserved behind the pointer, and is
undefined otherwise. -/
theorem freerdp_dsp_encode_ima_adpcm_eq (ctx : FREERDP_DSP_CONTEXT) (src : List Nat)
    (out : wStream) (st : ADPCM) (dst : List Nat)
    (hloop : ima_encode_loop ctx.format.nBlockAlign ctx.format.nChannels src.length
      ctx.adpcm src [] = some (st, dst)) :
    freerdp_dsp_encode_ima_adpcm ctx src out =
      if dst.length ≤
          (Stream_EnsureRemainingCapacity out (src.length / 2 % 4294967296)).buffer.length then
        some (true, { ctx with adpcm := st },
          Stream_StoreFromBuffer
            (Stream_EnsureRemainingCapacity out (src.length / 2 % 4294967296)) dst)
      else none := by
  simp only [freerdp_dsp_encode_ima_adpcm, hloop, Stream_StoreInside, bind, Option.bind, pure]
  split_ifs <;> rfl

/-- A call of the MS block encoder whose loop stores the bytes `dst`: it returns when
`dst` fits the buffer once `size / 2` bytes are reserved behind the pointer, and is
undefined otherwise. -/
theorem freerdp_dsp_encode_ms_adpcm_eq (ctx : FREERDP_DSP_CONTEXT) (src : List Nat)
    (out : wStream) (st : ADPCM) (dst : List Nat)
    (hloop : ms_encode_loop ctx.format.nBlockAlign ctx.format.nChannels src.length
      (ms_encode_init ctx.adpcm) src [] = some (st, dst)) :
    freerdp_dsp_encode_ms_adpcm ctx src out =
      if dst.length ≤
          (Stream_EnsureRemainingCapacity out (src.length / 2 % 4294967296)).buffer.length then
        some (true, { ctx with adpcm := st },
          Stream_StoreFromBuffer
            (Stream_EnsureRemainingCapacity out (src.length / 2 % 4294967296)) dst)
      else none := by
  simp only [freerdp_dsp_encode_ms_adpcm, hloop, Stream_StoreInside, bind, Option.bind, pure]
  split_ifs <;> rfl

theorem freerdp_dsp_encode_ima_dispatch (ctx : FREERDP_DSP_CONTEXT) (f : AUDIO_FORMAT)
    (data : List Nat) (o : wStream) (he : ctx.encoder = true)
    (htag : ctx.format.wFormatTag = WAVE_FORMAT_DVI_ADPCM) :
    freerdp_dsp_encode (some ctx) (some f) (some data) (some o) =
      (freerdp_dsp_encode_ima_adpcm ctx data o).map (fun r => (r.1, some r.2.1, some r.2.2)) := by
  have hpcm : WAVE_FORMAT_DVI_ADPCM ≠ WAVE_FORMAT_PCM := by decide
  have hms : WAVE_FORMAT_DVI_ADPCM ≠ WAVE_FORMAT_ADPCM := by decide
  simp only [freerdp_dsp_encode, he, Bool.not_true, Bool.false_eq_true, if_false, htag, hpcm,
    hms, if_true]

/-- IMA-ADPCM stream round trip (mono) on an output stream that holds the blocks: with
`block_align = B >= 5`, a freshly created encoder context and a freshly created decoder
context both reset to a mono DVI-ADPCM format, a PCM input of `m * 2 * (B - 4)` signed
16-bit samples, and an output stream whose buffer holds `m * B` bytes once the encoder has
reserved `size / 2` bytes behind the pointer, `freerdp_dsp_encode` succeeds and emits
exactly `m * B` bytes, and `freerdp_dsp_decode` of those bytes succeeds and emits exactly
as many 16-bit samples as the input has, namely the values the encoder reconstructed for
the input samples, in order; both contexts end in the same codec state. -/
theorem ima_mono_roundtrip_inside_buffer (B m : Nat) (hB : 5 ≤ B)
    (fmt srcFormat : AUDIO_FORMAT) (htag : fmt.wFormatTag = WAVE_FORMAT_DVI_ADPCM)
    (hch : fmt.nChannels = 1) (hba : fmt.nBlockAlign = B)
    (S : List Int) (hS : ∀ s ∈ S, -32768 ≤ s ∧ s ≤ 32767) (hlen : S.length = m * 2 * (B - 4))
    (outE outD : wStream)
    (hroom : m * B ≤ (Stream_EnsureRemainingCapacity outE
      ((pcm16 S).length / 2 % 4294967296)).buffer.length) :
    ∃ encCtx decCtx stF tr encOut decOut,
      freerdp_dsp_context_reset (some (freerdp_dsp_context_new true)) (some fmt) =
        (true, some encCtx) ∧
      freerdp_dsp_context_reset (some (freerdp_dsp_context_new false)) (some fmt) =
        (true, some decCtx) ∧
      ima_encode_trace ADPCM.zero 0 S = some (stF, tr) ∧ tr.length = S.length ∧
      freerdp_dsp_encode (some encCtx) (some srcFormat) (some (pcm16 S)) (some outE) =
        some (true, some { encCtx with adpcm := stF }, some encOut) ∧
      encOut.pointer = m * B ∧
      freerdp_dsp_decode (some decCtx) (some srcFormat)
          (some (encOut.buffer.take encOut.pointer)) (some outD) =
        some (true, some { decCtx with adpcm := stF }, some decOut) ∧
      decOut.pointer = 2 * S.length ∧
      decOut.buffer.take decOut.pointer = pcm16 tr := by
  have hmul : m * (B - 4) ≤ m * B := Nat.mul_le_mul_left m (by omega)
  have hlen' : S.length = 2 * (m * (B - 4)) := by rw [hlen]; ring
  obtain ⟨stF, tr, out', htr, hloop, hlenO, htrlen, hdec⟩ :=
    ima_mono_loops B hB (m * (B - 4)) 0 m ADPCM.zero S [] 0 (pcm16 S).length (by omega)
      (by omega) (by simp) hlen' hS (by decide)
      (by rw [pcm16_length]; omega)
  have hpcm : WAVE_FORMAT_DVI_ADPCM ≠ WAVE_FORMAT_PCM := by decide
  have hms : WAVE_FORMAT_DVI_ADPCM ≠ WAVE_FORMAT_ADPCM := by decide
  rw [List.nil_append] at hloop
  have hdec' := hdec [] out'.length (by omega)
  rw [List.nil_append] at hdec'
  have hO : out'.length = m * B := by omega
  have henc := freerdp_dsp_encode_ima_adpcm_eq
    { freerdp_dsp_context_new true with format := fmt } (pcm16 S) outE stF out'
    (by
      show ima_encode_loop fmt.nBlockAlign fmt.nChannels (pcm16 S).length ADPCM.zero
        (pcm16 S) [] = some (stF, out')
      rw [hch, hba]; exact hloop)
  rw [if_pos (by rw [hO]; exact hroom)] at henc
  refine ⟨{ freerdp_dsp_context_new true with format := fmt },
    { freerdp_dsp_context_new false with format := fmt }, stF, tr,
    Stream_StoreFromBuffer
      (Stream_EnsureRemainingCapacity outE ((pcm16 S).length / 2 % 4294967296)) out',
    Stream_StoreFromBuffer outD (pcm16 tr),
    rfl, rfl, htr, htrlen, ?_, ?_, ?_, ?_, ?_⟩
  · rw [freerdp_dsp_encode_ima_dispatch _ srcFormat _ outE rfl htag, henc]; rfl
  · simp [Stream_StoreFromBuffer, hlenO]
  · rw [Stream_StoreFromBuffer_written]
    simp only [freerdp_dsp_decode, freerdp_dsp_context_new, htag, hpcm, hms, if_false,
      freerdp_dsp_decode_ima_adpcm, hch, hba, hdec', bind, Option.bind, pure,
      Option.map, if_true]
    simp
  · simp [Stream_StoreFromBuffer, pcm16_length, htrlen]
  · rw [Stream_StoreFromBuffer_written]

/-- C4 (the code at the failing input). Mono DVI-ADPCM with `nBlockAlign = 5`, a freshly
created encoder context reset to the format, the four samples `[1000, -2000, 300, 0]` (two
blocks of two samples) and an output stream with 2 bytes allocated and the pointer at 1.
The call reserves `size / 2 = 4` bytes behind the pointer, so that 5 bytes are allocated;
the loop stores the 10 bytes of the two blocks from the start of the buffer; the stores
leave the allocation and the call is undefined.  On a stream with 10 bytes allocated the
same call succeeds and emits the 10 bytes. -/
theorem ima_mono_encode_overflows_reservation :
    freerdp_dsp_context_reset (some (freerdp_dsp_context_new true)) (some ima_mono_format) =
      (true, some { freerdp_dsp_context_new true with format := ima_mono_format }) ∧
    ima_mono_format.nBlockAlign = 5 ∧ ima_mono_format.nChannels = 1 ∧
    (pcm16 [1000, -2000, 300, 0]).length = 8 ∧
    (Stream_EnsureRemainingCapacity { buffer := [9, 9], pointer := 1 }
      ((pcm16 [1000, -2000, 300, 0]).length / 2 % 4294967296)).buffer.length = 5 ∧
    (ima_encode_loop 5 1 8 ADPCM.zero (pcm16 [1000, -2000, 300, 0]) []).map
      (fun r => r.2.length) = some 10 ∧
    freerdp_dsp_encode
      (some { freerdp_dsp_context_new true with format := ima_mono_format })
      (some ima_mono_format) (some (pcm16 [1000, -2000, 300, 0]))
      (some { buffer := [9, 9], pointer := 1 }) = none ∧
    (freerdp_dsp_encode
      (some { freerdp_dsp_context_new true with format := ima_mono_format })
      (some ima_mono_format) (some (pcm16 [1000, -2000, 300, 0]))
      (some { buffer := List.replicate 10 9, pointer := 1 })).map
      (fun r => (r.1, r.2.2.map (fun o => o.pointer))) = some (true, some 10) := by
  refine ⟨rfl, rfl, rfl, rfl, rfl, ?_, ?_, ?_⟩ <;> decide

/-! ## Dispatch -/

theorem Stream_Write_appended (out : wStream) (data : List Nat) :
    (Stream_Write out data).buffer.take (Stream_Write out data).pointer =
      out.buffer.take out.pointer ++ data := by
  simp only [Stream_Write]
  rw [List.take_append_eq_append_take, List.take_of_length_le (by simp)]
  simp only [List.length_append, List.length_take, List.append_right_eq_self,
    List.take_eq_nil_iff, List.drop_eq_nil_iff]
  rcases Nat.le_total out.pointer out.buffer.length with h | h
  · left; rw [Nat.min_eq_left h]; omega
  · right; omega

/-- C11. PCM pass-through: for a context whose stored format tag is PCM,
`freerdp_dsp_encode` on an encoder context and `freerdp_dsp_decode` on a decoder context,
with non-null arguments, return TRUE, leave the context (codec state, stored format) as
it is, and make the output stream up to its new position equal to its previous contents
up to its previous position followed by exactly the input bytes; the position advances
by the length of the input. -/
theorem pcm_pass_through (ctx : FREERDP_DSP_CONTEXT) (srcFormat : AUDIO_FORMAT)
    (data : List Nat) (out : wStream) (htag : ctx.format.wFormatTag = WAVE_FORMAT_PCM) :
    (ctx.encoder = true →
      ∃ out', freerdp_dsp_encode (some ctx) (some srcFormat) (some data) (some out) =
          some (true, some ctx, some out') ∧
        out'.buffer.take out'.pointer = out.buffer.take out.pointer ++ data ∧
        out'.pointer = out.pointer + data.length) ∧
    (ctx.encoder = false →
      ∃ out', freerdp_dsp_decode (some ctx) (some srcFormat) (some data) (some out) =
          some (true, some ctx, some out') ∧
        out'.buffer.take out'.pointer = out.buffer.take out.pointer ++ data ∧
        out'.pointer = out.pointer + data.length) := by
  have hw := Stream_Write_appended out data
  constructor
  · intro he
    exact ⟨Stream_Write out data, by simp [freerdp_dsp_encode, he, htag], hw, rfl⟩
  · intro he
    exact ⟨Stream_Write out data, by simp [freerdp_dsp_decode, he, htag], hw, rfl⟩

theorem pcm_pass_through_witness :
    (∃ out', freerdp_dsp_encode
        (some { freerdp_dsp_context_new true with format := pcm_format })
        (some pcm_format) (some [1, 2, 3, 4]) (some { buffer := [7, 8, 9], pointer := 2 }) =
        some (true, some { freerdp_dsp_context_new true with format := pcm_format },
          some out') ∧
      out'.buffer.take out'.pointer = [7, 8] ++ [1, 2, 3, 4] ∧ out'.pointer = 2 + 4) ∧
    (∃ out', freerdp_dsp_decode
        (some { freerdp_dsp_context_new false with format := pcm_format })
        (some pcm_format) (some [1, 2, 3, 4]) (some { buffer := [7, 8, 9], pointer := 2 }) =
        some (true, some { freerdp_dsp_context_new false with format := pcm_format },
          some out') ∧
      out'.buffer.take out'.pointer = [7, 8] ++ [1, 2, 3, 4] ∧ out'.pointer = 2 + 4) :=
  ⟨(pcm_pass_through { freerdp_dsp_context_new true with format := pcm_format } pcm_format
      [1, 2, 3, 4] { buffer := [7, 8, 9], pointer := 2 } rfl).1 rfl,
   (pcm_pass_through { freerdp_dsp_context_new false with format := pcm_format } pcm_format
      [1, 2, 3, 4] { buffer := [7, 8, 9], pointer := 2 } rfl).2 rfl⟩

/-- C12. Unsupported tag fails cleanly: for every context whose stored format tag is none
of PCM, MS-ADPCM, IMA/DVI-ADPCM, `freerdp_dsp_encode` and `freerdp_dsp_decode` return FALSE
for every input (null or not) and leave the context (codec state, stored format) and the
output stream as they are. -/
theorem unsupported_tag_fails (ctx : FREERDP_DSP_CONTEXT) (srcFormat : Option AUDIO_FORMAT)
    (data : Option (List Nat)) (out : Option wStream)
    (h1 : ctx.format.wFormatTag ≠ WAVE_FORMAT_PCM)
    (h2 : ctx.format.wFormatTag ≠ WAVE_FORMAT_ADPCM)
    (h3 : ctx.format.wFormatTag ≠ WAVE_FORMAT_DVI_ADPCM) :
    freerdp_dsp_encode (some ctx) srcFormat data out = some (false, some ctx, out) ∧
    freerdp_dsp_decode (some ctx) srcFormat data out = some (false, some ctx, out) := by
  constructor
  · cases srcFormat <;> cases data <;> cases out <;>
      simp [freerdp_dsp_encode, h1, h2, h3]
  · cases srcFormat <;> cases data <;> cases out <;>
      simp [freerdp_dsp_decode, h1, h2, h3]

theorem unsupported_tag_fails_witness :
    freerdp_dsp_encode (some (freerdp_dsp_context_new true)) (some pcm_format)
        (some [1, 2, 3, 4]) (some { buffer := [7, 8, 9], pointer := 2 }) =
      some (false, some (freerdp_dsp_context_new true),
        some { buffer := [7, 8, 9], pointer := 2 }) ∧
    freerdp_dsp_decode (some (freerdp_dsp_context_new true)) (some pcm_format)
        (some [1, 2, 3, 4]) (some { buffer := [7, 8, 9], pointer := 2 }) =
      some (false, some (freerdp_dsp_context_new true),
        some { buffer := [7, 8, 9], pointer := 2 }) :=
  unsupported_tag_fails (freerdp_dsp_context_new true) (some pcm_format) (some [1, 2, 3, 4])
    (some { buffer := [7, 8, 9], pointer := 2 }) (by decide) (by decide) (by decide)

/-! ## Reset -/

/-- C13 (as stated) fails: resetting a fresh encoder context to the MP3 format, which
`freerdp_dsp_supports_format` reports as unsupported, returns TRUE and stores the
format. -/
theorem reset_validates_counterexample :
    freerdp_dsp_supports_format mp3_format (freerdp_dsp_context_new true).encoder = false ∧
    (freerdp_dsp_context_reset (some (freerdp_dsp_context_new true)) (some mp3_format)).1
      = true ∧
    (freerdp_dsp_context_reset (some (freerdp_dsp_context_new true)) (some mp3_format)).2.map
      (fun c => c.format) = some mp3_format ∧
    mp3_format ≠ (freerdp_dsp_context_new true).format := by
  decide

/-- C13 (amended). `freerdp_dsp_context_reset` does not consult
`freerdp_dsp_supports_format`: for every non-null context and every non-null target
format, supported or not, it returns TRUE and stores the target format; it returns FALSE,
leaving the context as it is, exactly when the context or the target format is NULL. -/
theorem reset_accepts_any_format :
    (∀ (ctx : FREERDP_DSP_CONTEXT) (fmt : AUDIO_FORMAT),
      freerdp_dsp_context_reset (some ctx) (some fmt) =
        (true, some { ctx with format := fmt })) ∧
    (∀ (context : Option FREERDP_DSP_CONTEXT),
      freerdp_dsp_context_reset context none = (false, context)) ∧
    (∀ (targetFormat : Option AUDIO_FORMAT),
      freerdp_dsp_context_reset none targetFormat = (false, none)) := by
  refine ⟨fun _ _ => rfl, fun context => ?_, fun targetFormat => ?_⟩
  · cases context <;> rfl
  · cases targetFormat <;> rfl

/-- C14 (as stated) fails: resetting a context whose codec state is not zero to the
supported IMA/DVI-ADPCM format succeeds and leaves the codec state as it was, not zero. -/
theorem reset_zeroes_state_counterexample :
    freerdp_dsp_supports_format ima_mono_format true = true ∧
    freerdp_dsp_context_reset
        (some { freerdp_dsp_context_new true with adpcm := ms_state_example })
        (some ima_mono_format) =
      (true, some { freerdp_dsp_context_new true with
                    adpcm := ms_state_example, format := ima_mono_format }) ∧
    ms_state_example ≠ ADPCM.zero := by
  decide

/-- C14 (amended). For every non-null context in any codec state and every target format,
after `freerdp_dsp_context_reset` (which succeeds) the stored format equals the target
format, the adaptive codec state is exactly what it was before the call (it is not
re-initialized), and the encoder/decoder mode flag is unchanged. -/
theorem reset_keeps_state (ctx : FREERDP_DSP_CONTEXT) (fmt : AUDIO_FORMAT) :
    ∃ ctx', freerdp_dsp_context_reset (some ctx) (some fmt) = (true, some ctx') ∧
      ctx'.format = fmt ∧ ctx'.adpcm = ctx.adpcm ∧ ctx'.encoder = ctx.encoder :=
  ⟨{ ctx with format := fmt }, rfl, rfl, rfl, rfl⟩

/-! ## Concrete scenarios -/

/-- C17 (as stated) fails: encoding the 4 zero bytes as mono IMA-ADPCM with
`block_align = 4` from a fresh encoder, into a stream with 8 bytes allocated, stores 5
bytes, the header and one data byte, not 4; and the decoder's walk over a 4-byte
header-only block, as over these 5 bytes, reads a data byte behind the header, outside the
source. -/
theorem ima_header_only_counterexample :
    ∃ ctx' out',
      freerdp_dsp_encode
          (some { freerdp_dsp_context_new true with format := ima_mono_format4 })
          (some pcm_format) (some [0, 0, 0, 0])
          (some { buffer := [9, 9, 9, 9, 9, 9, 9, 9], pointer := 0 }) =
        some (true, ctx', some out') ∧
      out'.buffer = [0, 0, 0, 0, 0, 9, 9, 9] ∧ out'.pointer = 5 ∧ out'.pointer ≠ 4 ∧
      freerdp_dsp_decode
          (some { freerdp_dsp_context_new false with format := ima_mono_format4 })
          (some ima_mono_format4) (some (out'.buffer.take out'.pointer))
          (some { buffer := [], pointer := 0 }) = none ∧
      freerdp_dsp_decode
          (some { freerdp_dsp_context_new false with format := ima_mono_format4 })
          (some ima_mono_format4) (some [0, 0, 0, 0]) (some { buffer := [], pointer := 0 })
        = none :=
  ⟨_, _, rfl, by decide, by decide, by decide, by decide, by decide⟩

/-- C17 (amended). Encoding the 4 zero bytes `[0,0,0,0]` (two zero 16-bit samples) as
mono IMA-ADPCM with `block_align = 4` from a freshly created (zero-state) encoder, into an
output stream whose buffer holds at least 5 bytes once the encoder has reserved its
`size / 2 = 2` bytes behind the stream position, succeeds, leaves the codec state zero and
produces exactly 5 output bytes at the start of the output stream: the 4-byte header
`[0,0,0,0]` followed by one data byte `0x00` that holds the codes of the two samples. -/
theorem ima_header_plus_data_byte (srcFormat : AUDIO_FORMAT) (out : wStream)
    (hroom : 5 ≤ (Stream_EnsureRemainingCapacity out 2).buffer.length) :
    ∃ out',
      freerdp_dsp_encode
          (some { freerdp_dsp_context_new true with format := ima_mono_format4 })
          (some srcFormat) (some [0, 0, 0, 0]) (some out) =
        some (true, some { freerdp_dsp_context_new true with format := ima_mono_format4 },
          some out') ∧
      out' = Stream_StoreFromBuffer (Stream_EnsureRemainingCapacity out 2) [0, 0, 0, 0, 0] ∧
      out'.pointer = 5 ∧ out'.buffer.take out'.pointer = [0, 0, 0, 0, 0] := by
  have henc := freerdp_dsp_encode_ima_adpcm_eq
    { freerdp_dsp_context_new true with format := ima_mono_format4 } [0, 0, 0, 0] out
    ADPCM.zero [0, 0, 0, 0, 0] (by decide)
  have hroom' : ([0, 0, 0, 0, 0] : List Nat).length ≤ (Stream_EnsureRemainingCapacity out
      (([0, 0, 0, 0] : List Nat).length / 2 % 4294967296)).buffer.length := hroom
  rw [if_pos hroom'] at henc
  refine ⟨_, ?_, rfl, rfl, Stream_StoreFromBuffer_written _ _⟩
  rw [freerdp_dsp_encode_ima_dispatch _ srcFormat _ out rfl rfl, henc]
  rfl

theorem ima_header_plus_data_byte_witness :
    5 ≤ (Stream_EnsureRemainingCapacity { buffer := [9, 9, 9, 9, 9, 9], pointer := 4 }
      2).buffer.length ∧
    ∃ out',
      freerdp_dsp_encode
          (some { freerdp_dsp_context_new true with format := ima_mono_format4 })
          (some pcm_format) (some [0, 0, 0, 0])
          (some { buffer := [9, 9, 9, 9, 9, 9], pointer := 4 }) =
        some (true, some { freerdp_dsp_context_new true with format := ima_mono_format4 },
          some out') ∧
      out' = Stream_StoreFromBuffer
        (Stream_EnsureRemainingCapacity { buffer := [9, 9, 9, 9, 9, 9], pointer := 4 } 2)
        [0, 0, 0, 0, 0] ∧
      out'.pointer = 5 ∧ out'.buffer.take out'.pointer = [0, 0, 0, 0, 0] :=
  ⟨by decide, ima_header_plus_data_byte pcm_format
    { buffer := [9, 9, 9, 9, 9, 9], pointer := 4 } (by decide)⟩

/-! ## MS zero code -/

/-- C18. MS-ADPCM zero-code decode: from a state with `predictor[c] = 0` and `sample1[c]`
in the 16-bit range, `freerdp_dsp_decode_ms_adpcm_sample` with code 0 returns exactly
`sample1[c]`, whatever `delta[c]` and `sample2[c]` are, keeps `sample1[c]` and sets
`sample2[c]` to the old `sample1[c]`; in particular, from the state of a stereo block
with predictor 0, delta 16 and zero samples on both channels, the data byte `0x00`
decodes to sample 0 on both channels. -/
theorem ms_zero_code_decode (adpcm : ADPCM) (c : Fin 2)
    (hp : Arr2.get adpcm.ms.predictor c = 0)
    (hs : -32768 ≤ Arr2.get adpcm.ms.sample1 c ∧ Arr2.get adpcm.ms.sample1 c ≤ 32767) :
    (∃ st', freerdp_dsp_decode_ms_adpcm_sample adpcm 0 c =
        some (Arr2.get adpcm.ms.sample1 c, st') ∧
      Arr2.get st'.ms.sample1 c = Arr2.get adpcm.ms.sample1 c ∧
      Arr2.get st'.ms.sample2 c = Arr2.get adpcm.ms.sample1 c) ∧
    (ms_decode_byte ms_state_stereo_start [0x00] 0 1).map (fun r => r.2.2) =
      some (bytesINT16 0 ++ bytesINT16 0) := by
  constructor
  · have hpred : ms_adpcm_predict adpcm c = some (Arr2.get adpcm.ms.sample1 c) := by
      have e : Int.tdiv (toINT32 (toINT32 (Arr2.get adpcm.ms.sample1 c * 256) +
          toINT32 (Arr2.get adpcm.ms.sample2 c * 0))) 256 = Arr2.get adpcm.ms.sample1 c := by
        rw [Int.mul_zero, toINT32_of_range (Arr2.get adpcm.ms.sample1 c * 256) (by omega)
          (by omega), toINT32_of_range 0 (by decide) (by decide), Int.add_zero,
          toINT32_of_range _ (by omega) (by omega), tdiv_of_pos _ _ (by decide)]
        split <;> omega
      simp only [ms_adpcm_predict, hp, bind, Option.bind, pure]
      exact congrArg some e
    have hclamp : ms_clamp (Arr2.get adpcm.ms.sample1 c) = Arr2.get adpcm.ms.sample1 c := by
      unfold ms_clamp; split_ifs <;> omega
    have h16 : toINT16 (Arr2.get adpcm.ms.sample1 c) = Arr2.get adpcm.ms.sample1 c := by
      unfold toINT16; omega
    have hnib : toINT8 (if (0 : Nat) &&& 0x08 ≠ 0 then toINT8 ((0 : Nat) : Int) - 16
        else ((0 : Nat) : Int)) = 0 := by decide
    have hz : toINT32 (Arr2.get adpcm.ms.sample1 c + toINT32 (0 * Arr2.get adpcm.ms.delta c))
        = Arr2.get adpcm.ms.sample1 c := by
      rw [Int.zero_mul, toINT32_of_range 0 (by decide) (by decide), Int.add_zero,
        toINT32_of_range _ (by omega) (by omega)]
    refine ⟨ms_adpcm_update adpcm c (Arr2.get adpcm.ms.sample1 c) 230, ?_, ?_, ?_⟩
    · rw [freerdp_dsp_decode_ms_adpcm_sample_eq adpcm c 0 _ 230 hpred rfl, hnib, hz, hclamp,
        h16]
    · simp only [ms_adpcm_update, Arr2.get_set]
    · simp only [ms_adpcm_update, Arr2.get_set]
  · decide

theorem ms_zero_code_decode_witness :
    (∃ st', freerdp_dsp_decode_ms_adpcm_sample ms_zero_code_state 0 1 =
        some (Arr2.get ms_zero_code_state.ms.sample1 1, st') ∧
      Arr2.get st'.ms.sample1 1 = Arr2.get ms_zero_code_state.ms.sample1 1 ∧
      Arr2.get st'.ms.sample2 1 = Arr2.get ms_zero_code_state.ms.sample1 1) ∧
    (ms_decode_byte ms_state_stereo_start [0x00] 0 1).map (fun r => r.2.2) =
      some (bytesINT16 0 ++ bytesINT16 0) :=
  ms_zero_code_decode ms_zero_code_state 1 (by decide) (by decide)

/-! ## Where the transforms store their output -/

/-- C19 (the code at the failing input). An IMA-ADPCM encode of the two samples
`[1000, -2000]` into a stream with 6 bytes allocated that holds 3 bytes before its
position: the call reserves `size / 2 = 2` bytes behind the position and then stores its 5
bytes from the start of the buffer: the first 3 bytes are overwritten and the new position
is 5, not 3 + 5.  The IMA-ADPCM decode of these 5 bytes into the same stream stores its 4
bytes from the start of the buffer as well (new position 4, not 3 + 4).  The PCM case of
the same entry point, on the same stream and input, keeps the first 3 bytes and places
the 4 bytes behind them (new position 3 + 4). -/
theorem adpcm_stores_from_buffer_start :
    (∃ ctx' out',
      freerdp_dsp_encode
          (some { freerdp_dsp_context_new true with format := ima_mono_format })
          (some pcm_format) (some [232, 3, 48, 248])
          (some { buffer := [9, 9, 9, 9, 9, 9], pointer := 3 }) =
        some (true, ctx', some out') ∧
      out'.buffer = [0, 0, 0, 0, 247, 9] ∧ out'.pointer = 5 ∧
      out'.buffer.take 3 ≠ [9, 9, 9] ∧ out'.pointer ≠ 3 + 5) ∧
    (∃ ctx' out',
      freerdp_dsp_decode
          (some { freerdp_dsp_context_new false with format := ima_mono_format })
          (some pcm_format) (some [0, 0, 0, 0, 247])
          (some { buffer := [9, 9, 9, 9, 9, 9], pointer := 3 }) =
        some (true, ctx', some out') ∧
      out'.buffer = [11, 0, 237, 255, 9, 9] ∧ out'.pointer = 4 ∧
      out'.buffer.take 3 ≠ [9, 9, 9] ∧ out'.pointer ≠ 3 + 4) ∧
    (∃ ctx' out',
      freerdp_dsp_encode
          (some { freerdp_dsp_context_new true with format := pcm_format })
          (some pcm_format) (some [232, 3, 48, 248])
          (some { buffer := [9, 9, 9, 9, 9, 9], pointer := 3 }) =
        some (true, ctx', some out') ∧
      out'.buffer = [9, 9, 9, 232, 3, 48, 248] ∧ out'.pointer = 3 + 4) :=
  ⟨⟨_, _, rfl, by decide, by decide, by decide, by decide⟩,
    ⟨_, _, rfl, by decide, by decide, by decide, by decide⟩,
    ⟨_, _, rfl, by decide, by decide⟩⟩

/-! ## MS block header round trip -/

theorem Arr2.get_set_ite {α : Type} (a : α × α) (c c' : Fin 2) (v : α) :
    Arr2.get (Arr2.set a c v) c' = if c' = c then v else Arr2.get a c' := by
  unfold Arr2.get Arr2.set
  have hc : c = 0 ∨ c = 1 := by omega
  have hc' : c' = 0 ∨ c' = 1 := by omega
  rcases hc with rfl | rfl <;> rcases hc' with rfl | rfl <;> simp

theorem readINT16_drop (src : List Nat) (k : Nat) :
    readINT16 src k = readINT16 (src.drop k) 0 := by
  simp only [readINT16, List.getElem?_drop, Nat.add_zero, Nat.zero_add]

theorem readINT16_append_bytes (pre : List Nat) (s : Int) (rest : List Nat) (k : Nat)
    (hk : pre.length = k) (h0 : -32768 ≤ s) (h1 : s ≤ 32767) :
    readINT16 (pre ++ (bytesINT16 s ++ rest)) k = some s := by
  rw [readINT16_drop, ← hk, List.drop_left]
  exact readINT16_bytesINT16 s rest h0 h1

theorem readINT16_some (a b : Nat) (rest : List Nat) :
    ∃ v, readINT16 (a :: b :: rest) 0 = some v ∧ -32768 ≤ v ∧ v ≤ 32767 := by
  refine ⟨toINT16 ((a ||| (b <<< 8) : Nat) : Int), by simp [readINT16, bind, Option.bind], ?_⟩
  unfold toINT16; omega

theorem toINT16_of_range (s : Int) (h0 : -32768 ≤ s) (h1 : s ≤ 32767) : toINT16 s = s := by
  unfold toINT16; omega

/-- One MS encoder sample step on a channel in use keeps the encoder able to step. -/
theorem ms_encode_step_ok (st : ADPCM) (s : Int) (c c1 : Fin 2) (hc : c = 0 ∨ c = c1)
    (hok : ms_encode_ok st c1) :
    ∃ code st', freerdp_dsp_encode_ms_adpcm_sample st s c = some (code, st') ∧ code < 16 ∧
      ms_encode_ok st' c1 := by
  obtain ⟨hp0, hp1, hd0, hd1⟩ := hok
  have hpc : Arr2.get st.ms.predictor c ≤ 6 := by rcases hc with rfl | rfl <;> assumption
  have hdc : 16 ≤ Arr2.get st.ms.delta c := by rcases hc with rfl | rfl <;> assumption
  obtain ⟨p, hpred, _, _⟩ := ms_adpcm_predict_some st c hpc
  obtain ⟨a, _, henc⟩ := freerdp_dsp_encode_ms_adpcm_sample_eq st c s p hpred (by omega)
  obtain ⟨r0, r1⟩ := ms_clamp_nibble_range
    (ms_encode_errordelta (toINT32 (s - p)) (Arr2.get st.ms.delta c))
  obtain ⟨hlt, _⟩ := ms_nibble_of_code _ r0 r1
  refine ⟨_, _, henc, hlt, ?_⟩
  simp only [ms_encode_ok, ms_adpcm_update, Arr2.get_set_ite]
  refine ⟨hp0, hp1, ?_, ?_⟩
  · split
    · split <;> omega
    · exact hd0
  · split
    · split <;> omega
    · exact hd1

/-- One MS decoder sample step on a channel in use keeps the decoder able to step. -/
theorem ms_decode_step_ok (st : ADPCM) (code : Nat) (c c1 : Fin 2) (hc : c = 0 ∨ c = c1)
    (hok : ms_decode_ok st c1) (hcode : code < 16) :
    ∃ r st', freerdp_dsp_decode_ms_adpcm_sample st code c = some (r, st') ∧
      ms_decode_ok st' c1 := by
  obtain ⟨hp0, hp1⟩ := hok
  have hpc : Arr2.get st.ms.predictor c ≤ 6 := by rcases hc with rfl | rfl <;> assumption
  obtain ⟨p, hpred, _, _⟩ := ms_adpcm_predict_some st c hpc
  obtain ⟨a, ha⟩ := ms_adaptation_at code hcode
  exact ⟨_, _, freerdp_dsp_decode_ms_adpcm_sample_eq st c code p a hpred ha, hp0, hp1⟩

/-- One round of the MS encoder loop, after the block-boundary step. -/
theorem ms_encode_loop_step (B ch fuel : Nat) (hB : B ≠ 0) (st sth st1 st2 : ADPCM)
    (src hdr dst rest : List Nat) (s1 s2 : Int) (e1 e2 : Nat) (hne : src.length ≠ 0)
    (hhdr : (if dst.length % B = 0 then
        (if ch > 1 then ms_encode_header_stereo st src else ms_encode_header_mono st src)
        else some (st, src, [])) = some (sth, bytesINT16 s1 ++ (bytesINT16 s2 ++ rest), hdr))
    (hs1 : -32768 ≤ s1 ∧ s1 ≤ 32767) (hs2 : -32768 ≤ s2 ∧ s2 ≤ 32767)
    (h1 : freerdp_dsp_encode_ms_adpcm_sample sth s1 0 = some (e1, st1))
    (h2 : freerdp_dsp_encode_ms_adpcm_sample st1 s2 (if ch > 1 then 1 else 0) = some (e2, st2)) :
    ms_encode_loop B ch (fuel + 1) st src dst =
      ms_encode_loop B ch fuel st2 rest (dst ++ hdr ++ [((e1 <<< 4) % 256 + e2) % 256]) := by
  have r1 := readINT16_bytesINT16 s1 (bytesINT16 s2 ++ rest) hs1.1 hs1.2
  have r2 := readINT16_bytesINT16 s2 rest hs2.1 hs2.2
  have hd1 : List.drop 2 (bytesINT16 s1 ++ (bytesINT16 s2 ++ rest)) = bytesINT16 s2 ++ rest := by
    simp [bytesINT16]
  have hd2 : List.drop 2 (bytesINT16 s2 ++ rest) = rest := by
    simp [bytesINT16]
  rw [ms_encode_loop]
  by_cases hb : dst.length % B = 0
  · by_cases hc : ch > 1
    · simp only [hb, hc, if_true] at hhdr h2
      simp only [hne, if_false, hB, bind, Option.bind, pure, hb, hc, if_true, hhdr, r1, hd1, h1,
        r2, hd2, h2]
    · simp only [hb, hc, if_true, if_false] at hhdr h2
      simp only [hne, if_false, hB, bind, Option.bind, pure, hb, hc, if_true, hhdr, r1, hd1, h1,
        r2, hd2, h2]
  · simp only [hb, if_false, Option.some.injEq, Prod.mk.injEq] at hhdr
    obtain ⟨rfl, rfl, rfl⟩ := hhdr
    by_cases hc : ch > 1
    · simp only [hc, if_true] at h2
      simp only [hne, if_false, hB, bind, Option.bind, pure, hb, r1, hd1, h1, r2, hd2, h2, hc,
        if_true]
    · simp only [hc, if_false] at h2
      simp only [hne, if_false, hB, bind, Option.bind, pure, hb, r1, hd1, h1, r2, hd2, h2, hc]

theorem ms_decode_header_skip (B ch : Nat) (st : ADPCM) (src : List Nat) (hB : B ≠ 0)
    (h : src.length % B ≠ 0) : ms_decode_header B ch st src = some (st, src, []) := by
  simp only [ms_decode_header, hB, if_false, h]

/-- One round of the mono MS decoder loop. -/
theorem ms_decode_loop_step_mono (B ch fuel : Nat) (hch : ¬ ch > 1) (st sth st1 : ADPCM)
    (src src1 src2 hdr dst w : List Nat) (hne : src.length ≠ 0)
    (hhdr : ms_decode_header B ch st src = some (sth, src1, hdr))
    (hb : ms_decode_byte sth src1 0 0 = some (st1, src2, w)) :
    ms_decode_loop B ch (fuel + 1) st src dst =
      ms_decode_loop B ch fuel st1 src2 (dst ++ hdr ++ w) := by
  rw [ms_decode_loop]
  simp only [hne, if_false, hhdr, hch, hb, bind, Option.bind]

/-- One round of the stereo MS decoder loop. -/
theorem ms_decode_loop_step_stereo (B ch fuel : Nat) (hch : ch > 1) (st sth st1 st2 : ADPCM)
    (src src1 src2 src3 hdr dst w1 w2 : List Nat) (hne : src.length ≠ 0)
    (hhdr : ms_decode_header B ch st src = some (sth, src1, hdr))
    (hb1 : ms_decode_byte sth src1 0 1 = some (st1, src2, w1))
    (hb2 : ms_decode_byte st1 src2 0 1 = some (st2, src3, w2)) :
    ms_decode_loop B ch (fuel + 1) st src dst =
      ms_decode_loop B ch fuel st2 src3 (dst ++ hdr ++ w1 ++ w2) := by
  rw [ms_decode_loop]
  simp only [hne, if_false, hhdr, hch, if_true, hb1, hb2, bind, Option.bind]

/-- A data byte always decodes when the predictors of the channels in use are in range. -/
theorem ms_decode_byte_ok (st : ADPCM) (b : Nat) (rest : List Nat) (cHi cLo c1 : Fin 2)
    (hHi : cHi = 0 ∨ cHi = c1) (hLo : cLo = 0 ∨ cLo = c1) (hb : b < 256)
    (hok : ms_decode_ok st c1) :
    ∃ st' w, ms_decode_byte st (b :: rest) cHi cLo = some (st', rest, w) ∧
      ms_decode_ok st' c1 := by
  have h1 : b >>> 4 < 16 := by
    rw [Nat.shiftRight_eq_div_pow]; omega
  have h2 : b &&& 0x0F < 16 := by
    have := Nat.and_pow_two_sub_one_eq_mod b 4
    simp only [Nat.reducePow, Nat.add_one_sub_one] at this
    have e : (0x0F : Nat) = 15 := rfl
    rw [e, this]; omega
  obtain ⟨r1, st1, d1, ok1⟩ := ms_decode_step_ok st _ cHi c1 hHi hok h1
  obtain ⟨r2, st2, d2, ok2⟩ := ms_decode_step_ok st1 _ cLo c1 hLo ok1 h2
  exact ⟨st2, bytesINT16 r1 ++ bytesINT16 r2,
    by simp [ms_decode_byte, d1, d2, bind, Option.bind], ok2⟩

/-- The MS encoder loop inside a block: `n` data bytes are stored for `2 * n` samples. -/
theorem ms_encode_data_loop (B ch : Nat) (c1 : Fin 2) (hc1 : c1 = if ch > 1 then 1 else 0) :
    ∀ (n : Nat) (st : ADPCM) (S : List Int) (dst : List Nat) (fuel : Nat),
      S.length = 2 * n → (∀ s ∈ S, -32768 ≤ s ∧ s ≤ 32767) → ms_encode_ok st c1 → n ≤ fuel →
      dst.length + n = B → 0 < dst.length →
      ∃ stF data, ms_encode_loop B ch fuel st (pcm16 S) dst = some (stF, dst ++ data) ∧
        data.length = n ∧ ∀ b ∈ data, b < 256 := by
  intro n
  induction n with
  | zero =>
    intro st S dst fuel hS _ _ _ _ _
    have hS' : S = [] := List.length_eq_zero.mp (by omega)
    subst hS'
    refine ⟨st, [], ?_, rfl, by simp⟩
    cases fuel <;> simp [ms_encode_loop, pcm16]
  | succ n ih =>
    intro st S dst fuel hS hrange hok hfuel hlen hpos
    obtain ⟨s1, S1, rfl⟩ := List.exists_cons_of_length_pos (l := S) (by omega)
    obtain ⟨s2, S', rfl⟩ := List.exists_cons_of_length_pos (l := S1)
      (by simp only [List.length_cons] at hS; omega)
    have hs1 := hrange s1 (by simp)
    have hs2 := hrange s2 (by simp)
    have hrange' : ∀ s ∈ S', -32768 ≤ s ∧ s ≤ 32767 := fun s hs => hrange s (by simp [hs])
    have hS' : S'.length = 2 * n := by simp only [List.length_cons] at hS; omega
    obtain ⟨f, rfl⟩ : ∃ f, fuel = f + 1 := ⟨fuel - 1, by omega⟩
    have hB : B ≠ 0 := by omega
    have hnb : ¬ dst.length % B = 0 := by
      rw [Nat.mod_eq_of_lt (by omega)]; omega
    obtain ⟨e1, st1, h1, _, ok1⟩ := ms_encode_step_ok st s1 0 c1 (Or.inl rfl) hok
    obtain ⟨e2, st2, h2, _, ok2⟩ := ms_encode_step_ok st1 s2 c1 c1 (Or.inr rfl) ok1
    rw [hc1] at h2
    have hstep := ms_encode_loop_step B ch f hB st st st1 st2 (pcm16 (s1 :: s2 :: S')) [] dst
      (pcm16 S') s1 s2 e1 e2 (by rw [pcm16_length]; simp)
      (by rw [if_neg hnb, pcm16_cons, pcm16_cons]) hs1 hs2 h1 h2
    obtain ⟨stF, data, hloop, hdl, hdb⟩ :=
      ih st2 S' (dst ++ [] ++ [((e1 <<< 4) % 256 + e2) % 256]) f hS' hrange' ok2 (by omega)
        (by simp only [List.length_append, List.length_cons, List.length_nil]; omega)
        (by simp)
    refine ⟨stF, [((e1 <<< 4) % 256 + e2) % 256] ++ data, ?_, ?_, ?_⟩
    · rw [hstep, hloop]; simp
    · simp [hdl]
    · intro b hb
      simp only [List.mem_append, List.mem_singleton] at hb
      rcases hb with rfl | hb
      · exact Nat.mod_lt _ (by decide)
      · exact hdb b hb

/-- The mono MS decoder loop inside a block: every data byte decodes. -/
theorem ms_decode_data_loop_mono (B ch : Nat) (hch : ¬ ch > 1) :
    ∀ (data : List Nat) (st : ADPCM) (dst : List Nat) (fuel : Nat),
      (∀ b ∈ data, b < 256) → ms_decode_ok st 0 → data.length ≤ fuel → data.length < B →
      ∃ stF out, ms_decode_loop B ch fuel st data dst = some (stF, dst ++ out) := by
  intro data
  induction data with
  | nil =>
    intro st dst fuel _ _ _ _
    refine ⟨st, [], ?_⟩
    cases fuel <;> simp [ms_decode_loop]
  | cons b rest ih =>
    intro st dst fuel hbytes hok hfuel hlt
    obtain ⟨f, rfl⟩ : ∃ f, fuel = f + 1 := ⟨fuel - 1, by simp at hfuel; omega⟩
    have hB : B ≠ 0 := by omega
    have hskip := ms_decode_header_skip B ch st (b :: rest) hB
      (by rw [Nat.mod_eq_of_lt hlt]; simp)
    obtain ⟨st1, w, hb, ok1⟩ := ms_decode_byte_ok st b rest 0 0 0 (Or.inl rfl) (Or.inl rfl)
      (hbytes b (by simp)) hok
    obtain ⟨stF, out, hloop⟩ := ih st1 (dst ++ [] ++ w) f
      (fun x hx => hbytes x (by simp [hx])) ok1 (by simp at hfuel; omega)
      (by simp at hlt; omega)
    refine ⟨stF, w ++ out, ?_⟩
    rw [ms_decode_loop_step_mono B ch f hch st st st1 (b :: rest) (b :: rest) rest [] dst w
      (by simp) hskip hb, hloop]
    simp

/-- The stereo MS decoder loop inside a block: every pair of data bytes decodes. -/
theorem ms_decode_data_loop_stereo (B ch : Nat) (hch : ch > 1) :
    ∀ (n : Nat) (data : List Nat) (st : ADPCM) (dst : List Nat) (fuel : Nat),
      data.length = 2 * n → (∀ b ∈ data, b < 256) → ms_decode_ok st 1 → n ≤ fuel →
      data.length < B →
      ∃ stF out, ms_decode_loop B ch fuel st data dst = some (stF, dst ++ out) := by
  intro n
  induction n with
  | zero =>
    intro data st dst fuel hlen _ _ _ _
    have hd : data = [] := List.length_eq_zero.mp (by omega)
    subst hd
    refine ⟨st, [], ?_⟩
    cases fuel <;> simp [ms_decode_loop]
  | succ n ih =>
    intro data st dst fuel hlen hbytes hok hfuel hlt
    obtain ⟨b1, d1, rfl⟩ := List.exists_cons_of_length_pos (l := data) (by omega)
    obtain ⟨b2, rest, rfl⟩ := List.exists_cons_of_length_pos (l := d1)
      (by simp only [List.length_cons] at hlen; omega)
    obtain ⟨f, rfl⟩ : ∃ f, fuel = f + 1 := ⟨fuel - 1, by omega⟩
    have hB : B ≠ 0 := by omega
    have hskip := ms_decode_header_skip B ch st (b1 :: b2 :: rest) hB
      (by rw [Nat.mod_eq_of_lt hlt]; simp)
    obtain ⟨st1, w1, hb1, ok1⟩ := ms_decode_byte_ok st b1 (b2 :: rest) 0 1 1 (Or.inl rfl)
      (Or.inr rfl) (hbytes b1 (by simp)) hok
    obtain ⟨st2, w2, hb2, ok2⟩ := ms_decode_byte_ok st1 b2 rest 0 1 1 (Or.inl rfl)
      (Or.inr rfl) (hbytes b2 (by simp)) ok1
    obtain ⟨stF, out, hloop⟩ := ih rest st2 (dst ++ [] ++ w1 ++ w2) f
      (by simp only [List.length_cons] at hlen; omega)
      (fun x hx => hbytes x (by simp [hx])) ok2 (by omega)
      (by simp only [List.length_cons] at hlt; omega)
    refine ⟨stF, w1 ++ w2 ++ out, ?_⟩
    rw [ms_decode_loop_step_stereo B ch f hch st st st1 st2 (b1 :: b2 :: rest) (b1 :: b2 :: rest)
      (b2 :: rest) rest [] dst w1 w2 (by simp) hskip hb1 hb2, hloop]
    simp

theorem ms_encode_init_ok (adpcm : ADPCM) (c1 : Fin 2)
    (hp0 : Arr2.get adpcm.ms.predictor 0 ≤ 6) (hp1 : Arr2.get adpcm.ms.predictor c1 ≤ 6) :
    ms_encode_ok (ms_encode_init adpcm) c1 := by
  have hc : c1 = 0 ∨ c1 = 1 := by omega
  have key : 16 ≤ Arr2.get (ms_encode_init adpcm).ms.delta 0 ∧
      16 ≤ Arr2.get (ms_encode_init adpcm).ms.delta 1 := by
    simp only [ms_encode_init]
    constructor <;> split_ifs <;> simp_all [Arr2.get_set_ite]
  refine ⟨hp0, hp1, key.1, ?_⟩
  rcases hc with rfl | rfl
  · exact key.1
  · exact key.2

/-- The mono block header of the MS encoder on a source that starts with two samples. -/
theorem ms_encode_header_mono_eq (st : ADPCM) (s0 s1 : Int) (rest : List Nat)
    (h0 : -32768 ≤ s0 ∧ s0 ≤ 32767) (h1 : -32768 ≤ s1 ∧ s1 ≤ 32767) :
    ms_encode_header_mono st (bytesINT16 s0 ++ (bytesINT16 s1 ++ rest)) =
      some ({ st with ms := { st.ms with
                sample1 := Arr2.set st.ms.sample1 0 s1
                sample2 := Arr2.set st.ms.sample2 0 s0 } },
        rest,
        [Arr2.get st.ms.predictor 0 % 256] ++ bytesINT16 (Arr2.get st.ms.delta 0) ++
          bytesINT16 s1 ++ bytesINT16 s0) := by
  have r0 := readINT16_bytesINT16 s0 (bytesINT16 s1 ++ rest) h0.1 h0.2
  have r1 := readINT16_append_bytes (bytesINT16 s0) s1 rest 2 rfl h1.1 h1.2
  have hd : List.drop 4 (bytesINT16 s0 ++ (bytesINT16 s1 ++ rest)) = rest := by
    simp [bytesINT16]
  simp only [ms_encode_header_mono, r0, r1, hd, bind, Option.bind, pure,
    toINT16_of_range s0 h0.1 h0.2, toINT16_of_range s1 h1.1 h1.2]

/-- The mono block header of the MS decoder on the bytes of an encoder header. -/
theorem ms_decode_header_mono_eq (st : ADPCM) (p : Nat) (d s1 s0 : Int) (rest : List Nat)
    (h0 : -32768 ≤ s0 ∧ s0 ≤ 32767) (h1 : -32768 ≤ s1 ∧ s1 ≤ 32767) :
    ∃ d', ms_decode_header_mono st
        ([p] ++ bytesINT16 d ++ bytesINT16 s1 ++ bytesINT16 s0 ++ rest) =
      some ({ st with ms :=
              { predictor := Arr2.set st.ms.predictor 0 p
                delta := Arr2.set st.ms.delta 0 d'
                sample1 := Arr2.set st.ms.sample1 0 s1
                sample2 := Arr2.set st.ms.sample2 0 s0 } },
        rest, bytesINT16 s0 ++ bytesINT16 s1) := by
  obtain ⟨d', hd', _, _⟩ := readINT16_some (toBYTE d) (toBYTE (d >>> (8 : Nat)))
    (bytesINT16 s1 ++ (bytesINT16 s0 ++ rest))
  have e : [p] ++ bytesINT16 d ++ bytesINT16 s1 ++ bytesINT16 s0 ++ rest =
      p :: toBYTE d :: toBYTE (d >>> (8 : Nat)) :: (bytesINT16 s1 ++ (bytesINT16 s0 ++ rest)) := by
    simp [bytesINT16]
  have rd : readINT16 (p :: toBYTE d :: toBYTE (d >>> (8 : Nat)) ::
      (bytesINT16 s1 ++ (bytesINT16 s0 ++ rest))) 1 = some d' := by
    rw [readINT16_drop]; exact hd'
  have r1 : readINT16 (p :: toBYTE d :: toBYTE (d >>> (8 : Nat)) ::
      (bytesINT16 s1 ++ (bytesINT16 s0 ++ rest))) 3 = some s1 :=
    readINT16_append_bytes [p, toBYTE d, toBYTE (d >>> (8 : Nat))] s1 (bytesINT16 s0 ++ rest) 3
      rfl h1.1 h1.2
  have r0 : readINT16 (p :: toBYTE d :: toBYTE (d >>> (8 : Nat)) ::
      (bytesINT16 s1 ++ (bytesINT16 s0 ++ rest))) 5 = some s0 := by
    have := readINT16_append_bytes
      ([p, toBYTE d, toBYTE (d >>> (8 : Nat))] ++ bytesINT16 s1) s0 rest 5 rfl h0.1 h0.2
    simpa [bytesINT16] using this
  have hdrop : List.drop 7 (p :: toBYTE d :: toBYTE (d >>> (8 : Nat)) ::
      (bytesINT16 s1 ++ (bytesINT16 s0 ++ rest))) = rest := by
    simp [bytesINT16]
  refine ⟨d', ?_⟩
  rw [e]
  simp only [ms_decode_header_mono, List.getElem?_cons_zero, rd, r1, r0, hdrop, bind,
    Option.bind, pure, toINT16_of_range s0 h0.1 h0.2, toINT16_of_range s1 h1.1 h1.2]

theorem ms_decode_header_boundary_mono (B ch : Nat) (st : ADPCM) (src : List Nat) (hB : B ≠ 0)
    (h : src.length % B = 0) (hch : ¬ ch > 1) :
    ms_decode_header B ch st src = ms_decode_header_mono st src := by
  simp only [ms_decode_header, hB, if_false, h, if_true, hch]

theorem ms_decode_header_boundary_stereo (B ch : Nat) (st : ADPCM) (src : List Nat) (hB : B ≠ 0)
    (h : src.length % B = 0) (hch : ch > 1) :
    ms_decode_header B ch st src = ms_decode_header_stereo st src := by
  simp only [ms_decode_header, hB, if_false, h, if_true, hch]

/-- A mono MS-ADPCM block, encoded into a stream whose buffer holds the block once the
encoder has reserved `size / 2` bytes behind the pointer: the decoder returns the
encoder's two header samples first. -/
theorem ms_header_roundtrip_mono (B : Nat) (ctxE ctxD : FREERDP_DSP_CONTEXT) (S : List Int)
    (outE outD : wStream) (hS : ∀ s ∈ S, -32768 ≤ s ∧ s ≤ 32767)
    (hBE : ctxE.format.nBlockAlign = B) (hBD : ctxD.format.nBlockAlign = B)
    (hchE : ctxE.format.nChannels = 1) (hchD : ctxD.format.nChannels = 1)
    (hB : 8 ≤ B) (hlen : S.length = 2 + 2 * (B - 7))
    (hp : Arr2.get ctxE.adpcm.ms.predictor 0 ≤ 6)
    (hroom : B ≤ (Stream_EnsureRemainingCapacity outE
      ((pcm16 S).length / 2 % 4294967296)).buffer.length) :
    ∃ ctxE' encOut ctxD' decOut,
      freerdp_dsp_encode_ms_adpcm ctxE (pcm16 S) outE = some (true, ctxE', encOut) ∧
      encOut.pointer = B ∧
      freerdp_dsp_decode_ms_adpcm ctxD (encOut.buffer.take encOut.pointer) outD =
        some (true, ctxD', decOut) ∧
      decOut.buffer.take 4 = pcm16 (S.take 2) := by
  obtain ⟨s0, S1, rfl⟩ := List.exists_cons_of_length_pos (l := S) (by omega)
  obtain ⟨s1, S2, rfl⟩ := List.exists_cons_of_length_pos (l := S1)
    (by simp only [List.length_cons] at hlen; omega)
  obtain ⟨s2, S3, rfl⟩ := List.exists_cons_of_length_pos (l := S2)
    (by simp only [List.length_cons] at hlen; omega)
  obtain ⟨s3, T, rfl⟩ := List.exists_cons_of_length_pos (l := S3)
    (by simp only [List.length_cons] at hlen; omega)
  have h0 := hS s0 (by simp)
  have h1 := hS s1 (by simp)
  have h2 := hS s2 (by simp)
  have h3 := hS s3 (by simp)
  have hT : ∀ s ∈ T, -32768 ≤ s ∧ s ≤ 32767 := fun s hs => hS s (by simp [hs])
  have hTl : T.length = 2 * (B - 8) := by simp only [List.length_cons] at hlen; omega
  have hB0 : B ≠ 0 := by omega
  have hch : ¬ (1 : Nat) > 1 := by decide
  -- encoder: header and first data byte
  have ok0 := ms_encode_init_ok ctxE.adpcm 0 hp hp
  have hhdrE := ms_encode_header_mono_eq (ms_encode_init ctxE.adpcm) s0 s1
    (bytesINT16 s2 ++ (bytesINT16 s3 ++ pcm16 T)) h0 h1
  have okh : ms_encode_ok { ms_encode_init ctxE.adpcm with ms :=
      { (ms_encode_init ctxE.adpcm).ms with
        sample1 := Arr2.set (ms_encode_init ctxE.adpcm).ms.sample1 0 s1
        sample2 := Arr2.set (ms_encode_init ctxE.adpcm).ms.sample2 0 s0 } } 0 := ok0
  obtain ⟨e1, st1, he1, _, ok1⟩ := ms_encode_step_ok _ s2 0 0 (Or.inl rfl) okh
  obtain ⟨e2, st2, he2, _, ok2⟩ := ms_encode_step_ok st1 s3 0 0 (Or.inl rfl) ok1
  have hsrc : pcm16 (s0 :: s1 :: s2 :: s3 :: T) =
      bytesINT16 s0 ++ (bytesINT16 s1 ++ (bytesINT16 s2 ++ (bytesINT16 s3 ++ pcm16 T))) := by
    simp only [pcm16_cons]
  have hfuel : (pcm16 (s0 :: s1 :: s2 :: s3 :: T)).length = (2 * T.length + 7) + 1 := by
    rw [pcm16_length]; simp only [List.length_cons]; omega
  have hstepE := ms_encode_loop_step B 1 (2 * T.length + 7) hB0 (ms_encode_init ctxE.adpcm) _
    st1 st2 (pcm16 (s0 :: s1 :: s2 :: s3 :: T)) _ [] (pcm16 T) s2 s3 e1 e2
    (by rw [hfuel]; omega)
    (by
      rw [hsrc]
      simp only [List.length_nil, Nat.zero_mod, if_true, if_neg hch]
      exact hhdrE)
    h2 h3 he1 (by simpa only [if_neg hch] using he2)
  -- the block
  obtain ⟨hdrE, hE⟩ : ∃ h, h = [Arr2.get (ms_encode_init ctxE.adpcm).ms.predictor 0 % 256] ++
    bytesINT16 (Arr2.get (ms_encode_init ctxE.adpcm).ms.delta 0) ++ bytesINT16 s1 ++
    bytesINT16 s0 := ⟨_, rfl⟩
  have hEl : hdrE.length = 7 := by rw [hE]; rfl
  obtain ⟨byte, hbyte⟩ : ∃ b, b = ((e1 <<< 4) % 256 + e2) % 256 := ⟨_, rfl⟩
  have hbytelt : byte < 256 := by rw [hbyte]; exact Nat.mod_lt _ (by decide)
  rw [← hE, ← hbyte] at hstepE
  obtain ⟨stF, data, hloopE, hdl, hdb⟩ := ms_encode_data_loop B 1 0 (by simp) (B - 8) st2 T
    ([] ++ hdrE ++ [byte]) (2 * T.length + 7) hTl hT ok2 (by omega)
    (by simp only [List.length_append, List.length_cons, List.length_nil, hEl]; omega)
    (by simp)
  rw [← hfuel, hloopE] at hstepE
  have hblock : ([] : List Nat) ++ hdrE ++ [byte] ++ data = hdrE ++ (byte :: data) := by simp
  have hblen : (hdrE ++ (byte :: data)).length = B := by
    simp only [List.length_append, List.length_cons, hEl, hdl]
    omega
  -- decoder: header and first data byte
  obtain ⟨d', hhdrD⟩ := ms_decode_header_mono_eq ctxD.adpcm
    (Arr2.get (ms_encode_init ctxE.adpcm).ms.predictor 0 % 256)
    (Arr2.get (ms_encode_init ctxE.adpcm).ms.delta 0) s1 s0 (byte :: data) h0 h1
  rw [← hE, ← ms_decode_header_boundary_mono B 1 _ _ hB0 (by rw [hblen, Nat.mod_self]) hch]
    at hhdrD
  have okD : ms_decode_ok { ctxD.adpcm with ms :=
      { predictor := Arr2.set ctxD.adpcm.ms.predictor 0
          (Arr2.get (ms_encode_init ctxE.adpcm).ms.predictor 0 % 256)
        delta := Arr2.set ctxD.adpcm.ms.delta 0 d'
        sample1 := Arr2.set ctxD.adpcm.ms.sample1 0 s1
        sample2 := Arr2.set ctxD.adpcm.ms.sample2 0 s0 } } 0 := by
    have : Arr2.get (ms_encode_init ctxE.adpcm).ms.predictor 0 % 256 ≤ 6 :=
      Nat.le_trans (Nat.mod_le _ _) ok0.1
    simp only [ms_decode_ok, Arr2.get_set]
    exact ⟨this, this⟩
  obtain ⟨sd1, w, hbD, okD1⟩ := ms_decode_byte_ok _ byte data 0 0 0 (Or.inl rfl) (Or.inl rfl)
    hbytelt okD
  obtain ⟨sdF, outD', hloopD⟩ := ms_decode_data_loop_mono B 1 hch data sd1
    ([] ++ (bytesINT16 s0 ++ bytesINT16 s1) ++ w) (B - 1) hdb okD1 (by omega) (by omega)
  have hstepD := ms_decode_loop_step_mono B 1 (B - 1) hch ctxD.adpcm _ sd1
    (hdrE ++ (byte :: data)) (byte :: data) data _ [] w (by rw [hblen]; omega) hhdrD hbD
  rw [hloopD] at hstepD
  have hB1 : B - 1 + 1 = B := by omega
  rw [hB1] at hstepD
  refine ⟨{ ctxE with adpcm := stF },
    Stream_StoreFromBuffer (Stream_EnsureRemainingCapacity outE
      ((pcm16 (s0 :: s1 :: s2 :: s3 :: T)).length / 2 % 4294967296)) (hdrE ++ (byte :: data)),
    { ctxD with adpcm := sdF },
    Stream_StoreFromBuffer outD ([] ++ (bytesINT16 s0 ++ bytesINT16 s1) ++ w ++ outD'),
    ?_, ?_, ?_, ?_⟩
  · rw [freerdp_dsp_encode_ms_adpcm_eq ctxE (pcm16 (s0 :: s1 :: s2 :: s3 :: T)) outE stF
      (hdrE ++ (byte :: data)) (by simp only [hBE, hchE, hstepE, hblock]),
      if_pos (by rw [hblen]; exact hroom)]
  · simp only [Stream_StoreFromBuffer, hblen]
  · rw [Stream_StoreFromBuffer_written]
    simp only [freerdp_dsp_decode_ms_adpcm, hBD, hchD, hblen, hstepD, bind, Option.bind, pure]
  · simp [Stream_StoreFromBuffer, pcm16_cons, pcm16, bytesINT16]

/-- The stereo block header of the MS encoder on a source that starts with two frames. -/
theorem ms_encode_header_stereo_eq (st : ADPCM) (a0 a1 a2 a3 : Int) (rest : List Nat)
    (h0 : -32768 ≤ a0 ∧ a0 ≤ 32767) (h1 : -32768 ≤ a1 ∧ a1 ≤ 32767)
    (h2 : -32768 ≤ a2 ∧ a2 ≤ 32767) (h3 : -32768 ≤ a3 ∧ a3 ≤ 32767) :
    ms_encode_header_stereo st
        (bytesINT16 a0 ++ (bytesINT16 a1 ++ (bytesINT16 a2 ++ (bytesINT16 a3 ++ rest)))) =
      some ({ st with ms := { st.ms with sample1 := (a2, a3), sample2 := (a0, a1) } },
        rest,
        [Arr2.get st.ms.predictor 0 % 256, Arr2.get st.ms.predictor 1 % 256] ++
          bytesINT16 (Arr2.get st.ms.delta 0) ++ bytesINT16 (Arr2.get st.ms.delta 1) ++
          bytesINT16 a2 ++ bytesINT16 a3 ++ bytesINT16 a0 ++ bytesINT16 a1) := by
  have r0 := readINT16_bytesINT16 a0
    (bytesINT16 a1 ++ (bytesINT16 a2 ++ (bytesINT16 a3 ++ rest))) h0.1 h0.2
  have r1 := readINT16_append_bytes (bytesINT16 a0) a1
    (bytesINT16 a2 ++ (bytesINT16 a3 ++ rest)) 2 rfl h1.1 h1.2
  have r2 : readINT16
      (bytesINT16 a0 ++ (bytesINT16 a1 ++ (bytesINT16 a2 ++ (bytesINT16 a3 ++ rest)))) 4 =
      some a2 := by
    have := readINT16_append_bytes (bytesINT16 a0 ++ bytesINT16 a1) a2
      (bytesINT16 a3 ++ rest) 4 rfl h2.1 h2.2
    simpa only [List.append_assoc] using this
  have r3 : readINT16
      (bytesINT16 a0 ++ (bytesINT16 a1 ++ (bytesINT16 a2 ++ (bytesINT16 a3 ++ rest)))) 6 =
      some a3 := by
    have := readINT16_append_bytes (bytesINT16 a0 ++ bytesINT16 a1 ++ bytesINT16 a2) a3
      rest 6 rfl h3.1 h3.2
    simpa only [List.append_assoc] using this
  have hd : List.drop 8
      (bytesINT16 a0 ++ (bytesINT16 a1 ++ (bytesINT16 a2 ++ (bytesINT16 a3 ++ rest)))) = rest := by
    simp [bytesINT16]
  simp only [ms_encode_header_stereo, r0, r1, r2, r3, hd, bind, Option.bind, pure,
    toINT16_of_range a0 h0.1 h0.2, toINT16_of_range a1 h1.1 h1.2,
    toINT16_of_range a2 h2.1 h2.2, toINT16_of_range a3 h3.1 h3.2]

/-- The stereo block header of the MS decoder on the bytes of an encoder header. -/
theorem ms_decode_header_stereo_eq (st : ADPCM) (p0 p1 : Nat) (d0 d1 a0 a1 a2 a3 : Int)
    (rest : List Nat)
    (h0 : -32768 ≤ a0 ∧ a0 ≤ 32767) (h1 : -32768 ≤ a1 ∧ a1 ≤ 32767)
    (h2 : -32768 ≤ a2 ∧ a2 ≤ 32767) (h3 : -32768 ≤ a3 ∧ a3 ≤ 32767) :
    ∃ d0' d1', ms_decode_header_stereo st
        ([p0, p1] ++ bytesINT16 d0 ++ bytesINT16 d1 ++ bytesINT16 a2 ++ bytesINT16 a3 ++
          bytesINT16 a0 ++ bytesINT16 a1 ++ rest) =
      some ({ st with ms :=
              { predictor := (p0, p1), delta := (d0', d1'), sample1 := (a2, a3),
                sample2 := (a0, a1) } },
        rest, bytesINT16 a0 ++ bytesINT16 a1 ++ bytesINT16 a2 ++ bytesINT16 a3) := by
  obtain ⟨tail, htail⟩ : ∃ t, t = bytesINT16 a2 ++ (bytesINT16 a3 ++ (bytesINT16 a0 ++
    (bytesINT16 a1 ++ rest))) := ⟨_, rfl⟩
  obtain ⟨d0', hd0, _, _⟩ := readINT16_some (toBYTE d0) (toBYTE (d0 >>> (8 : Nat)))
    (toBYTE d1 :: toBYTE (d1 >>> (8 : Nat)) :: tail)
  obtain ⟨d1', hd1, _, _⟩ := readINT16_some (toBYTE d1) (toBYTE (d1 >>> (8 : Nat))) tail
  have e : [p0, p1] ++ bytesINT16 d0 ++ bytesINT16 d1 ++ bytesINT16 a2 ++ bytesINT16 a3 ++
      bytesINT16 a0 ++ bytesINT16 a1 ++ rest =
      p0 :: p1 :: toBYTE d0 :: toBYTE (d0 >>> (8 : Nat)) :: toBYTE d1 ::
        toBYTE (d1 >>> (8 : Nat)) :: tail := by
    rw [htail]; simp [bytesINT16]
  have rd0 : readINT16 (p0 :: p1 :: toBYTE d0 :: toBYTE (d0 >>> (8 : Nat)) :: toBYTE d1 ::
      toBYTE (d1 >>> (8 : Nat)) :: tail) 2 = some d0' := by
    rw [readINT16_drop]; exact hd0
  have rd1 : readINT16 (p0 :: p1 :: toBYTE d0 :: toBYTE (d0 >>> (8 : Nat)) :: toBYTE d1 ::
      toBYTE (d1 >>> (8 : Nat)) :: tail) 4 = some d1' := by
    rw [readINT16_drop]; exact hd1
  have r2 : readINT16 (p0 :: p1 :: toBYTE d0 :: toBYTE (d0 >>> (8 : Nat)) :: toBYTE d1 ::
      toBYTE (d1 >>> (8 : Nat)) :: tail) 6 = some a2 := by
    rw [htail]
    exact readINT16_append_bytes [p0, p1, toBYTE d0, toBYTE (d0 >>> (8 : Nat)), toBYTE d1,
      toBYTE (d1 >>> (8 : Nat))] a2 _ 6 rfl h2.1 h2.2
  have r3 : readINT16 (p0 :: p1 :: toBYTE d0 :: toBYTE (d0 >>> (8 : Nat)) :: toBYTE d1 ::
      toBYTE (d1 >>> (8 : Nat)) :: tail) 8 = some a3 := by
    rw [htail]
    have := readINT16_append_bytes ([p0, p1, toBYTE d0, toBYTE (d0 >>> (8 : Nat)), toBYTE d1,
      toBYTE (d1 >>> (8 : Nat))] ++ bytesINT16 a2) a3 (bytesINT16 a0 ++ (bytesINT16 a1 ++ rest))
      8 rfl h3.1 h3.2
    simpa [bytesINT16] using this
  have r0 : readINT16 (p0 :: p1 :: toBYTE d0 :: toBYTE (d0 >>> (8 : Nat)) :: toBYTE d1 ::
      toBYTE (d1 >>> (8 : Nat)) :: tail) 10 = some a0 := by
    rw [htail]
    have := readINT16_append_bytes ([p0, p1, toBYTE d0, toBYTE (d0 >>> (8 : Nat)), toBYTE d1,
      toBYTE (d1 >>> (8 : Nat))] ++ bytesINT16 a2 ++ bytesINT16 a3) a0 (bytesINT16 a1 ++ rest)
      10 rfl h0.1 h0.2
    simpa [bytesINT16] using this
  have r1 : readINT16 (p0 :: p1 :: toBYTE d0 :: toBYTE (d0 >>> (8 : Nat)) :: toBYTE d1 ::
      toBYTE (d1 >>> (8 : Nat)) :: tail) 12 = some a1 := by
    rw [htail]
    have := readINT16_append_bytes ([p0, p1, toBYTE d0, toBYTE (d0 >>> (8 : Nat)), toBYTE d1,
      toBYTE (d1 >>> (8 : Nat))] ++ bytesINT16 a2 ++ bytesINT16 a3 ++ bytesINT16 a0) a1 rest
      12 rfl h1.1 h1.2
    simpa [bytesINT16] using this
  have hdrop : List.drop 14 (p0 :: p1 :: toBYTE d0 :: toBYTE (d0 >>> (8 : Nat)) :: toBYTE d1 ::
      toBYTE (d1 >>> (8 : Nat)) :: tail) = rest := by
    rw [htail]; simp [bytesINT16]
  refine ⟨d0', d1', ?_⟩
  rw [e]
  simp only [ms_decode_header_stereo, List.getElem?_cons_zero, List.getElem?_cons_succ, rd0,
    rd1, r2, r3, r0, r1, hdrop, bind, Option.bind, pure, toINT16_of_range a0 h0.1 h0.2,
    toINT16_of_range a1 h1.1 h1.2, toINT16_of_range a2 h2.1 h2.2,
    toINT16_of_range a3 h3.1 h3.2]

/-- A stereo MS-ADPCM block with an even number of data bytes, encoded into a stream whose
buffer holds the block once the encoder has reserved `size / 2` bytes behind the pointer:
the decoder returns the encoder's four header samples first. -/
theorem ms_header_roundtrip_stereo (B : Nat) (ctxE ctxD : FREERDP_DSP_CONTEXT) (S : List Int)
    (outE outD : wStream) (hS : ∀ s ∈ S, -32768 ≤ s ∧ s ≤ 32767)
    (hBE : ctxE.format.nBlockAlign = B) (hBD : ctxD.format.nBlockAlign = B)
    (hchE : ctxE.format.nChannels = 2) (hchD : ctxD.format.nChannels = 2)
    (hB : 16 ≤ B) (hBeven : (B - 14) % 2 = 0) (hlen : S.length = 4 + 2 * (B - 14))
    (hp0 : Arr2.get ctxE.adpcm.ms.predictor 0 ≤ 6)
    (hp1 : Arr2.get ctxE.adpcm.ms.predictor 1 ≤ 6)
    (hroom : B ≤ (Stream_EnsureRemainingCapacity outE
      ((pcm16 S).length / 2 % 4294967296)).buffer.length) :
    ∃ ctxE' encOut ctxD' decOut,
      freerdp_dsp_encode_ms_adpcm ctxE (pcm16 S) outE = some (true, ctxE', encOut) ∧
      encOut.pointer = B ∧
      freerdp_dsp_decode_ms_adpcm ctxD (encOut.buffer.take encOut.pointer) outD =
        some (true, ctxD', decOut) ∧
      decOut.buffer.take 8 = pcm16 (S.take 4) := by
  obtain ⟨a0, S1, rfl⟩ := List.exists_cons_of_length_pos (l := S) (by omega)
  obtain ⟨a1, S2, rfl⟩ := List.exists_cons_of_length_pos (l := S1)
    (by simp only [List.length_cons] at hlen; omega)
  obtain ⟨a2, S3, rfl⟩ := List.exists_cons_of_length_pos (l := S2)
    (by simp only [List.length_cons] at hlen; omega)
  obtain ⟨a3, S4, rfl⟩ := List.exists_cons_of_length_pos (l := S3)
    (by simp only [List.length_cons] at hlen; omega)
  obtain ⟨a4, S5, rfl⟩ := List.exists_cons_of_length_pos (l := S4)
    (by simp only [List.length_cons] at hlen; omega)
  obtain ⟨a5, T, rfl⟩ := List.exists_cons_of_length_pos (l := S5)
    (by simp only [List.length_cons] at hlen; omega)
  have h0 := hS a0 (by simp)
  have h1 := hS a1 (by simp)
  have h2 := hS a2 (by simp)
  have h3 := hS a3 (by simp)
  have h4 := hS a4 (by simp)
  have h5 := hS a5 (by simp)
  have hT : ∀ s ∈ T, -32768 ≤ s ∧ s ≤ 32767 := fun s hs => hS s (by simp [hs])
  have hTl : T.length = 2 * (B - 15) := by simp only [List.length_cons] at hlen; omega
  have hB0 : B ≠ 0 := by omega
  have hch : (2 : Nat) > 1 := by decide
  -- encoder: header and first data byte
  have ok0 := ms_encode_init_ok ctxE.adpcm 1 hp0 hp1
  have hhdrE := ms_encode_header_stereo_eq (ms_encode_init ctxE.adpcm) a0 a1 a2 a3
    (bytesINT16 a4 ++ (bytesINT16 a5 ++ pcm16 T)) h0 h1 h2 h3
  have okh : ms_encode_ok { ms_encode_init ctxE.adpcm with ms :=
      { (ms_encode_init ctxE.adpcm).ms with sample1 := (a2, a3), sample2 := (a0, a1) } } 1 :=
    ok0
  obtain ⟨e1, st1, he1, _, ok1⟩ := ms_encode_step_ok _ a4 0 1 (Or.inl rfl) okh
  obtain ⟨e2, st2, he2, _, ok2⟩ := ms_encode_step_ok st1 a5 1 1 (Or.inr rfl) ok1
  have hsrc : pcm16 (a0 :: a1 :: a2 :: a3 :: a4 :: a5 :: T) =
      bytesINT16 a0 ++ (bytesINT16 a1 ++ (bytesINT16 a2 ++ (bytesINT16 a3 ++
        (bytesINT16 a4 ++ (bytesINT16 a5 ++ pcm16 T))))) := by
    simp only [pcm16_cons]
  have hfuel : (pcm16 (a0 :: a1 :: a2 :: a3 :: a4 :: a5 :: T)).length =
      (2 * T.length + 11) + 1 := by
    rw [pcm16_length]; simp only [List.length_cons]; omega
  have hstepE := ms_encode_loop_step B 2 (2 * T.length + 11) hB0 (ms_encode_init ctxE.adpcm) _
    st1 st2 (pcm16 (a0 :: a1 :: a2 :: a3 :: a4 :: a5 :: T)) _ [] (pcm16 T) a4 a5 e1 e2
    (by rw [hfuel]; omega)
    (by
      rw [hsrc]
      simp only [List.length_nil, Nat.zero_mod, if_true, if_pos hch]
      exact hhdrE)
    h4 h5 he1 (by simpa only [if_pos hch] using he2)
  -- the block
  obtain ⟨hdrE, hE⟩ : ∃ h, h =
    [Arr2.get (ms_encode_init ctxE.adpcm).ms.predictor 0 % 256,
      Arr2.get (ms_encode_init ctxE.adpcm).ms.predictor 1 % 256] ++
    bytesINT16 (Arr2.get (ms_encode_init ctxE.adpcm).ms.delta 0) ++
    bytesINT16 (Arr2.get (ms_encode_init ctxE.adpcm).ms.delta 1) ++
    bytesINT16 a2 ++ bytesINT16 a3 ++ bytesINT16 a0 ++ bytesINT16 a1 := ⟨_, rfl⟩
  have hEl : hdrE.length = 14 := by rw [hE]; rfl
  obtain ⟨byte, hbyte⟩ : ∃ b, b = ((e1 <<< 4) % 256 + e2) % 256 := ⟨_, rfl⟩
  have hbytelt : byte < 256 := by rw [hbyte]; exact Nat.mod_lt _ (by decide)
  rw [← hE, ← hbyte] at hstepE
  obtain ⟨stF, data, hloopE, hdl, hdb⟩ := ms_encode_data_loop B 2 1 (by simp) (B - 15) st2 T
    ([] ++ hdrE ++ [byte]) (2 * T.length + 11) hTl hT ok2 (by omega)
    (by simp only [List.length_append, List.length_cons, List.length_nil, hEl]; omega)
    (by simp)
  rw [← hfuel, hloopE] at hstepE
  have hblock : ([] : List Nat) ++ hdrE ++ [byte] ++ data = hdrE ++ (byte :: data) := by simp
  have hblen : (hdrE ++ (byte :: data)).length = B := by
    simp only [List.length_append, List.length_cons, hEl, hdl]
    omega
  obtain ⟨b2, data', rfl⟩ := List.exists_cons_of_length_pos (l := data) (by omega)
  have hb2 : b2 < 256 := hdb b2 (by simp)
  have hdb' : ∀ b ∈ data', b < 256 := fun b hb => hdb b (by simp [hb])
  -- decoder: header and first two data bytes
  obtain ⟨d0', d1', hhdrD⟩ := ms_decode_header_stereo_eq ctxD.adpcm
    (Arr2.get (ms_encode_init ctxE.adpcm).ms.predictor 0 % 256)
    (Arr2.get (ms_encode_init ctxE.adpcm).ms.predictor 1 % 256)
    (Arr2.get (ms_encode_init ctxE.adpcm).ms.delta 0)
    (Arr2.get (ms_encode_init ctxE.adpcm).ms.delta 1) a0 a1 a2 a3 (byte :: b2 :: data')
    h0 h1 h2 h3
  rw [← hE, ← ms_decode_header_boundary_stereo B 2 _ _ hB0 (by rw [hblen, Nat.mod_self]) hch]
    at hhdrD
  have okD : ms_decode_ok { ctxD.adpcm with ms :=
      { predictor := (Arr2.get (ms_encode_init ctxE.adpcm).ms.predictor 0 % 256,
          Arr2.get (ms_encode_init ctxE.adpcm).ms.predictor 1 % 256)
        delta := (d0', d1'), sample1 := (a2, a3), sample2 := (a0, a1) } } 1 :=
    ⟨Nat.le_trans (Nat.mod_le _ _) ok0.1, Nat.le_trans (Nat.mod_le _ _) ok0.2.1⟩
  obtain ⟨sd1, w1, hbD1, okD1⟩ := ms_decode_byte_ok _ byte (b2 :: data') 0 1 1 (Or.inl rfl)
    (Or.inr rfl) hbytelt okD
  obtain ⟨sd2, w2, hbD2, okD2⟩ := ms_decode_byte_ok sd1 b2 data' 0 1 1 (Or.inl rfl)
    (Or.inr rfl) hb2 okD1
  obtain ⟨sdF, outD', hloopD⟩ := ms_decode_data_loop_stereo B 2 hch ((B - 16) / 2) data' sd2
    ([] ++ (bytesINT16 a0 ++ bytesINT16 a1 ++ bytesINT16 a2 ++ bytesINT16 a3) ++ w1 ++ w2)
    (B - 1) (by simp only [List.length_cons] at hdl; omega) hdb' okD2 (by omega)
    (by simp only [List.length_cons] at hdl; omega)
  have hstepD := ms_decode_loop_step_stereo B 2 (B - 1) hch ctxD.adpcm _ sd1 sd2
    (hdrE ++ (byte :: b2 :: data')) (byte :: b2 :: data') (b2 :: data') data' _ [] w1 w2
    (by rw [hblen]; omega) hhdrD hbD1 hbD2
  rw [hloopD] at hstepD
  have hB1 : B - 1 + 1 = B := by omega
  rw [hB1] at hstepD
  refine ⟨{ ctxE with adpcm := stF },
    Stream_StoreFromBuffer (Stream_EnsureRemainingCapacity outE
      ((pcm16 (a0 :: a1 :: a2 :: a3 :: a4 :: a5 :: T)).length / 2 % 4294967296))
      (hdrE ++ (byte :: b2 :: data')),
    { ctxD with adpcm := sdF },
    Stream_StoreFromBuffer outD
      ([] ++ (bytesINT16 a0 ++ bytesINT16 a1 ++ bytesINT16 a2 ++ bytesINT16 a3) ++ w1 ++ w2 ++
        outD'),
    ?_, ?_, ?_, ?_⟩
  · rw [freerdp_dsp_encode_ms_adpcm_eq ctxE (pcm16 (a0 :: a1 :: a2 :: a3 :: a4 :: a5 :: T))
      outE stF (hdrE ++ (byte :: b2 :: data')) (by simp only [hBE, hchE, hstepE, hblock]),
      if_pos (by rw [hblen]; exact hroom)]
  · simp only [Stream_StoreFromBuffer, hblen]
  · rw [Stream_StoreFromBuffer_written]
    simp only [freerdp_dsp_decode_ms_adpcm, hBD, hchD, hblen, hstepD, bind, Option.bind, pure]
  · simp [Stream_StoreFromBuffer, pcm16_cons, pcm16, bytesINT16]

/-- C20 (the code at the failing input). A stereo block with `block_align = 15` holds the
14-byte header and one data byte.  From a freshly created encoder context the encoder
emits it for three stereo frames, into a stream with 16 bytes allocated.  The header parse
of the decoder on the emitted block stores the first two frames and leaves the one data
byte; the stereo branch of the decoder loop then decodes two data bytes in every round:
the first one decodes, the second one is read outside the block, so the decode of the
emitted block is undefined. -/
theorem ms_stereo_odd_block_overread :
    ∃ ctxE' encOut,
      freerdp_dsp_encode_ms_adpcm
          { freerdp_dsp_context_new true with format := ms_stereo_format15 }
          (pcm16 [100, -100, 200, -200, 300, -300])
          { buffer := [0, 0, 0, 0, 0, 0, 0, 0, 0, 0, 0, 0, 0, 0, 0, 0], pointer := 0 } =
        some (true, ctxE', encOut) ∧
      encOut.pointer = 15 ∧
      (ms_decode_header 15 2 ADPCM.zero (encOut.buffer.take encOut.pointer)).map
        (fun r => (r.2.1.length, r.2.2)) = some (1, pcm16 [100, -100, 200, -200]) ∧
      ((ms_decode_header 15 2 ADPCM.zero (encOut.buffer.take encOut.pointer)).bind
        fun r => (ms_decode_byte r.1 r.2.1 0 1).map fun q => q.2.1) = some [] ∧
      ((ms_decode_header 15 2 ADPCM.zero (encOut.buffer.take encOut.pointer)).bind
        fun r => (ms_decode_byte r.1 r.2.1 0 1).bind fun q => ms_decode_byte q.1 q.2.1 0 1) =
        none ∧
      freerdp_dsp_decode_ms_adpcm
          { freerdp_dsp_context_new false with format := ms_stereo_format15 }
          (encOut.buffer.take encOut.pointer) { buffer := [], pointer := 0 } = none :=
  ⟨_, _, rfl, by decide, by decide, by decide, by decide, by decide⟩

/-! ## Resampler -/

theorem resample_n1_range (srate rrate sframes : Nat) (i : Int) (h1 : 1 ≤ sframes)
    (h2 : sframes < 2147483648) :
    0 ≤ resample_n1 srate rrate sframes i ∧
      resample_n1 srate rrate sframes i ≤ (sframes : Int) - 1 := by
  simp only [resample_n1]
  generalize toUINT32 (i * ↑srate) / (rrate : Int) = q
  unfold toINT32 toSIZE
  split_ifs <;> omega

theorem resample_n2_range (srate rrate sframes : Nat) (i : Int) (h1 : 1 ≤ sframes)
    (h2 : sframes < 2147483648) :
    0 ≤ resample_n2 srate rrate sframes i ∧
      resample_n2 srate rrate sframes i ≤ (sframes : Int) - 1 := by
  obtain ⟨a, b⟩ := resample_n1_range srate rrate sframes i h1 h2
  simp only [resample_n2]
  generalize resample_n1 srate rrate sframes i = n1 at a b ⊢
  split
  · exact ⟨a, b⟩
  · rename_i h
    have h' : ¬ toSIZE n1 = toSIZE ((sframes : Int) - 1) := fun e => h (Or.inr e)
    unfold toSIZE at h'
    unfold toINT32
    omega

/-- A source frame index in range gives a byte index inside the source. -/
theorem resample_offset_range (sframes : Nat) (sbytes n j : Int) (hs : 0 < sbytes)
    (hlim : (sframes : Int) * sbytes < 2147483648) (hn0 : 0 ≤ n) (hn1 : n ≤ (sframes : Int) - 1)
    (hj : 0 ≤ j) :
    toINT32 (toINT32 (n * sbytes) + Int.tmod j sbytes) = n * sbytes + j % sbytes ∧
    0 ≤ n * sbytes + j % sbytes ∧ n * sbytes + j % sbytes < (sframes : Int) * sbytes := by
  have hm : Int.tmod j sbytes = j % sbytes := Int.tmod_eq_emod hj (by omega)
  have hmr : 0 ≤ j % sbytes ∧ j % sbytes < sbytes :=
    ⟨Int.emod_nonneg _ (by omega), Int.emod_lt_of_pos _ hs⟩
  have hp : 0 ≤ n * sbytes := Int.mul_nonneg hn0 (by omega)
  have hq : n * sbytes ≤ ((sframes : Int) - 1) * sbytes :=
    Int.mul_le_mul_of_nonneg_right hn1 (by omega)
  have he : ((sframes : Int) - 1) * sbytes = (sframes : Int) * sbytes - sbytes := by ring
  rw [hm, toINT32_of_range (n * sbytes) (by omega) (by omega),
    toINT32_of_range _ (by omega) (by omega)]
  omega

theorem resample_index_range (srate rrate sframes : Nat) (sbytes i j : Int) (h1 : 1 ≤ sframes)
    (hs : 0 < sbytes) (hlim : (sframes : Int) * sbytes < 2147483648) (hj : 0 ≤ j) :
    0 ≤ resample_index srate rrate sframes sbytes i j ∧
      resample_index srate rrate sframes sbytes i j < (sframes : Int) * sbytes := by
  have h2 : sframes < 2147483648 := by
    have : (sframes : Int) * 1 ≤ (sframes : Int) * sbytes :=
      Int.mul_le_mul_of_nonneg_left (by omega) (by omega)
    omega
  obtain ⟨a1, b1⟩ := resample_n1_range srate rrate sframes i h1 h2
  obtain ⟨a2, b2⟩ := resample_n2_range srate rrate sframes i h1 h2
  simp only [resample_index]
  split
  · obtain ⟨e, r0, r1⟩ := resample_offset_range sframes sbytes _ j hs hlim a2 b2 hj
    rw [e]; exact ⟨r0, r1⟩
  · obtain ⟨e, r0, r1⟩ := resample_offset_range sframes sbytes _ j hs hlim a1 b1 hj
    rw [e]; exact ⟨r0, r1⟩

/-- Every byte read of the resampler succeeds on a source that holds `sframes` frames. -/
theorem resample_byte_some (src : List Nat) (srate rrate sframes : Nat) (sbytes i j : Int)
    (hr : 0 < rrate) (h1 : 1 ≤ sframes) (hs : 0 < sbytes)
    (hlim : (sframes : Int) * sbytes < 2147483648)
    (hsrc : (sframes : Int) * sbytes ≤ src.length) (hj : 0 ≤ j) :
    ∃ b, resample_byte src srate rrate sframes sbytes i j = some b := by
  obtain ⟨r0, r1⟩ := resample_index_range srate rrate sframes sbytes i j h1 hs hlim hj
  have hlt : (resample_index srate rrate sframes sbytes i j).toNat < src.length := by omega
  refine ⟨src[(resample_index srate rrate sframes sbytes i j).toNat], ?_⟩
  simp only [resample_byte]
  rw [if_neg (by omega), if_pos r0, List.getElem?_eq_getElem hlt]

theorem resample_lanes_some (src : List Nat) (srate rrate sframes : Nat) (sbytes i : Int)
    (hr : 0 < rrate) (h1 : 1 ≤ sframes) (hs : 0 < sbytes)
    (hlim : (sframes : Int) * sbytes < 2147483648)
    (hsrc : (sframes : Int) * sbytes ≤ src.length) :
    ∀ (n : Nat) (j : Int), 0 ≤ j →
      ∃ l, resample_lanes src srate rrate sframes sbytes i n j = some l ∧ l.length = n := by
  intro n
  induction n with
  | zero => intro j _; exact ⟨[], rfl, rfl⟩
  | succ n ih =>
    intro j hj
    obtain ⟨b, hb⟩ := resample_byte_some src srate rrate sframes sbytes i j hr h1 hs hlim hsrc hj
    obtain ⟨l, hl, hlen⟩ := ih (j + 1) (by omega)
    exact ⟨b :: l, by simp only [resample_lanes, hb, hl, bind, Option.bind, pure],
      by simp [hlen]⟩

/-- The frame loop: when every frame is defined and has `rb` bytes, the loop stores the
frames one after the other. -/
theorem resample_frames_chunks (src : List Nat) (srate rrate sframes : Nat)
    (sbytes rbytes : Int) (F : Int → List Nat)
    (hF : ∀ i : Int, 0 ≤ i →
      resample_lanes src srate rrate sframes sbytes i rbytes.toNat 0 = some (F i) ∧
      (F i).length = rbytes.toNat) :
    ∀ (n : Nat) (i : Int), 0 ≤ i →
      ∃ W, resample_frames src srate rrate sframes sbytes rbytes n i = some W ∧
        W.length = n * rbytes.toNat ∧
        ∀ k : Nat, k < n → (W.drop (k * rbytes.toNat)).take rbytes.toNat = F (i + k) := by
  intro n
  induction n with
  | zero => intro i _; exact ⟨[], rfl, by simp, fun k hk => absurd hk (by omega)⟩
  | succ n ih =>
    intro i hi
    obtain ⟨hl, hlen⟩ := hF i hi
    obtain ⟨W, hW, hWlen, hWk⟩ := ih (i + 1) (by omega)
    refine ⟨F i ++ W, by simp only [resample_frames, hl, hW, bind, Option.bind, pure], ?_, ?_⟩
    · rw [List.length_append, hlen, hWlen, Nat.succ_mul]; omega
    · intro k hk
      cases k with
      | zero =>
        simp only [Nat.zero_mul, List.drop_zero, Nat.cast_zero, Int.add_zero]
        rw [← hlen, List.take_left]
      | succ k =>
        have e : (k + 1) * rbytes.toNat = (F i).length + k * rbytes.toNat := by
          rw [hlen, Nat.succ_mul]; omega
        rw [e, List.drop_append, hWk k (by omega)]
        congr 1
        push_cast
        omega

theorem toINT32_toSIZE_natCast (x : Nat) (h : x < 2147483648) :
    toINT32 (toSIZE (x : Int)) = (x : Int) := by
  unfold toINT32 toSIZE; omega

/-- The frame loop of the resampler runs to completion on a source that holds `sframes`
frames (or when no frame is requested) and stores `n * rbytes` bytes, frame after
frame. -/
theorem resample_frames_some (src : List Nat) (srate rrate sframes : Nat) (sbytes rbytes : Int)
    (n : Nat) (hr : 0 < rrate) (h1 : 1 ≤ sframes ∨ n = 0) (hs : 0 < sbytes)
    (hlim : (sframes : Int) * sbytes < 2147483648)
    (hsrc : (sframes : Int) * sbytes ≤ src.length) :
    ∃ W, resample_frames src srate rrate sframes sbytes rbytes n 0 = some W ∧
      W.length = n * rbytes.toNat ∧
      ∀ k : Nat, k < n →
        resample_lanes src srate rrate sframes sbytes k rbytes.toNat 0 =
          some ((W.drop (k * rbytes.toNat)).take rbytes.toNat) := by
  rcases h1 with h1 | h0
  · have hF : ∀ i : Int, 0 ≤ i →
        resample_lanes src srate rrate sframes sbytes i rbytes.toNat 0 =
          some ((resample_lanes src srate rrate sframes sbytes i rbytes.toNat 0).getD []) ∧
        ((resample_lanes src srate rrate sframes sbytes i rbytes.toNat 0).getD []).length =
          rbytes.toNat := by
      intro i _
      obtain ⟨l, hl, hlen⟩ := resample_lanes_some src srate rrate sframes sbytes i hr h1 hs hlim
        hsrc rbytes.toNat 0 (by omega)
      rw [hl]; exact ⟨rfl, hlen⟩
    obtain ⟨W, hW, hlen, hk⟩ := resample_frames_chunks src srate rrate sframes sbytes rbytes
      (fun i => (resample_lanes src srate rrate sframes sbytes i rbytes.toNat 0).getD []) hF n 0
      (by omega)
    refine ⟨W, hW, hlen, fun k hkn => ?_⟩
    rw [hk k hkn, Int.zero_add]
    exact (hF k (by omega)).1
  · subst h0
    exact ⟨[], rfl, by simp, fun k hk => absurd hk (by omega)⟩

/-- With a resample stream in place and a source that holds `sframes` frames,
`freerdp_dsp_resample` succeeds: it stores `floor(sframes * rrate / srate)` frames of
`bytes_per_sample * rchan` bytes, frame `k` being the lanes computed for `k`. -/
theorem resample_stores_frames (ctx : FREERDP_DSP_CONTEXT) (stream : wStream) (src : List Nat)
    (bytes_per_sample schan srate sframes rchan rrate : Nat)
    (hres : ctx.resample = some stream)
    (hsr : 0 < srate) (hrr : 0 < rrate) (hb : 0 < bytes_per_sample) (hsc : 0 < schan)
    (ho1 : bytes_per_sample * schan < 2147483648)
    (ho2 : bytes_per_sample * rchan < 2147483648)
    (ho3 : sframes * rrate < 2147483648)
    (ho4 : sframes * (bytes_per_sample * schan) < 2147483648)
    (hsrc : sframes * (bytes_per_sample * schan) ≤ src.length) :
    ∃ W,
      freerdp_dsp_resample ctx src bytes_per_sample schan srate sframes rchan rrate =
        some (true, { ctx with resample := some (Stream_StoreFromBuffer stream W) }) ∧
      W.length = sframes * rrate / srate * (bytes_per_sample * rchan) ∧
      ∀ k : Nat, k < sframes * rrate / srate →
        resample_lanes src srate rrate sframes ((bytes_per_sample * schan : Nat) : Int) k
            (bytes_per_sample * rchan) 0 =
          some ((W.drop (k * (bytes_per_sample * rchan))).take (bytes_per_sample * rchan)) := by
  have hsb : toINT32 (toSIZE ((bytes_per_sample : Int) * schan)) =
      ((bytes_per_sample * schan : Nat) : Int) := by
    rw [← Nat.cast_mul]; exact toINT32_toSIZE_natCast _ ho1
  have hrb : toINT32 (toSIZE ((bytes_per_sample : Int) * rchan)) =
      ((bytes_per_sample * rchan : Nat) : Int) := by
    rw [← Nat.cast_mul]; exact toINT32_toSIZE_natCast _ ho2
  have hdiv : sframes * rrate / srate < 2147483648 :=
    Nat.lt_of_le_of_lt (Nat.div_le_self _ _) ho3
  have hrf : toINT32 (toSIZE ((sframes : Int) * rrate) / srate) =
      ((sframes * rrate / srate : Nat) : Int) := by
    have e : toSIZE ((sframes : Int) * rrate) = ((sframes * rrate : Nat) : Int) := by
      rw [← Nat.cast_mul]; unfold toSIZE; omega
    rw [e, ← Int.natCast_div]
    obtain ⟨q, hq⟩ : ∃ q : Nat, q = sframes * rrate / srate := ⟨_, rfl⟩
    rw [← hq] at hdiv ⊢
    exact toINT32_of_range (q : Int) (by omega) (by omega)
  have hpos : 0 < bytes_per_sample * schan := Nat.mul_pos hb hsc
  have h1 : 1 ≤ sframes ∨ sframes * rrate / srate = 0 := by
    rcases Nat.eq_zero_or_pos sframes with h | h
    · right; subst h; simp
    · left; exact h
  obtain ⟨W, hW, hlen, hk⟩ := resample_frames_some src srate rrate sframes
    ((bytes_per_sample * schan : Nat) : Int) ((bytes_per_sample * rchan : Nat) : Int)
    (sframes * rrate / srate) hrr h1 (by exact_mod_cast hpos) (by exact_mod_cast ho4)
    (by exact_mod_cast hsrc)
  rw [Int.toNat_ofNat] at hlen hk
  refine ⟨W, ?_, hlen, hk⟩
  unfold freerdp_dsp_resample
  simp only [hsb, hrb]
  rw [if_neg (Nat.ne_of_gt hsr)]
  simp only [hrf, hres, Int.toNat_ofNat, hW]
  rfl

/-- C15. Resampler frame count: for positive rates, sample size and source channel count,
with products that fit 31 bits, a context whose resample stream exists and a source that
holds `sframes` frames, `freerdp_dsp_resample` succeeds and stores exactly
`floor(sframes * rrate / srate)` output frames, that is
`floor(sframes * rrate / srate) * bytes_per_sample * rchan` bytes, into the resample
stream. -/
theorem resample_frame_count (ctx : FREERDP_DSP_CONTEXT) (stream : wStream) (src : List Nat)
    (bytes_per_sample schan srate sframes rchan rrate : Nat)
    (hres : ctx.resample = some stream)
    (hsr : 0 < srate) (hrr : 0 < rrate) (hb : 0 < bytes_per_sample) (hsc : 0 < schan)
    (ho1 : bytes_per_sample * schan < 2147483648)
    (ho2 : bytes_per_sample * rchan < 2147483648)
    (ho3 : sframes * rrate < 2147483648)
    (ho4 : sframes * (bytes_per_sample * schan) < 2147483648)
    (hsrc : sframes * (bytes_per_sample * schan) ≤ src.length) :
    ∃ ctx' stream',
      freerdp_dsp_resample ctx src bytes_per_sample schan srate sframes rchan rrate =
        some (true, ctx') ∧
      ctx'.resample = some stream' ∧
      stream'.pointer = sframes * rrate / srate * bytes_per_sample * rchan := by
  obtain ⟨W, hW, hlen, _⟩ := resample_stores_frames ctx stream src bytes_per_sample schan srate
    sframes rchan rrate hres hsr hrr hb hsc ho1 ho2 ho3 ho4 hsrc
  refine ⟨{ ctx with resample := some (Stream_StoreFromBuffer stream W) },
    Stream_StoreFromBuffer stream W, hW, rfl, ?_⟩
  simp only [Stream_StoreFromBuffer, hlen, Nat.mul_assoc]

theorem resample_frame_count_witness :
    ∃ ctx' stream',
      freerdp_dsp_resample resample_context [1, 2, 3, 4, 5, 6, 7, 8, 9, 10, 11, 12] 2 2 3 3 1 7
        = some (true, ctx') ∧
      ctx'.resample = some stream' ∧
      stream'.pointer = 3 * 7 / 3 * 2 * 1 :=
  resample_frame_count resample_context { buffer := [], pointer := 0 }
    [1, 2, 3, 4, 5, 6, 7, 8, 9, 10, 11, 12] 2 2 3 3 1 7 rfl (by decide) (by decide) (by decide)
    (by decide) (by decide) (by decide) (by decide) (by decide) (by decide)

theorem toUINT32_of_range (x : Int) (h0 : 0 ≤ x) (h1 : x < 4294967296) : toUINT32 x = x := by
  unfold toUINT32; omega

theorem toSIZE_of_range (x : Int) (h0 : 0 ≤ x) (h1 : x < 18446744073709551616) :
    toSIZE x = x := by
  unfold toSIZE; omega

theorem upsample2_n1 (sframes : Nat) (i : Int) (hi0 : 0 ≤ i) (hi1 : i < 2 * (sframes : Int))
    (hlim : sframes * 16000 < 2147483648) :
    resample_n1 8000 16000 sframes i = i / 2 := by
  have ha : toUINT32 (i * 8000) = i * 8000 := toUINT32_of_range _ (by omega) (by omega)
  have hb : i * 8000 / 16000 = i / 2 := by omega
  have hc : toINT32 (i / 2) = i / 2 := toINT32_of_range _ (by omega) (by omega)
  have hd : toSIZE (i / 2) = i / 2 := toSIZE_of_range _ (by omega) (by omega)
  simp only [resample_n1, Nat.cast_ofNat, ha, hb, hc, hd]
  rw [if_neg (by omega)]

/-- From 8000 Hz to 16000 Hz every lane of output frame `i` is read from source frame
`i / 2`. -/
theorem upsample2_index (sframes : Nat) (sbytes i j : Int) (hi0 : 0 ≤ i)
    (hi1 : i < 2 * (sframes : Int)) (hlim : sframes * 16000 < 2147483648) :
    resample_index 8000 16000 sframes sbytes i j =
      toINT32 (toINT32 (i / 2 * sbytes) + Int.tmod j sbytes) := by
  have hn1 := upsample2_n1 sframes i hi0 hi1 hlim
  have ha : toUINT32 (i * 8000) = i * 8000 := toUINT32_of_range _ (by omega) (by omega)
  have hb : toUINT32 (i / 2 * 16000) = i / 2 * 16000 :=
    toUINT32_of_range _ (by omega) (by omega)
  have hd : toSIZE (i / 2) = i / 2 := toSIZE_of_range _ (by omega) (by omega)
  have he : toSIZE ((sframes : Int) - 1) = (sframes : Int) - 1 :=
    toSIZE_of_range _ (by omega) (by omega)
  have hf : toINT32 (i / 2 + 1) = i / 2 + 1 := toINT32_of_range _ (by omega) (by omega)
  have hg : toUINT32 ((i / 2 + 1) * 16000) = (i / 2 + 1) * 16000 :=
    toUINT32_of_range _ (by omega) (by omega)
  simp only [resample_index, resample_n2, hn1, Nat.cast_ofNat, ha, hb, hd, he, hf]
  by_cases hc : i / 2 * 16000 = i * 8000 ∨ i / 2 = (sframes : Int) - 1
  · rw [if_pos hc, hb, if_neg]
    rw [toUINT32_of_range (i * 8000 - i / 2 * 16000) (by omega) (by omega)]
    have hx : i / 2 * 16000 - i * 8000 = 0 ∨ i / 2 * 16000 - i * 8000 = -8000 := by omega
    rcases hx with hx | hx
    · have k : toUINT32 (i / 2 * 16000 - i * 8000) = 0 := by rw [hx]; rfl
      rw [k]; omega
    · have k : toUINT32 (i / 2 * 16000 - i * 8000) = 4294959296 := by rw [hx]; rfl
      rw [k]; omega
  · rw [if_neg hc, hg, if_neg]
    rw [toUINT32_of_range (i * 8000 - i / 2 * 16000) (by omega) (by omega),
      toUINT32_of_range ((i / 2 + 1) * 16000 - i * 8000) (by omega) (by omega)]
    omega

theorem upsample2_byte (src : List Nat) (sframes bps : Nat) (i j : Nat) (hb : 0 < bps)
    (hi : i < 2 * sframes) (hj : j < bps) (hlim : sframes * 16000 < 2147483648)
    (hlim2 : sframes * bps < 2147483648) :
    resample_byte src 8000 16000 sframes (bps : Int) (i : Int) (j : Int) =
      src[i / 2 * bps + j]? := by
  have h1 : 1 ≤ sframes := by omega
  have hidx := upsample2_index sframes (bps : Int) (i : Int) (j : Int) (by omega) (by omega) hlim
  obtain ⟨e, _, _⟩ := resample_offset_range sframes (bps : Int) ((i : Int) / 2) (j : Int)
    (by omega) (by exact_mod_cast hlim2) (by omega) (by omega) (by omega)
  have hjm : (j : Int) % (bps : Int) = j := Int.emod_eq_of_lt (by omega) (by omega)
  have hcast : (i : Int) / 2 * (bps : Int) + (j : Int) = ((i / 2 * bps + j : Nat) : Int) := by
    push_cast; rfl
  simp only [resample_byte]
  rw [if_neg (by omega), hidx, e, hjm, hcast, if_pos (by omega), Int.toNat_ofNat]

/-- From 8000 Hz to 16000 Hz, mono: the lanes of output frame `i` are source frame
`i / 2`. -/
theorem upsample2_lanes (src : List Nat) (sframes bps : Nat) (i : Nat) (hb : 0 < bps)
    (hi : i < 2 * sframes) (hlim : sframes * 16000 < 2147483648)
    (hlim2 : sframes * bps < 2147483648) (hsrc : sframes * bps ≤ src.length) :
    ∀ (n j : Nat), j + n = bps →
      resample_lanes src 8000 16000 sframes (bps : Int) (i : Int) n (j : Int) =
        some ((src.drop (i / 2 * bps + j)).take n) := by
  have hfr : i / 2 * bps + bps ≤ sframes * bps := by
    have h : i / 2 + 1 ≤ sframes := by omega
    calc i / 2 * bps + bps = (i / 2 + 1) * bps := by ring
      _ ≤ sframes * bps := Nat.mul_le_mul_right _ h
  intro n
  induction n with
  | zero => intro j _; simp [resample_lanes]
  | succ n ih =>
    intro j hjn
    have hlt : i / 2 * bps + j < src.length := by omega
    have hb' := upsample2_byte src sframes bps i j hb hi (by omega) hlim hlim2
    have ih' := ih (j + 1) (by omega)
    rw [Nat.cast_add, Nat.cast_one] at ih'
    simp only [resample_lanes, hb', ih', bind, Option.bind, pure,
      List.getElem?_eq_getElem hlt]
    rw [List.drop_eq_getElem_cons hlt, List.take_succ_cons]
    rfl

/-- C16. Doubling the rate doubles every sample: for a mono source of `sframes ≥ 1`
frames of `bytes_per_sample` bytes (products fit 31 bits, resample stream in place),
`freerdp_dsp_resample` from 8000 Hz to 16000 Hz, mono to mono, succeeds, stores
`2 * sframes` frames, and output frame `i` equals source frame `i / 2`. -/
theorem resample_upsample_2x (ctx : FREERDP_DSP_CONTEXT) (stream : wStream) (src : List Nat)
    (bytes_per_sample sframes : Nat)
    (hres : ctx.resample = some stream) (hb : 0 < bytes_per_sample) (hs : 1 ≤ sframes)
    (ho1 : sframes * 16000 < 2147483648)
    (ho2 : sframes * bytes_per_sample < 2147483648)
    (hsrc : sframes * bytes_per_sample ≤ src.length) :
    ∃ ctx' stream',
      freerdp_dsp_resample ctx src bytes_per_sample 1 8000 sframes 1 16000 =
        some (true, ctx') ∧
      ctx'.resample = some stream' ∧
      stream'.pointer = 2 * sframes * bytes_per_sample ∧
      ∀ i : Nat, i < 2 * sframes →
        ((stream'.buffer.take stream'.pointer).drop (i * bytes_per_sample)).take
            bytes_per_sample =
          (src.drop (i / 2 * bytes_per_sample)).take bytes_per_sample := by
  have hbl : bytes_per_sample < 2147483648 :=
    Nat.lt_of_le_of_lt (Nat.le_mul_of_pos_left _ hs) ho2
  have hfr : sframes * 16000 / 8000 = 2 * sframes := by omega
  obtain ⟨W, hW, hlen, hk⟩ := resample_stores_frames ctx stream src bytes_per_sample 1 8000
    sframes 1 16000 hres (by decide) (by decide) hb (by decide) (by omega) (by omega) ho1
    (by rw [Nat.mul_one]; exact ho2) (by rw [Nat.mul_one]; exact hsrc)
  rw [hfr, Nat.mul_one] at hlen hk
  refine ⟨{ ctx with resample := some (Stream_StoreFromBuffer stream W) },
    Stream_StoreFromBuffer stream W, hW, rfl, ?_, ?_⟩
  · simp only [Stream_StoreFromBuffer, hlen]
  · intro i hi
    have h1 := hk i hi
    have h2 := upsample2_lanes src sframes bytes_per_sample i hb hi ho1 ho2 hsrc
      bytes_per_sample 0 (by omega)
    rw [Nat.cast_zero, Nat.add_zero] at h2
    rw [h2] at h1
    have h3 : (Stream_StoreFromBuffer stream W).buffer.take
        (Stream_StoreFromBuffer stream W).pointer = W := by
      simp only [Stream_StoreFromBuffer, List.take_left']
    rw [h3]
    exact (Option.some.inj h1).symm

theorem resample_upsample_2x_witness :
    ∃ ctx' stream',
      freerdp_dsp_resample resample_context [1, 2, 3, 4, 5, 6, 7, 8] 2 1 8000 4 1 16000 =
        some (true, ctx') ∧
      ctx'.resample = some stream' ∧
      stream'.pointer = 2 * 4 * 2 ∧
      ∀ i : Nat, i < 2 * 4 →
        ((stream'.buffer.take stream'.pointer).drop (i * 2)).take 2 =
          (([1, 2, 3, 4, 5, 6, 7, 8] : List Nat).drop (i / 2 * 2)).take 2 :=
  resample_upsample_2x resample_context { buffer := [], pointer := 0 }
    [1, 2, 3, 4, 5, 6, 7, 8] 2 4 rfl (by decide) (by decide) (by decide) (by decide)
    (by decide)

/-! ## Direction of a context -/

/-- A block codec returns the context with nothing but the codec state replaced. -/
theorem codec_keeps_mode {α : Type} (loop : Option (α × List Nat))
    (ctx : FREERDP_DSP_CONTEXT) (adpcmOf : α → ADPCM) (out : wStream)
    (r : Bool × FREERDP_DSP_CONTEXT × wStream)
    (h : (loop.bind fun p =>
      some (true, { ctx with adpcm := adpcmOf p.1 }, Stream_StoreFromBuffer out p.2)) = some r) :
    r.2.1.encoder = ctx.encoder := by
  cases loop with
  | none => simp at h
  | some p =>
    simp only [Option.bind] at h
    injection h with h
    rw [← h]

theorem freerdp_dsp_encode_ms_adpcm_keeps_mode (ctx : FREERDP_DSP_CONTEXT) (data : List Nat)
    (o : wStream) (q : Bool × FREERDP_DSP_CONTEXT × wStream)
    (hq : freerdp_dsp_encode_ms_adpcm ctx data o = some q) : q.2.1.encoder = ctx.encoder := by
  cases hl : ms_encode_loop ctx.format.nBlockAlign ctx.format.nChannels data.length
      (ms_encode_init ctx.adpcm) data [] with
  | none =>
    simp only [freerdp_dsp_encode_ms_adpcm, hl, bind, Option.bind] at hq
    exact absurd hq (by simp)
  | some p =>
    obtain ⟨st, dst⟩ := p
    rw [freerdp_dsp_encode_ms_adpcm_eq ctx data o st dst hl] at hq
    split_ifs at hq
    injection hq with hq
    rw [← hq]

theorem freerdp_dsp_encode_ima_adpcm_keeps_mode (ctx : FREERDP_DSP_CONTEXT) (data : List Nat)
    (o : wStream) (q : Bool × FREERDP_DSP_CONTEXT × wStream)
    (hq : freerdp_dsp_encode_ima_adpcm ctx data o = some q) : q.2.1.encoder = ctx.encoder := by
  cases hl : ima_encode_loop ctx.format.nBlockAlign ctx.format.nChannels data.length
      ctx.adpcm data [] with
  | none =>
    simp only [freerdp_dsp_encode_ima_adpcm, hl, bind, Option.bind] at hq
    exact absurd hq (by simp)
  | some p =>
    obtain ⟨st, dst⟩ := p
    rw [freerdp_dsp_encode_ima_adpcm_eq ctx data o st dst hl] at hq
    split_ifs at hq
    injection hq with hq
    rw [← hq]

theorem freerdp_dsp_encode_keeps_mode (ctx ctx' : FREERDP_DSP_CONTEXT)
    (srcFormat : Option AUDIO_FORMAT) (data : Option (List Nat)) (out out' : Option wStream)
    (r : Bool)
    (h : freerdp_dsp_encode (some ctx) srcFormat data out = some (r, some ctx', out')) :
    ctx'.encoder = ctx.encoder := by
  cases srcFormat with
  | none => simp only [freerdp_dsp_encode] at h; injection h with h; injection h with _ h; injection h with h; injection h with h; rw [h]
  | some f =>
  cases data with
  | none => simp only [freerdp_dsp_encode] at h; injection h with h; injection h with _ h; injection h with h; injection h with h; rw [h]
  | some d =>
  cases out with
  | none => simp only [freerdp_dsp_encode] at h; injection h with h; injection h with _ h; injection h with h; injection h with h; rw [h]
  | some o =>
    simp only [freerdp_dsp_encode] at h
    split_ifs at h
    · injection h with h; injection h with _ h; injection h with h; injection h with h; rw [h]
    · injection h with h; injection h with _ h; injection h with h; injection h with h; rw [h]
    · simp only [Option.map_eq_some'] at h
      obtain ⟨q, hq, hqq⟩ := h
      have hm := freerdp_dsp_encode_ms_adpcm_keeps_mode ctx d o q hq
      simp only [Prod.mk.injEq, Option.some.injEq] at hqq
      rw [← hqq.2.1, hm]
    · simp only [Option.map_eq_some'] at h
      obtain ⟨q, hq, hqq⟩ := h
      have hm := freerdp_dsp_encode_ima_adpcm_keeps_mode ctx d o q hq
      simp only [Prod.mk.injEq, Option.some.injEq] at hqq
      rw [← hqq.2.1, hm]
    · injection h with h; injection h with _ h; injection h with h; injection h with h; rw [h]

theorem freerdp_dsp_decode_keeps_mode (ctx ctx' : FREERDP_DSP_CONTEXT)
    (srcFormat : Option AUDIO_FORMAT) (data : Option (List Nat)) (out out' : Option wStream)
    (r : Bool)
    (h : freerdp_dsp_decode (some ctx) srcFormat data out = some (r, some ctx', out')) :
    ctx'.encoder = ctx.encoder := by
  cases srcFormat with
  | none => simp only [freerdp_dsp_decode] at h; injection h with h; injection h with _ h; injection h with h; injection h with h; rw [h]
  | some f =>
  cases data with
  | none => simp only [freerdp_dsp_decode] at h; injection h with h; injection h with _ h; injection h with h; injection h with h; rw [h]
  | some d =>
  cases out with
  | none => simp only [freerdp_dsp_decode] at h; injection h with h; injection h with _ h; injection h with h; injection h with h; rw [h]
  | some o =>
    simp only [freerdp_dsp_decode] at h
    split_ifs at h
    · injection h with h; injection h with _ h; injection h with h; injection h with h; rw [h]
    · injection h with h; injection h with _ h; injection h with h; injection h with h; rw [h]
    · simp only [Option.map_eq_some'] at h
      obtain ⟨q, hq, hqq⟩ := h
      have hm := codec_keeps_mode _ ctx (fun a => a) o q hq
      simp only [Prod.mk.injEq, Option.some.injEq] at hqq
      rw [← hqq.2.1, hm]
    · simp only [Option.map_eq_some'] at h
      obtain ⟨q, hq, hqq⟩ := h
      have hm := codec_keeps_mode _ ctx (fun a => a) o q hq
      simp only [Prod.mk.injEq, Option.some.injEq] at hqq
      rw [← hqq.2.1, hm]
    · injection h with h; injection h with _ h; injection h with h; injection h with h; rw [h]

/-- C24. Direction is enforced: `freerdp_dsp_encode` on a context in decoder mode and
`freerdp_dsp_decode` on a context in encoder mode return FALSE for every stored format and
every argument, with the context (codec state, stored format) and the output stream exactly
as they were; `freerdp_dsp_context_new` sets the mode flag, and neither
`freerdp_dsp_context_reset` nor `freerdp_dsp_encode` nor `freerdp_dsp_decode` changes it. -/
theorem direction_enforced :
    (∀ (ctx : FREERDP_DSP_CONTEXT) (srcFormat : Option AUDIO_FORMAT)
        (data : Option (List Nat)) (out : Option wStream), ctx.encoder = false →
      freerdp_dsp_encode (some ctx) srcFormat data out = some (false, some ctx, out)) ∧
    (∀ (ctx : FREERDP_DSP_CONTEXT) (srcFormat : Option AUDIO_FORMAT)
        (data : Option (List Nat)) (out : Option wStream), ctx.encoder = true →
      freerdp_dsp_decode (some ctx) srcFormat data out = some (false, some ctx, out)) ∧
    (∀ e : Bool, (freerdp_dsp_context_new e).encoder = e) ∧
    (∀ (ctx ctx' : FREERDP_DSP_CONTEXT) (targetFormat : Option AUDIO_FORMAT) (r : Bool),
      freerdp_dsp_context_reset (some ctx) targetFormat = (r, some ctx') →
      ctx'.encoder = ctx.encoder) ∧
    (∀ (ctx ctx' : FREERDP_DSP_CONTEXT) (srcFormat : Option AUDIO_FORMAT)
        (data : Option (List Nat)) (out out' : Option wStream) (r : Bool),
      freerdp_dsp_encode (some ctx) srcFormat data out = some (r, some ctx', out') →
      ctx'.encoder = ctx.encoder) ∧
    (∀ (ctx ctx' : FREERDP_DSP_CONTEXT) (srcFormat : Option AUDIO_FORMAT)
        (data : Option (List Nat)) (out out' : Option wStream) (r : Bool),
      freerdp_dsp_decode (some ctx) srcFormat data out = some (r, some ctx', out') →
      ctx'.encoder = ctx.encoder) := by
  refine ⟨?_, ?_, fun _ => rfl, ?_, freerdp_dsp_encode_keeps_mode,
    freerdp_dsp_decode_keeps_mode⟩
  · intro ctx srcFormat data out he
    cases srcFormat <;> cases data <;> cases out <;> simp [freerdp_dsp_encode, he]
  · intro ctx srcFormat data out he
    cases srcFormat <;> cases data <;> cases out <;> simp [freerdp_dsp_decode, he]
  · intro ctx ctx' targetFormat r h
    cases targetFormat with
    | none =>
      simp only [freerdp_dsp_context_reset, Prod.mk.injEq, Option.some.injEq] at h
      rw [← h.2]
    | some f =>
      simp only [freerdp_dsp_context_reset, Prod.mk.injEq, Option.some.injEq] at h
      rw [← h.2]

theorem direction_enforced_witness :
    freerdp_dsp_encode (some { freerdp_dsp_context_new false with format := pcm_format })
        (some pcm_format) (some [1, 2, 3, 4]) (some { buffer := [9, 9], pointer := 1 }) =
      some (false, some { freerdp_dsp_context_new false with format := pcm_format },
        some { buffer := [9, 9], pointer := 1 }) ∧
    freerdp_dsp_decode (some { freerdp_dsp_context_new true with format := ms_mono_format8 })
        (some ms_mono_format8) (some [0, 16, 0, 0, 0, 0, 0, 0])
        (some { buffer := [], pointer := 0 }) =
      some (false, some { freerdp_dsp_context_new true with format := ms_mono_format8 },
        some { buffer := [], pointer := 0 }) :=
  ⟨direction_enforced.1 _ _ _ _ rfl, direction_enforced.2.1 _ _ _ _ rfl⟩

/-! ## External backend: codec mapping -/

/-- C23. External-backend codec mapping: `rdpsnd_ffmpeg_get_avcodec` (a total function)
maps a PCM format to `AV_CODEC_ID_PCM_U16LE` when `wBitsPerSample` is 16, to
`AV_CODEC_ID_PCM_U8` when it is 8 and to `AV_CODEC_ID_NONE` for every other bit depth; it
maps a `NULL` format, the unknown tag and every tag without a `case` label to
`AV_CODEC_ID_NONE`; and `rdpsnd_ffmpeg_format_supported` returns FALSE for every format
mapped to `AV_CODEC_ID_NONE`, whatever the external library reports. -/
theorem ffmpeg_codec_mapping :
    (∀ f : AUDIO_FORMAT, f.wFormatTag = WAVE_FORMAT_PCM →
      (f.wBitsPerSample = 16 →
        rdpsnd_ffmpeg_get_avcodec (some f) = AVCodecID.AV_CODEC_ID_PCM_U16LE) ∧
      (f.wBitsPerSample = 8 →
        rdpsnd_ffmpeg_get_avcodec (some f) = AVCodecID.AV_CODEC_ID_PCM_U8) ∧
      (f.wBitsPerSample ≠ 16 → f.wBitsPerSample ≠ 8 →
        rdpsnd_ffmpeg_get_avcodec (some f) = AVCodecID.AV_CODEC_ID_NONE)) ∧
    rdpsnd_ffmpeg_get_avcodec none = AVCodecID.AV_CODEC_ID_NONE ∧
    (∀ f : AUDIO_FORMAT, f.wFormatTag = WAVE_FORMAT_UNKNOWN →
      rdpsnd_ffmpeg_get_avcodec (some f) = AVCodecID.AV_CODEC_ID_NONE) ∧
    (∀ f : AUDIO_FORMAT, f.wFormatTag ∉ rdpsnd_ffmpeg_tags →
      rdpsnd_ffmpeg_get_avcodec (some f) = AVCodecID.AV_CODEC_ID_NONE) ∧
    (∀ (avcodec_find_decoder : AVCodecID → Bool) (format : Option AUDIO_FORMAT),
      rdpsnd_ffmpeg_get_avcodec format = AVCodecID.AV_CODEC_ID_NONE →
      rdpsnd_ffmpeg_format_supported avcodec_find_decoder format = false) := by
  have hpu : WAVE_FORMAT_PCM ≠ WAVE_FORMAT_UNKNOWN := by decide
  refine ⟨?_, rfl, ?_, ?_, ?_⟩
  · intro f ht
    refine ⟨fun hb => ?_, fun hb => ?_, fun h16 h8 => ?_⟩
    · simp only [rdpsnd_ffmpeg_get_avcodec, ht, hpu, hb, if_true, if_false]
    · have h816 : (8 : Nat) ≠ 16 := by decide
      simp only [rdpsnd_ffmpeg_get_avcodec, ht, hpu, hb, h816, if_true, if_false]
    · simp only [rdpsnd_ffmpeg_get_avcodec, ht, hpu, h16, h8, if_true, if_false]
  · intro f ht
    simp only [rdpsnd_ffmpeg_get_avcodec, ht, if_true]
  · intro f h
    simp only [rdpsnd_ffmpeg_tags, List.mem_cons, List.mem_singleton, not_or] at h
    obtain ⟨h0, h1, h2, h3, h4, h5, h6, h7, h8, h9, h10, h11, h12, h13, h14, h15, h16, _⟩ :=
      And.intro h.1 (And.intro h.2.1 (And.intro h.2.2.1 (And.intro h.2.2.2.1
        (And.intro h.2.2.2.2.1 (And.intro h.2.2.2.2.2.1 (And.intro h.2.2.2.2.2.2.1
        (And.intro h.2.2.2.2.2.2.2.1 (And.intro h.2.2.2.2.2.2.2.2.1
        (And.intro h.2.2.2.2.2.2.2.2.2.1 (And.intro h.2.2.2.2.2.2.2.2.2.2.1
        (And.intro h.2.2.2.2.2.2.2.2.2.2.2.1 (And.intro h.2.2.2.2.2.2.2.2.2.2.2.2.1
        (And.intro h.2.2.2.2.2.2.2.2.2.2.2.2.2.1
        (And.intro h.2.2.2.2.2.2.2.2.2.2.2.2.2.2.1
        (And.intro h.2.2.2.2.2.2.2.2.2.2.2.2.2.2.2.1
        (And.intro h.2.2.2.2.2.2.2.2.2.2.2.2.2.2.2.2 trivial))))))))))))))))
    simp only [rdpsnd_ffmpeg_get_avcodec, h0, h1, h2, h3, h4, h5, h6, h7, h8, h9, h10, h11,
      h12, h13, h14, h15, h16, if_false]
  · intro find format h
    simp only [rdpsnd_ffmpeg_format_supported, h, if_true]

theorem ffmpeg_codec_mapping_witness :
    rdpsnd_ffmpeg_get_avcodec (some pcm_format) = AVCodecID.AV_CODEC_ID_PCM_U16LE ∧
    rdpsnd_ffmpeg_get_avcodec (some { pcm_format with wBitsPerSample := 24 }) =
      AVCodecID.AV_CODEC_ID_NONE ∧
    rdpsnd_ffmpeg_get_avcodec (some ima_mono_format) = AVCodecID.AV_CODEC_ID_NONE ∧
    rdpsnd_ffmpeg_format_supported (fun _ => true)
      (some { pcm_format with wBitsPerSample := 24 }) = false :=
  ⟨(ffmpeg_codec_mapping.1 pcm_format rfl).1 rfl,
   (ffmpeg_codec_mapping.1 { pcm_format with wBitsPerSample := 24 } rfl).2.2
     (by decide) (by decide),
   ffmpeg_codec_mapping.2.2.2.1 ima_mono_format (by decide),
   ffmpeg_codec_mapping.2.2.2.2 (fun _ => true) (some { pcm_format with wBitsPerSample := 24 })
     ((ffmpeg_codec_mapping.1 { pcm_format with wBitsPerSample := 24 } rfl).2.2
       (by decide) (by decide))⟩

/-! ## Resampler: reads stay inside the source -/

/-- C25. Resampler reads stay inside the source: for `sframes ≥ 1`, positive `rrate`,
`bytes_per_sample` and `schan`, a frame product that fits 31 bits and a source of exactly
`sframes * bytes_per_sample * schan` bytes, for every output frame `i` and every byte lane
`j ≥ 0` both candidate indices of `freerdp_dsp_resample`, `n1 * sbytes + (j % sbytes)` and
`n2 * sbytes + (j % sbytes)`, lie in `[0, src.length)`; the index that is read is one of
them, computed without wrap-around, and the index-checked read returns the byte at that
index. -/
theorem resample_reads_inside_source (src : List Nat)
    (bytes_per_sample schan srate sframes rrate : Nat) (i j : Int)
    (hs : 1 ≤ sframes) (hrr : 0 < rrate) (hb : 0 < bytes_per_sample) (hsc : 0 < schan)
    (ho : sframes * (bytes_per_sample * schan) < 2147483648)
    (hsrc : src.length = sframes * (bytes_per_sample * schan))
    (hj : 0 ≤ j) :
    ∃ sbytes : Int, sbytes = toINT32 (toSIZE ((bytes_per_sample : Int) * schan)) ∧
      sbytes = ((bytes_per_sample * schan : Nat) : Int) ∧
      0 ≤ resample_n1 srate rrate sframes i * sbytes + Int.tmod j sbytes ∧
      resample_n1 srate rrate sframes i * sbytes + Int.tmod j sbytes < src.length ∧
      0 ≤ resample_n2 srate rrate sframes i * sbytes + Int.tmod j sbytes ∧
      resample_n2 srate rrate sframes i * sbytes + Int.tmod j sbytes < src.length ∧
      (resample_index srate rrate sframes sbytes i j =
          resample_n1 srate rrate sframes i * sbytes + Int.tmod j sbytes ∨
        resample_index srate rrate sframes sbytes i j =
          resample_n2 srate rrate sframes i * sbytes + Int.tmod j sbytes) ∧
      ∃ k : Nat, (k : Int) = resample_index srate rrate sframes sbytes i j ∧
        ∃ hk : k < src.length,
          resample_byte src srate rrate sframes sbytes i j = some (src.get ⟨k, hk⟩) := by
  have hpos : 0 < bytes_per_sample * schan := Nat.mul_pos hb hsc
  have hle : bytes_per_sample * schan ≤ sframes * (bytes_per_sample * schan) :=
    Nat.le_mul_of_pos_left _ hs
  have hsb : toINT32 (toSIZE ((bytes_per_sample : Int) * schan)) =
      ((bytes_per_sample * schan : Nat) : Int) := by
    rw [← Nat.cast_mul]; exact toINT32_toSIZE_natCast _ (by omega)
  obtain ⟨sb, hsbd⟩ : ∃ sb : Nat, sb = bytes_per_sample * schan := ⟨_, rfl⟩
  rw [← hsbd] at hpos ho hsrc hsb
  have hs' : (0 : Int) < (sb : Int) := by exact_mod_cast hpos
  have hlim : (sframes : Int) * (sb : Int) < 2147483648 := by exact_mod_cast ho
  have hlen : ((src.length : Nat) : Int) = (sframes : Int) * (sb : Int) := by
    rw [hsrc]; push_cast; rfl
  have h2 : sframes < 2147483648 := by
    have : sframes * 1 ≤ sframes * sb := Nat.mul_le_mul_left _ hpos
    omega
  have hm : Int.tmod j (sb : Int) = j % (sb : Int) := Int.tmod_eq_emod hj (by omega)
  obtain ⟨a1, b1⟩ := resample_n1_range srate rrate sframes i hs h2
  obtain ⟨a2, b2⟩ := resample_n2_range srate rrate sframes i hs h2
  obtain ⟨e1, r1, s1⟩ := resample_offset_range sframes (sb : Int) _ j hs' hlim a1 b1 hj
  obtain ⟨e2, r2, s2⟩ := resample_offset_range sframes (sb : Int) _ j hs' hlim a2 b2 hj
  obtain ⟨i0, i1⟩ := resample_index_range srate rrate sframes (sb : Int) i j hs hs' hlim hj
  have hor : resample_index srate rrate sframes (sb : Int) i j =
        resample_n1 srate rrate sframes i * (sb : Int) + Int.tmod j (sb : Int) ∨
      resample_index srate rrate sframes (sb : Int) i j =
        resample_n2 srate rrate sframes i * (sb : Int) + Int.tmod j (sb : Int) := by
    rw [hm]
    simp only [resample_index]
    split
    · right; exact e2
    · left; exact e1
  have hk : (resample_index srate rrate sframes (sb : Int) i j).toNat < src.length := by
    omega
  refine ⟨(sb : Int), hsb.symm, by rw [hsbd], ?_, ?_, ?_, ?_, hor,
    (resample_index srate rrate sframes (sb : Int) i j).toNat, Int.toNat_of_nonneg i0, hk, ?_⟩
  · rw [hm]; exact r1
  · rw [hm, hlen]; exact s1
  · rw [hm]; exact r2
  · rw [hm, hlen]; exact s2
  · simp only [resample_byte]
    rw [if_neg (by omega), if_pos i0, List.getElem?_eq_getElem hk]
    rfl

theorem resample_reads_inside_source_witness :
    ∃ sbytes : Int, sbytes = toINT32 (toSIZE (((2 : Nat) : Int) * (2 : Nat))) ∧
      sbytes = ((2 * 2 : Nat) : Int) ∧
      0 ≤ resample_n1 3 7 3 6 * sbytes + Int.tmod 3 sbytes ∧
      resample_n1 3 7 3 6 * sbytes + Int.tmod 3 sbytes <
        ([1, 2, 3, 4, 5, 6, 7, 8, 9, 10, 11, 12] : List Nat).length ∧
      0 ≤ resample_n2 3 7 3 6 * sbytes + Int.tmod 3 sbytes ∧
      resample_n2 3 7 3 6 * sbytes + Int.tmod 3 sbytes <
        ([1, 2, 3, 4, 5, 6, 7, 8, 9, 10, 11, 12] : List Nat).length ∧
      (resample_index 3 7 3 sbytes 6 3 = resample_n1 3 7 3 6 * sbytes + Int.tmod 3 sbytes ∨
        resample_index 3 7 3 sbytes 6 3 = resample_n2 3 7 3 6 * sbytes + Int.tmod 3 sbytes) ∧
      ∃ k : Nat, (k : Int) = resample_index 3 7 3 sbytes 6 3 ∧
        ∃ hk : k < ([1, 2, 3, 4, 5, 6, 7, 8, 9, 10, 11, 12] : List Nat).length,
          resample_byte [1, 2, 3, 4, 5, 6, 7, 8, 9, 10, 11, 12] 3 7 3 sbytes 6 3 =
            some (([1, 2, 3, 4, 5, 6, 7, 8, 9, 10, 11, 12] : List Nat).get ⟨k, hk⟩) :=
  resample_reads_inside_source [1, 2, 3, 4, 5, 6, 7, 8, 9, 10, 11, 12] 2 2 3 3 7 6 3
    (by decide) (by decide) (by decide) (by decide) (by decide) (by decide) (by decide)

/-! ## MS ADPCM: how the encoder rounds -/

/-- The quotient of the MS encoder on a prediction error that is not negative: the
nearest integer, the lower one on an exact tie. -/
theorem ms_errordelta_nonneg (err d : Int) (hd : 16 ≤ d) (h0 : 0 ≤ err)
    (h1 : err ≤ 2147483647) :
    -d < 2 * (err - ms_encode_errordelta err d * d) ∧
      2 * (err - ms_encode_errordelta err d * d) ≤ d := by
  have hq : Int.tdiv err d = err / d := Int.tdiv_eq_ediv h0 (by omega)
  have hr : Int.tmod err d = err % d := Int.tmod_eq_emod h0 (by omega)
  have h2 : Int.tdiv d 2 = d / 2 := Int.tdiv_eq_ediv (by omega) (by omega)
  have hdiv := Int.ediv_add_emod err d
  have hr0 := Int.emod_nonneg err (show d ≠ 0 by omega)
  have hr1 := Int.emod_lt_of_pos err (show 0 < d by omega)
  have hQ0 : 0 ≤ err / d := Int.ediv_nonneg h0 (by omega)
  have hQ1 : err / d ≤ err := Int.ediv_le_self _ h0
  have hmul : err / d * d = d * (err / d) := Int.mul_comm _ _
  have hmul1 : (err / d + 1) * d = d * (err / d) + d := by ring
  have hQ2 : err / d * 16 ≤ err / d * d := Int.mul_le_mul_of_nonneg_left hd hQ0
  simp only [ms_encode_errordelta, hq, hr, h2]
  split
  · rw [toINT32_of_range _ (by omega) (by omega), hmul1]
    omega
  · rw [hmul]
    omega

/-- The quotient of the MS encoder on a negative prediction error: the quotient
truncated toward zero, never adjusted. -/
theorem ms_errordelta_neg (err d : Int) (hd : 16 ≤ d) (h0 : err < 0) :
    ms_encode_errordelta err d = -((-err) / d) ∧
      0 ≤ ms_encode_errordelta err d * d - err ∧
      ms_encode_errordelta err d * d - err < d := by
  have hq : Int.tdiv err d = -((-err) / d) := by
    rw [tdiv_of_pos _ _ (by omega), if_neg (by omega)]
  have h2 : Int.tdiv d 2 = d / 2 := Int.tdiv_eq_ediv (by omega) (by omega)
  have hr : Int.tmod err d = err - d * Int.tdiv err d := by
    have := Int.tmod_add_tdiv err d
    omega
  have hdiv := Int.ediv_add_emod (-err) d
  have hr0 := Int.emod_nonneg (-err) (show d ≠ 0 by omega)
  have hr1 := Int.emod_lt_of_pos (-err) (show 0 < d by omega)
  have hmul : -(-err / d) * d = -(d * (-err / d)) := by ring
  have hmul2 : d * -(-err / d) = -(d * (-err / d)) := by ring
  have hq' : ms_encode_errordelta err d = -((-err) / d) := by
    simp only [ms_encode_errordelta, hr, hq, h2, hmul2]
    rw [if_neg (by omega)]
  rw [hq', hmul]
  refine ⟨rfl, ?_, ?_⟩ <;> omega

/-- C22 (as stated) fails: from predictor 1, delta 16 and the history 100, 90 the
prediction is 110.  For the sample 101 the error is -9 and the quotient is 0, although -1
is strictly nearer to -9/16; for the sample 118 the error is 8, an exact half-way tie, and
the quotient is 0, not 1. -/
theorem ms_round_nearest_counterexample :
    Arr2.get ms_state_example.ms.predictor 0 ≤ 6 ∧
    16 ≤ Arr2.get ms_state_example.ms.delta 0 ∧
    ms_adpcm_predict ms_state_example 0 = some 110 ∧
    ms_encode_errordelta (toINT32 (101 - 110)) (Arr2.get ms_state_example.ms.delta 0) = 0 ∧
    |((101 : Int) - 110) - (-1) * 16| < |((101 : Int) - 110) - 0 * 16| ∧
    (freerdp_dsp_encode_ms_adpcm_sample ms_state_example 101 0).map Prod.fst = some 0 ∧
    ms_encode_errordelta (toINT32 (118 - 110)) (Arr2.get ms_state_example.ms.delta 0) = 0 ∧
    2 * ((118 : Int) - 110) = Arr2.get ms_state_example.ms.delta 0 ∧
    (freerdp_dsp_encode_ms_adpcm_sample ms_state_example 118 0).map Prod.fst = some 0 := by
  decide

/-- C22 (amended). How the MS encoder rounds: for a state with `predictor[c]` in `[0, 6]`
and `delta[c] >= 16` and a signed 16-bit sample, with `err = sample - predicted` (which
does not overflow), `freerdp_dsp_encode_ms_adpcm_sample` returns the code of the clamped
quotient `q`, where for `err >= 0` the quotient is the integer nearest to `err / delta`,
the lower one on an exact half-way tie (`-delta < 2 * (err - q * delta) <= delta`), and for
`err < 0` it is `err / delta` truncated toward zero, never adjusted
(`0 <= q * delta - err < delta`). -/
theorem ms_round_by_sign (adpcm : ADPCM) (c : Fin 2) (sample : Int)
    (hp : Arr2.get adpcm.ms.predictor c ≤ 6)
    (hd : 16 ≤ Arr2.get adpcm.ms.delta c)
    (hs : -32768 ≤ sample ∧ sample ≤ 32767) :
    ∃ predicted q st, ms_adpcm_predict adpcm c = some predicted ∧
      toINT32 (sample - predicted) = sample - predicted ∧
      q = ms_encode_errordelta (toINT32 (sample - predicted)) (Arr2.get adpcm.ms.delta c) ∧
      freerdp_dsp_encode_ms_adpcm_sample adpcm sample c =
        some (toBYTE (ms_clamp_nibble q) &&& 0x0F, st) ∧
      (0 ≤ sample - predicted →
        -Arr2.get adpcm.ms.delta c < 2 * (sample - predicted - q * Arr2.get adpcm.ms.delta c) ∧
        2 * (sample - predicted - q * Arr2.get adpcm.ms.delta c) ≤ Arr2.get adpcm.ms.delta c) ∧
      (sample - predicted < 0 →
        q = -((-(sample - predicted)) / Arr2.get adpcm.ms.delta c) ∧
        0 ≤ q * Arr2.get adpcm.ms.delta c - (sample - predicted) ∧
        q * Arr2.get adpcm.ms.delta c - (sample - predicted) < Arr2.get adpcm.ms.delta c) := by
  obtain ⟨p, hpred, hp0, hp1⟩ := ms_adpcm_predict_some adpcm c hp
  have herr : toINT32 (sample - p) = sample - p := toINT32_of_range _ (by omega) (by omega)
  obtain ⟨a, _, henc⟩ := freerdp_dsp_encode_ms_adpcm_sample_eq adpcm c sample p hpred
    (by omega)
  refine ⟨p, _, _, hpred, herr, rfl, henc, ?_, ?_⟩
  · intro h
    rw [herr]
    exact ms_errordelta_nonneg _ _ hd h (by omega)
  · intro h
    rw [herr]
    exact ms_errordelta_neg _ _ hd h

theorem ms_round_by_sign_witness :
    ∃ predicted q st, ms_adpcm_predict ms_state_example 0 = some predicted ∧
      toINT32 (101 - predicted) = 101 - predicted ∧
      q = ms_encode_errordelta (toINT32 (101 - predicted))
        (Arr2.get ms_state_example.ms.delta 0) ∧
      freerdp_dsp_encode_ms_adpcm_sample ms_state_example 101 0 =
        some (toBYTE (ms_clamp_nibble q) &&& 0x0F, st) ∧
      (0 ≤ 101 - predicted →
        -Arr2.get ms_state_example.ms.delta 0 <
          2 * (101 - predicted - q * Arr2.get ms_state_example.ms.delta 0) ∧
        2 * (101 - predicted - q * Arr2.get ms_state_example.ms.delta 0) ≤
          Arr2.get ms_state_example.ms.delta 0) ∧
      (101 - predicted < 0 →
        q = -((-(101 - predicted)) / Arr2.get ms_state_example.ms.delta 0) ∧
        0 ≤ q * Arr2.get ms_state_example.ms.delta 0 - (101 - predicted) ∧
        q * Arr2.get ms_state_example.ms.delta 0 - (101 - predicted) <
          Arr2.get ms_state_example.ms.delta 0) :=
  ms_round_by_sign ms_state_example 0 101 (by decide) (by decide) (by decide)

/-! ## IMA ADPCM: the stereo scatter map -/

/-- One sample on one channel, seen from that channel alone: the code, the reconstructed
sample and the next step index depend only on the channel's own sample and step index;
the encoder and the decoder (fed the code) replace exactly these two fields, by the same
values. -/
theorem ima_channel_lockstep (c : Fin 2) (x t s : Int) (ht0 : 0 ≤ t) (ht1 : t ≤ 88) :
    ∃ (e : Nat) (x' t' : Int), e < 16 ∧ 0 ≤ t' ∧ t' ≤ 88 ∧
      ∀ A : ADPCM, Arr2.get A.ima.last_sample c = x → Arr2.get A.ima.last_step c = t →
        dsp_encode_ima_adpcm_sample A c s =
          some (e, { A with ima :=
            { last_sample := Arr2.set A.ima.last_sample c x'
              last_step := Arr2.set A.ima.last_step c t' } }) ∧
        dsp_decode_ima_adpcm_sample A c e =
          some (toUINT16 x', { A with ima :=
            { last_sample := Arr2.set A.ima.last_sample c x'
              last_step := Arr2.set A.ima.last_step c t' } }) := by
  obtain ⟨ss, hss, _, _⟩ := ima_step_size_at t ht0 ht1
  obtain ⟨hlt, _⟩ := ima_quantize_spec ss (s - x)
  obtain ⟨idx, hidx, _, _⟩ := ima_step_index_at _ hlt
  refine ⟨(ima_encode_quantize ss (s - x)).1,
    toINT16 (clamp16 (ima_decode_delta ss (ima_encode_quantize ss (s - x)).1 + x)),
    ima_next_step t idx, hlt, (ima_next_step_range _ _).1, (ima_next_step_range _ _).2, ?_⟩
  intro A hx ht
  subst hx ht
  obtain ⟨idx', hidx', _, _, henc⟩ := dsp_encode_ima_adpcm_sample_eq A c s ss hss
  have hi : idx' = idx := Option.some.inj (hidx'.symm.trans hidx)
  subst hi
  refine ⟨henc, ?_⟩
  rw [dsp_decode_ima_adpcm_sample_eq A c _ ss idx' hss hidx', toUINT16_toINT16]

/-- One sample on the left channel: the right channel and the MS member are left alone. -/
theorem ima_lockstep_left (x t s : Int) (ht0 : 0 ≤ t) (ht1 : t ≤ 88) :
    ∃ (e : Nat) (x' t' : Int), e < 16 ∧ 0 ≤ t' ∧ t' ≤ 88 ∧
      ∀ (y u : Int) (ms : MS),
        dsp_encode_ima_adpcm_sample
            { ima := { last_sample := (x, y), last_step := (t, u) }, ms := ms } 0 s =
          some (e, { ima := { last_sample := (x', y), last_step := (t', u) }, ms := ms }) ∧
        dsp_decode_ima_adpcm_sample
            { ima := { last_sample := (x, y), last_step := (t, u) }, ms := ms } 0 e =
          some (toUINT16 x',
            { ima := { last_sample := (x', y), last_step := (t', u) }, ms := ms }) := by
  obtain ⟨e, x', t', he, h0, h1, H⟩ := ima_channel_lockstep 0 x t s ht0 ht1
  exact ⟨e, x', t', he, h0, h1, fun y u ms =>
    H { ima := { last_sample := (x, y), last_step := (t, u) }, ms := ms } rfl rfl⟩

/-- One sample on the right channel: the left channel and the MS member are left alone. -/
theorem ima_lockstep_right (y u s : Int) (hu0 : 0 ≤ u) (hu1 : u ≤ 88) :
    ∃ (e : Nat) (y' u' : Int), e < 16 ∧ 0 ≤ u' ∧ u' ≤ 88 ∧
      ∀ (x t : Int) (ms : MS),
        dsp_encode_ima_adpcm_sample
            { ima := { last_sample := (x, y), last_step := (t, u) }, ms := ms } 1 s =
          some (e, { ima := { last_sample := (x, y'), last_step := (t, u') }, ms := ms }) ∧
        dsp_decode_ima_adpcm_sample
            { ima := { last_sample := (x, y), last_step := (t, u) }, ms := ms } 1 e =
          some (toUINT16 y',
            { ima := { last_sample := (x, y'), last_step := (t, u') }, ms := ms }) := by
  obtain ⟨e, y', u', he, h0, h1, H⟩ := ima_channel_lockstep 1 y u s hu0 hu1
  exact ⟨e, y', u', he, h0, h1, fun x t ms =>
    H { ima := { last_sample := (x, y), last_step := (t, u) }, ms := ms } rfl rfl⟩

/-- One round of the stereo encoder loop. -/
theorem ima_encode_stereo_step (n m i j : Nat) (A A' : ADPCM) (ch : Fin 2) (s : Int)
    (rest win win' : List Nat) (e bn sh old : Nat)
    (hm : m = n + 1) (hj : j = i + 1)
    (hs0 : -32768 ≤ s) (hs1 : s ≤ 32767)
    (hch : (if i % 2 = 0 then (0 : Fin 2) else 1) = ch)
    (henc : dsp_encode_ima_adpcm_sample A ch s = some (e, A'))
    (hmap : ima_stereo_encode_map[i]? = some (bn, sh)) (hold : win[bn]? = some old)
    (hset : win.set bn ((old ||| (e <<< sh)) % 256) = win') :
    ima_encode_stereo_samples m i A (bytesINT16 s ++ rest) win =
      ima_encode_stereo_samples n j A' rest win' := by
  subst hm hj hset
  have hd : (bytesINT16 s ++ rest).drop 2 = rest := rfl
  simp only [ima_encode_stereo_samples, readINT16_bytesINT16 s rest hs0 hs1, hd, hch, henc,
    hmap, hold, bind, Option.bind, pure]

/-- One round of the stereo decoder loop. -/
theorem ima_decode_stereo_step (n m i j o0 o1 o2 o3 : Nat) (A A1 A2 : ADPCM) (ch : Fin 2)
    (b e1 e2 : Nat) (r1 r2 : Int) (rest win win' : List Nat)
    (hm : m = n + 1) (hj : j = i + 1)
    (hch : (if i < 4 then (0 : Fin 2) else 1) = ch)
    (ho0 : ((i &&& 3) <<< 3) + (ch.val <<< 1) = o0)
    (ho1 : ((i &&& 3) <<< 3) + (ch.val <<< 1) + 1 = o1)
    (ho2 : ((i &&& 3) <<< 3) + (ch.val <<< 1) + 4 = o2)
    (ho3 : ((i &&& 3) <<< 3) + (ch.val <<< 1) + 5 = o3)
    (hlo : b &&& 0x0f = e1) (hhi : b >>> 4 = e2)
    (h1 : dsp_decode_ima_adpcm_sample A ch e1 = some (r1, A1))
    (h2 : dsp_decode_ima_adpcm_sample A1 ch e2 = some (r2, A2))
    (hset : (((win.set o0 (toBYTE (r1 % 256))).set o1 (toBYTE (r1 / 256))).set
          o2 (toBYTE (r2 % 256))).set o3 (toBYTE (r2 / 256)) = win') :
    ima_decode_stereo_bytes m i A (b :: rest) win =
      ima_decode_stereo_bytes n j A2 rest win' := by
  subst hm hj ho0 ho1 ho2 ho3 hset
  simp only [ima_decode_stereo_bytes, List.getElem?_cons_zero, List.drop_succ_cons,
    List.drop_zero, hch, hlo, hhi, h1, h2, bind, Option.bind, pure]

/-- One step of the trace of the stereo encoder. -/
theorem ima_encode_stereo_trace_step (i j : Nat) (A A' final : ADPCM) (ch : Fin 2) (s v : Int)
    (rest tr : List Int) (e : Nat)
    (hj : j = i + 1)
    (hch : (if i % 2 = 0 then (0 : Fin 2) else 1) = ch)
    (henc : dsp_encode_ima_adpcm_sample A ch s = some (e, A'))
    (hv : Arr2.get A'.ima.last_sample ch = v)
    (hrest : ima_encode_stereo_trace A' j rest = some (final, tr)) :
    ima_encode_stereo_trace A i (s :: rest) = some (final, v :: tr) := by
  subst hj hv
  simp only [ima_encode_stereo_trace, hch, henc, hrest, bind, Option.bind, pure]

theorem pcm16_nil : pcm16 [] = [] := rfl

/-- The two codes packed into one byte of the stereo window are read back by the mask
and the shift of the decoder. -/
theorem ima_stereo_pack (a b : Nat) (ha : a < 16) (hb : b < 16) :
    ((((0 ||| (a <<< 0)) % 256) ||| (b <<< 4)) % 256) &&& 0x0f = a ∧
    ((((0 ||| (a <<< 0)) % 256) ||| (b <<< 4)) % 256) >>> 4 = b := by
  have key : ∀ a b : Fin 16,
      ((((0 ||| (a.val <<< 0)) % 256) ||| (b.val <<< 4)) % 256) &&& 0x0f = a.val ∧
      ((((0 ||| (a.val <<< 0)) % 256) ||| (b.val <<< 4)) % 256) >>> 4 = b.val := by decide
  exact key ⟨a, ha⟩ ⟨b, hb⟩

theorem decoded_low_byte (v : Int) : toBYTE (toUINT16 v % 256) = toBYTE v := by
  have e1 : toUINT16 v % 256 % 256 = v % 256 := by unfold toUINT16; omega
  simp only [toBYTE, e1]

theorem decoded_high_byte (v : Int) : toBYTE (toUINT16 v / 256) = toBYTE (v >>> (8 : Nat)) := by
  have e2 : toUINT16 v / 256 % 256 = v / 256 % 256 := by unfold toUINT16; omega
  simp only [toBYTE, sar8, e2]

theorem list_of_length_16 {α : Type} (l : List α) (h : l.length = 16) :
    ∃ a0 a1 a2 a3 a4 a5 a6 a7 a8 a9 a10 a11 a12 a13 a14 a15,
      l = [a0, a1, a2, a3, a4, a5, a6, a7, a8, a9, a10, a11, a12, a13, a14, a15] := by
  match l, h with
  | [a0, a1, a2, a3, a4, a5, a6, a7, a8, a9, a10, a11, a12, a13, a14, a15], _ =>
    exact ⟨a0, a1, a2, a3, a4, a5, a6, a7, a8, a9, a10, a11, a12, a13, a14, a15, rfl⟩

/-- C21. The IMA stereo scatter map is inverted by the decoder: for every state with both
step indices in `[0, 88]` and every group of 8 stereo frames (16 signed 16-bit samples,
left and right interleaved), the stereo branch of the encoder packs 8 bytes through
`ima_stereo_encode_map`, and the stereo branch of the decoder, run on these 8 bytes from
the same prior state, stores at frame `f`, channel `c` (bytes `4 f + 2 c` and
`4 f + 2 c + 1` of the 32-byte window) the value the encoder reconstructed for input
sample `(f, c)`, and ends in the encoder's post-state. -/
theorem ima_stereo_map_inverted (adpcm : ADPCM) (samples : List Int) (rest rest' : List Nat)
    (h0 : 0 ≤ Arr2.get adpcm.ima.last_step 0 ∧ Arr2.get adpcm.ima.last_step 0 ≤ 88)
    (h1 : 0 ≤ Arr2.get adpcm.ima.last_step 1 ∧ Arr2.get adpcm.ima.last_step 1 ≤ 88)
    (hlen : samples.length = 16)
    (hrange : ∀ s ∈ samples, -32768 ≤ s ∧ s ≤ 32767) :
    ∃ post win recon,
      ima_encode_stereo_samples 16 0 adpcm (pcm16 samples ++ rest) (List.replicate 8 0) =
        some (post, rest, win) ∧
      win.length = 8 ∧
      ima_encode_stereo_trace adpcm 0 samples = some (post, recon) ∧
      recon.length = 16 ∧
      ima_decode_stereo_bytes 8 0 adpcm (win ++ rest') (List.replicate 32 0) =
        some (post, rest', pcm16 recon) := by
  obtain ⟨s0, s1, s2, s3, s4, s5, s6, s7, s8, s9, s10, s11, s12, s13, s14, s15, rfl⟩ :=
    list_of_length_16 samples hlen
  obtain ⟨⟨⟨x0, y0⟩, ⟨t0, u0⟩⟩, ms⟩ := adpcm
  have ht0 : 0 ≤ t0 ∧ t0 ≤ 88 := h0
  have hu0 : 0 ≤ u0 ∧ u0 ≤ 88 := h1
  have r0 : -32768 ≤ s0 ∧ s0 ≤ 32767 := hrange s0 (by simp)
  have r1 : -32768 ≤ s1 ∧ s1 ≤ 32767 := hrange s1 (by simp)
  have r2 : -32768 ≤ s2 ∧ s2 ≤ 32767 := hrange s2 (by simp)
  have r3 : -32768 ≤ s3 ∧ s3 ≤ 32767 := hrange s3 (by simp)
  have r4 : -32768 ≤ s4 ∧ s4 ≤ 32767 := hrange s4 (by simp)
  have r5 : -32768 ≤ s5 ∧ s5 ≤ 32767 := hrange s5 (by simp)
  have r6 : -32768 ≤ s6 ∧ s6 ≤ 32767 := hrange s6 (by simp)
  have r7 : -32768 ≤ s7 ∧ s7 ≤ 32767 := hrange s7 (by simp)
  have r8 : -32768 ≤ s8 ∧ s8 ≤ 32767 := hrange s8 (by simp)
  have r9 : -32768 ≤ s9 ∧ s9 ≤ 32767 := hrange s9 (by simp)
  have r10 : -32768 ≤ s10 ∧ s10 ≤ 32767 := hrange s10 (by simp)
  have r11 : -32768 ≤ s11 ∧ s11 ≤ 32767 := hrange s11 (by simp)
  have r12 : -32768 ≤ s12 ∧ s12 ≤ 32767 := hrange s12 (by simp)
  have r13 : -32768 ≤ s13 ∧ s13 ≤ 32767 := hrange s13 (by simp)
  have r14 : -32768 ≤ s14 ∧ s14 ≤ 32767 := hrange s14 (by simp)
  have r15 : -32768 ≤ s15 ∧ s15 ≤ 32767 := hrange s15 (by simp)
  obtain ⟨e0, x1, t1, he0, ht1a, ht1b, L0⟩ :=
    ima_lockstep_left x0 t0 s0 ht0.1 ht0.2
  obtain ⟨f0, y1, u1, hf0, hu1a, hu1b, R0⟩ :=
    ima_lockstep_right y0 u0 s1 hu0.1 hu0.2
  obtain ⟨e1, x2, t2, he1, ht2a, ht2b, L1⟩ :=
    ima_lockstep_left x1 t1 s2 ht1a ht1b
  obtain ⟨f1, y2, u2, hf1, hu2a, hu2b, R1⟩ :=
    ima_lockstep_right y1 u1 s3 hu1a hu1b
  obtain ⟨e2, x3, t3, he2, ht3a, ht3b, L2⟩ :=
    ima_lockstep_left x2 t2 s4 ht2a ht2b
  obtain ⟨f2, y3, u3, hf2, hu3a, hu3b, R2⟩ :=
    ima_lockstep_right y2 u2 s5 hu2a hu2b
  obtain ⟨e3, x4, t4, he3, ht4a, ht4b, L3⟩ :=
    ima_lockstep_left x3 t3 s6 ht3a ht3b
  obtain ⟨f3, y4, u4, hf3, hu4a, hu4b, R3⟩ :=
    ima_lockstep_right y3 u3 s7 hu3a hu3b
  obtain ⟨e4, x5, t5, he4, ht5a, ht5b, L4⟩ :=
    ima_lockstep_left x4 t4 s8 ht4a ht4b
  obtain ⟨f4, y5, u5, hf4, hu5a, hu5b, R4⟩ :=
    ima_lockstep_right y4 u4 s9 hu4a hu4b
  obtain ⟨e5, x6, t6, he5, ht6a, ht6b, L5⟩ :=
    ima_lockstep_left x5 t5 s10 ht5a ht5b
  obtain ⟨f5, y6, u6, hf5, hu6a, hu6b, R5⟩ :=
    ima_lockstep_right y5 u5 s11 hu5a hu5b
  obtain ⟨e6, x7, t7, he6, ht7a, ht7b, L6⟩ :=
    ima_lockstep_left x6 t6 s12 ht6a ht6b
  obtain ⟨f6, y7, u7, hf6, hu7a, hu7b, R6⟩ :=
    ima_lockstep_right y6 u6 s13 hu6a hu6b
  obtain ⟨e7, x8, t8, he7, ht8a, ht8b, L7⟩ :=
    ima_lockstep_left x7 t7 s14 ht7a ht7b
  obtain ⟨f7, y8, u8, hf7, hu8a, hu8b, R7⟩ :=
    ima_lockstep_right y7 u7 s15 hu7a hu7b
  have hw0 : List.replicate 8 0 = [0, 0, 0, 0, 0, 0, 0, 0] := rfl
  have hv0 : List.replicate 32 0 =
      [0, 0, 0, 0, 0, 0, 0, 0, 0, 0, 0, 0, 0, 0, 0, 0, 0, 0, 0, 0, 0, 0, 0, 0, 0, 0, 0, 0, 0, 0, 0, 0] := rfl
  refine ⟨{ ima := { last_sample := (x8, y8), last_step := (t8, u8) }, ms := ms },
    [((0 ||| (e0 <<< 0)) % 256 ||| (e1 <<< 4)) % 256,
     ((0 ||| (e2 <<< 0)) % 256 ||| (e3 <<< 4)) % 256,
     ((0 ||| (e4 <<< 0)) % 256 ||| (e5 <<< 4)) % 256,
     ((0 ||| (e6 <<< 0)) % 256 ||| (e7 <<< 4)) % 256,
     ((0 ||| (f0 <<< 0)) % 256 ||| (f1 <<< 4)) % 256,
     ((0 ||| (f2 <<< 0)) % 256 ||| (f3 <<< 4)) % 256,
     ((0 ||| (f4 <<< 0)) % 256 ||| (f5 <<< 4)) % 256,
     ((0 ||| (f6 <<< 0)) % 256 ||| (f7 <<< 4)) % 256],
    [x1, y1, x2, y2, x3, y3, x4, y4, x5, y5, x6, y6, x7, y7, x8, y8], ?_, rfl, ?_, rfl, ?_⟩
  · simp only [pcm16_cons, pcm16_nil, List.append_assoc, List.nil_append]
    rw [hw0]
    rw [ima_encode_stereo_step 15 16 0 1 _ _ 0 s0 _
      [0, 0, 0, 0, 0, 0, 0, 0]
      [(0 ||| (e0 <<< 0)) % 256, 0, 0, 0, 0, 0, 0, 0]
      e0 0 0 (0) rfl rfl r0.1 r0.2 rfl (L0 y0 u0 ms).1 rfl rfl rfl]
    rw [ima_encode_stereo_step 14 15 1 2 _ _ 1 s1 _
      [(0 ||| (e0 <<< 0)) % 256, 0, 0, 0, 0, 0, 0, 0]
      [(0 ||| (e0 <<< 0)) % 256, 0, 0, 0, (0 ||| (f0 <<< 0)) % 256, 0, 0, 0]
      f0 4 0 (0) rfl rfl r1.1 r1.2 rfl (R0 x1 t1 ms).1 rfl rfl rfl]
    rw [ima_encode_stereo_step 13 14 2 3 _ _ 0 s2 _
      [(0 ||| (e0 <<< 0)) % 256, 0, 0, 0, (0 ||| (f0 <<< 0)) % 256, 0, 0, 0]
      [((0 ||| (e0 <<< 0)) % 256 ||| (e1 <<< 4)) % 256, 0, 0, 0, (0 ||| (f0 <<< 0)) % 256, 0, 0, 0]
      e1 0 4 ((0 ||| (e0 <<< 0)) % 256) rfl rfl r2.1 r2.2 rfl (L1 y1 u1 ms).1 rfl rfl rfl]
    rw [ima_encode_stereo_step 12 13 3 4 _ _ 1 s3 _
      [((0 ||| (e0 <<< 0)) % 256 ||| (e1 <<< 4)) % 256, 0, 0, 0, (0 ||| (f0 <<< 0)) % 256, 0, 0, 0]
      [((0 ||| (e0 <<< 0)) % 256 ||| (e1 <<< 4)) % 256, 0, 0, 0, ((0 ||| (f0 <<< 0)) % 256 ||| (f1 <<< 4)) % 256, 0, 0, 0]
      f1 4 4 ((0 ||| (f0 <<< 0)) % 256) rfl rfl r3.1 r3.2 rfl (R1 x2 t2 ms).1 rfl rfl rfl]
    rw [ima_encode_stereo_step 11 12 4 5 _ _ 0 s4 _
      [((0 ||| (e0 <<< 0)) % 256 ||| (e1 <<< 4)) % 256, 0, 0, 0, ((0 ||| (f0 <<< 0)) % 256 ||| (f1 <<< 4)) % 256, 0, 0, 0]
      [((0 ||| (e0 <<< 0)) % 256 ||| (e1 <<< 4)) % 256, (0 ||| (e2 <<< 0)) % 256, 0, 0, ((0 ||| (f0 <<< 0)) % 256 ||| (f1 <<< 4)) % 256, 0, 0, 0]
      e2 1 0 (0) rfl rfl r4.1 r4.2 rfl (L2 y2 u2 ms).1 rfl rfl rfl]
    rw [ima_encode_stereo_step 10 11 5 6 _ _ 1 s5 _
      [((0 ||| (e0 <<< 0)) % 256 ||| (e1 <<< 4)) % 256, (0 ||| (e2 <<< 0)) % 256, 0, 0, ((0 ||| (f0 <<< 0)) % 256 ||| (f1 <<< 4)) % 256, 0, 0, 0]
      [((0 ||| (e0 <<< 0)) % 256 ||| (e1 <<< 4)) % 256, (0 ||| (e2 <<< 0)) % 256, 0, 0, ((0 ||| (f0 <<< 0)) % 256 ||| (f1 <<< 4)) % 256, (0 ||| (f2 <<< 0)) % 256, 0, 0]
      f2 5 0 (0) rfl rfl r5.1 r5.2 rfl (R2 x3 t3 ms).1 rfl rfl rfl]
    rw [ima_encode_stereo_step 9 10 6 7 _ _ 0 s6 _
      [((0 ||| (e0 <<< 0)) % 256 ||| (e1 <<< 4)) % 256, (0 ||| (e2 <<< 0)) % 256, 0, 0, ((0 ||| (f0 <<< 0)) % 256 ||| (f1 <<< 4)) % 256, (0 ||| (f2 <<< 0)) % 256, 0, 0]
      [((0 ||| (e0 <<< 0)) % 256 ||| (e1 <<< 4)) % 256, ((0 ||| (e2 <<< 0)) % 256 ||| (e3 <<< 4)) % 256, 0, 0, ((0 ||| (f0 <<< 0)) % 256 ||| (f1 <<< 4)) % 256, (0 ||| (f2 <<< 0)) % 256, 0, 0]
      e3 1 4 ((0 ||| (e2 <<< 0)) % 256) rfl rfl r6.1 r6.2 rfl (L3 y3 u3 ms).1 rfl rfl rfl]
    rw [ima_encode_stereo_step 8 9 7 8 _ _ 1 s7 _
      [((0 ||| (e0 <<< 0)) % 256 ||| (e1 <<< 4)) % 256, ((0 ||| (e2 <<< 0)) % 256 ||| (e3 <<< 4)) % 256, 0, 0, ((0 ||| (f0 <<< 0)) % 256 ||| (f1 <<< 4)) % 256, (0 ||| (f2 <<< 0)) % 256, 0, 0]
      [((0 ||| (e0 <<< 0)) % 256 ||| (e1 <<< 4)) % 256, ((0 ||| (e2 <<< 0)) % 256 ||| (e3 <<< 4)) % 256, 0, 0, ((0 ||| (f0 <<< 0)) % 256 ||| (f1 <<< 4)) % 256, ((0 ||| (f2 <<< 0)) % 256 ||| (f3 <<< 4)) % 256, 0, 0]
      f3 5 4 ((0 ||| (f2 <<< 0)) % 256) rfl rfl r7.1 r7.2 rfl (R3 x4 t4 ms).1 rfl rfl rfl]
    rw [ima_encode_stereo_step 7 8 8 9 _ _ 0 s8 _
      [((0 ||| (e0 <<< 0)) % 256 ||| (e1 <<< 4)) % 256, ((0 ||| (e2 <<< 0)) % 256 ||| (e3 <<< 4)) % 256, 0, 0, ((0 ||| (f0 <<< 0)) % 256 ||| (f1 <<< 4)) % 256, ((0 ||| (f2 <<< 0)) % 256 ||| (f3 <<< 4)) % 256, 0, 0]
      [((0 ||| (e0 <<< 0)) % 256 ||| (e1 <<< 4)) % 256, ((0 ||| (e2 <<< 0)) % 256 ||| (e3 <<< 4)) % 256, (0 ||| (e4 <<< 0)) % 256, 0, ((0 ||| (f0 <<< 0)) % 256 ||| (f1 <<< 4)) % 256, ((0 ||| (f2 <<< 0)) % 256 ||| (f3 <<< 4)) % 256, 0, 0]
      e4 2 0 (0) rfl rfl r8.1 r8.2 rfl (L4 y4 u4 ms).1 rfl rfl rfl]
    rw [ima_encode_stereo_step 6 7 9 10 _ _ 1 s9 _
      [((0 ||| (e0 <<< 0)) % 256 ||| (e1 <<< 4)) % 256, ((0 ||| (e2 <<< 0)) % 256 ||| (e3 <<< 4)) % 256, (0 ||| (e4 <<< 0)) % 256, 0, ((0 ||| (f0 <<< 0)) % 256 ||| (f1 <<< 4)) % 256, ((0 ||| (f2 <<< 0)) % 256 ||| (f3 <<< 4)) % 256, 0, 0]
      [((0 ||| (e0 <<< 0)) % 256 ||| (e1 <<< 4)) % 256, ((0 ||| (e2 <<< 0)) % 256 ||| (e3 <<< 4)) % 256, (0 ||| (e4 <<< 0)) % 256, 0, ((0 ||| (f0 <<< 0)) % 256 ||| (f1 <<< 4)) % 256, ((0 ||| (f2 <<< 0)) % 256 ||| (f3 <<< 4)) % 256, (0 ||| (f4 <<< 0)) % 256, 0]
      f4 6 0 (0) rfl rfl r9.1 r9.2 rfl (R4 x5 t5 ms).1 rfl rfl rfl]
    rw [ima_encode_stereo_step 5 6 10 11 _ _ 0 s10 _
      [((0 ||| (e0 <<< 0)) % 256 ||| (e1 <<< 4)) % 256, ((0 ||| (e2 <<< 0)) % 256 ||| (e3 <<< 4)) % 256, (0 ||| (e4 <<< 0)) % 256, 0, ((0 ||| (f0 <<< 0)) % 256 ||| (f1 <<< 4)) % 256, ((0 ||| (f2 <<< 0)) % 256 ||| (f3 <<< 4)) % 256, (0 ||| (f4 <<< 0)) % 256, 0]
      [((0 ||| (e0 <<< 0)) % 256 ||| (e1 <<< 4)) % 256, ((0 ||| (e2 <<< 0)) % 256 ||| (e3 <<< 4)) % 256, ((0 ||| (e4 <<< 0)) % 256 ||| (e5 <<< 4)) % 256, 0, ((0 ||| (f0 <<< 0)) % 256 ||| (f1 <<< 4)) % 256, ((0 ||| (f2 <<< 0)) % 256 ||| (f3 <<< 4)) % 256, (0 ||| (f4 <<< 0)) % 256, 0]
      e5 2 4 ((0 ||| (e4 <<< 0)) % 256) rfl rfl r10.1 r10.2 rfl (L5 y5 u5 ms).1 rfl rfl rfl]
    rw [ima_encode_stereo_step 4 5 11 12 _ _ 1 s11 _
      [((0 ||| (e0 <<< 0)) % 256 ||| (e1 <<< 4)) % 256, ((0 ||| (e2 <<< 0)) % 256 ||| (e3 <<< 4)) % 256, ((0 ||| (e4 <<< 0)) % 256 ||| (e5 <<< 4)) % 256, 0, ((0 ||| (f0 <<< 0)) % 256 ||| (f1 <<< 4)) % 256, ((0 ||| (f2 <<< 0)) % 256 ||| (f3 <<< 4)) % 256, (0 ||| (f4 <<< 0)) % 256, 0]
      [((0 ||| (e0 <<< 0)) % 256 ||| (e1 <<< 4)) % 256, ((0 ||| (e2 <<< 0)) % 256 ||| (e3 <<< 4)) % 256, ((0 ||| (e4 <<< 0)) % 256 ||| (e5 <<< 4)) % 256, 0, ((0 ||| (f0 <<< 0)) % 256 ||| (f1 <<< 4)) % 256, ((0 ||| (f2 <<< 0)) % 256 ||| (f3 <<< 4)) % 256, ((0 ||| (f4 <<< 0)) % 256 ||| (f5 <<< 4)) % 256, 0]
      f5 6 4 ((0 ||| (f4 <<< 0)) % 256) rfl rfl r11.1 r11.2 rfl (R5 x6 t6 ms).1 rfl rfl rfl]
    rw [ima_encode_stereo_step 3 4 12 13 _ _ 0 s12 _
      [((0 ||| (e0 <<< 0)) % 256 ||| (e1 <<< 4)) % 256, ((0 ||| (e2 <<< 0)) % 256 ||| (e3 <<< 4)) % 256, ((0 ||| (e4 <<< 0)) % 256 ||| (e5 <<< 4)) % 256, 0, ((0 ||| (f0 <<< 0)) % 256 ||| (f1 <<< 4)) % 256, ((0 ||| (f2 <<< 0)) % 256 ||| (f3 <<< 4)) % 256, ((0 ||| (f4 <<< 0)) % 256 ||| (f5 <<< 4)) % 256, 0]
      [((0 ||| (e0 <<< 0)) % 256 ||| (e1 <<< 4)) % 256, ((0 ||| (e2 <<< 0)) % 256 ||| (e3 <<< 4)) % 256, ((0 ||| (e4 <<< 0)) % 256 ||| (e5 <<< 4)) % 256, (0 ||| (e6 <<< 0)) % 256, ((0 ||| (f0 <<< 0)) % 256 ||| (f1 <<< 4)) % 256, ((0 ||| (f2 <<< 0)) % 256 ||| (f3 <<< 4)) % 256, ((0 ||| (f4 <<< 0)) % 256 ||| (f5 <<< 4)) % 256, 0]
      e6 3 0 (0) rfl rfl r12.1 r12.2 rfl (L6 y6 u6 ms).1 rfl rfl rfl]
    rw [ima_encode_stereo_step 2 3 13 14 _ _ 1 s13 _
      [((0 ||| (e0 <<< 0)) % 256 ||| (e1 <<< 4)) % 256, ((0 ||| (e2 <<< 0)) % 256 ||| (e3 <<< 4)) % 256, ((0 ||| (e4 <<< 0)) % 256 ||| (e5 <<< 4)) % 256, (0 ||| (e6 <<< 0)) % 256, ((0 ||| (f0 <<< 0)) % 256 ||| (f1 <<< 4)) % 256, ((0 ||| (f2 <<< 0)) % 256 ||| (f3 <<< 4)) % 256, ((0 ||| (f4 <<< 0)) % 256 ||| (f5 <<< 4)) % 256, 0]
      [((0 ||| (e0 <<< 0)) % 256 ||| (e1 <<< 4)) % 256, ((0 ||| (e2 <<< 0)) % 256 ||| (e3 <<< 4)) % 256, ((0 ||| (e4 <<< 0)) % 256 ||| (e5 <<< 4)) % 256, (0 ||| (e6 <<< 0)) % 256, ((0 ||| (f0 <<< 0)) % 256 ||| (f1 <<< 4)) % 256, ((0 ||| (f2 <<< 0)) % 256 ||| (f3 <<< 4)) % 256, ((0 ||| (f4 <<< 0)) % 256 ||| (f5 <<< 4)) % 256, (0 ||| (f6 <<< 0)) % 256]
      f6 7 0 (0) rfl rfl r13.1 r13.2 rfl (R6 x7 t7 ms).1 rfl rfl rfl]
    rw [ima_encode_stereo_step 1 2 14 15 _ _ 0 s14 _
      [((0 ||| (e0 <<< 0)) % 256 ||| (e1 <<< 4)) % 256, ((0 ||| (e2 <<< 0)) % 256 ||| (e3 <<< 4)) % 256, ((0 ||| (e4 <<< 0)) % 256 ||| (e5 <<< 4)) % 256, (0 ||| (e6 <<< 0)) % 256, ((0 ||| (f0 <<< 0)) % 256 ||| (f1 <<< 4)) % 256, ((0 ||| (f2 <<< 0)) % 256 ||| (f3 <<< 4)) % 256, ((0 ||| (f4 <<< 0)) % 256 ||| (f5 <<< 4)) % 256, (0 ||| (f6 <<< 0)) % 256]
      [((0 ||| (e0 <<< 0)) % 256 ||| (e1 <<< 4)) % 256, ((0 ||| (e2 <<< 0)) % 256 ||| (e3 <<< 4)) % 256, ((0 ||| (e4 <<< 0)) % 256 ||| (e5 <<< 4)) % 256, ((0 ||| (e6 <<< 0)) % 256 ||| (e7 <<< 4)) % 256, ((0 ||| (f0 <<< 0)) % 256 ||| (f1 <<< 4)) % 256, ((0 ||| (f2 <<< 0)) % 256 ||| (f3 <<< 4)) % 256, ((0 ||| (f4 <<< 0)) % 256 ||| (f5 <<< 4)) % 256, (0 ||| (f6 <<< 0)) % 256]
      e7 3 4 ((0 ||| (e6 <<< 0)) % 256) rfl rfl r14.1 r14.2 rfl (L7 y7 u7 ms).1 rfl rfl rfl]
    rw [ima_encode_stereo_step 0 1 15 16 _ _ 1 s15 _
      [((0 ||| (e0 <<< 0)) % 256 ||| (e1 <<< 4)) % 256, ((0 ||| (e2 <<< 0)) % 256 ||| (e3 <<< 4)) % 256, ((0 ||| (e4 <<< 0)) % 256 ||| (e5 <<< 4)) % 256, ((0 ||| (e6 <<< 0)) % 256 ||| (e7 <<< 4)) % 256, ((0 ||| (f0 <<< 0)) % 256 ||| (f1 <<< 4)) % 256, ((0 ||| (f2 <<< 0)) % 256 ||| (f3 <<< 4)) % 256, ((0 ||| (f4 <<< 0)) % 256 ||| (f5 <<< 4)) % 256, (0 ||| (f6 <<< 0)) % 256]
      [((0 ||| (e0 <<< 0)) % 256 ||| (e1 <<< 4)) % 256, ((0 ||| (e2 <<< 0)) % 256 ||| (e3 <<< 4)) % 256, ((0 ||| (e4 <<< 0)) % 256 ||| (e5 <<< 4)) % 256, ((0 ||| (e6 <<< 0)) % 256 ||| (e7 <<< 4)) % 256, ((0 ||| (f0 <<< 0)) % 256 ||| (f1 <<< 4)) % 256, ((0 ||| (f2 <<< 0)) % 256 ||| (f3 <<< 4)) % 256, ((0 ||| (f4 <<< 0)) % 256 ||| (f5 <<< 4)) % 256, ((0 ||| (f6 <<< 0)) % 256 ||| (f7 <<< 4)) % 256]
      f7 7 4 ((0 ||| (f6 <<< 0)) % 256) rfl rfl r15.1 r15.2 rfl (R7 x8 t8 ms).1 rfl rfl rfl]
    simp only [ima_encode_stereo_samples]
  · have T16 : ima_encode_stereo_trace { ima := { last_sample := (x8, y8), last_step := (t8, u8) }, ms := ms } 16 [] =
        some ({ ima := { last_sample := (x8, y8), last_step := (t8, u8) }, ms := ms }, []) := rfl
    have T15 := ima_encode_stereo_trace_step 15 16 _ _ _ 1 s15 y8 _ _ f7 rfl rfl
      (R7 x8 t8 ms).1 rfl T16
    have T14 := ima_encode_stereo_trace_step 14 15 _ _ _ 0 s14 x8 _ _ e7 rfl rfl
      (L7 y7 u7 ms).1 rfl T15
    have T13 := ima_encode_stereo_trace_step 13 14 _ _ _ 1 s13 y7 _ _ f6 rfl rfl
      (R6 x7 t7 ms).1 rfl T14
    have T12 := ima_encode_stereo_trace_step 12 13 _ _ _ 0 s12 x7 _ _ e6 rfl rfl
      (L6 y6 u6 ms).1 rfl T13
    have T11 := ima_encode_stereo_trace_step 11 12 _ _ _ 1 s11 y6 _ _ f5 rfl rfl
      (R5 x6 t6 ms).1 rfl T12
    have T10 := ima_encode_stereo_trace_step 10 11 _ _ _ 0 s10 x6 _ _ e5 rfl rfl
      (L5 y5 u5 ms).1 rfl T11
    have T9 := ima_encode_stereo_trace_step 9 10 _ _ _ 1 s9 y5 _ _ f4 rfl rfl
      (R4 x5 t5 ms).1 rfl T10
    have T8 := ima_encode_stereo_trace_step 8 9 _ _ _ 0 s8 x5 _ _ e4 rfl rfl
      (L4 y4 u4 ms).1 rfl T9
    have T7 := ima_encode_stereo_trace_step 7 8 _ _ _ 1 s7 y4 _ _ f3 rfl rfl
      (R3 x4 t4 ms).1 rfl T8
    have T6 := ima_encode_stereo_trace_step 6 7 _ _ _ 0 s6 x4 _ _ e3 rfl rfl
      (L3 y3 u3 ms).1 rfl T7
    have T5 := ima_encode_stereo_trace_step 5 6 _ _ _ 1 s5 y3 _ _ f2 rfl rfl
      (R2 x3 t3 ms).1 rfl T6
    have T4 := ima_encode_stereo_trace_step 4 5 _ _ _ 0 s4 x3 _ _ e2 rfl rfl
      (L2 y2 u2 ms).1 rfl T5
    have T3 := ima_encode_stereo_trace_step 3 4 _ _ _ 1 s3 y2 _ _ f1 rfl rfl
      (R1 x2 t2 ms).1 rfl T4
    have T2 := ima_encode_stereo_trace_step 2 3 _ _ _ 0 s2 x2 _ _ e1 rfl rfl
      (L1 y1 u1 ms).1 rfl T3
    have T1 := ima_encode_stereo_trace_step 1 2 _ _ _ 1 s1 y1 _ _ f0 rfl rfl
      (R0 x1 t1 ms).1 rfl T2
    have T0 := ima_encode_stereo_trace_step 0 1 _ _ _ 0 s0 x1 _ _ e0 rfl rfl
      (L0 y0 u0 ms).1 rfl T1
    exact T0
  · simp only [List.cons_append, List.nil_append]
    rw [hv0]
    rw [ima_decode_stereo_step 7 8 0 1 0 1 4 5 _ _ _ 0 _ e0 e1 (toUINT16 x1) (toUINT16 x2) _
      [0, 0, 0, 0, 0, 0, 0, 0, 0, 0, 0, 0, 0, 0, 0, 0, 0, 0, 0, 0, 0, 0, 0, 0, 0, 0, 0, 0, 0, 0, 0, 0]
      [toBYTE (toUINT16 x1 % 256), toBYTE (toUINT16 x1 / 256), 0, 0, toBYTE (toUINT16 x2 % 256), toBYTE (toUINT16 x2 / 256), 0, 0, 0, 0, 0, 0, 0, 0, 0, 0, 0, 0, 0, 0, 0, 0, 0, 0, 0, 0, 0, 0, 0, 0, 0, 0]
      rfl rfl rfl rfl rfl rfl rfl (ima_stereo_pack e0 e1 he0 he1).1 (ima_stereo_pack e0 e1 he0 he1).2
      (L0 y0 u0 ms).2 (L1 y0 u0 ms).2 rfl]
    rw [ima_decode_stereo_step 6 7 1 2 8 9 12 13 _ _ _ 0 _ e2 e3 (toUINT16 x3) (toUINT16 x4) _
      [toBYTE (toUINT16 x1 % 256), toBYTE (toUINT16 x1 / 256), 0, 0, toBYTE (toUINT16 x2 % 256), toBYTE (toUINT16 x2 / 256), 0, 0, 0, 0, 0, 0, 0, 0, 0, 0, 0, 0, 0, 0, 0, 0, 0, 0, 0, 0, 0, 0, 0, 0, 0, 0]
      [toBYTE (toUINT16 x1 % 256), toBYTE (toUINT16 x1 / 256), 0, 0, toBYTE (toUINT16 x2 % 256), toBYTE (toUINT16 x2 / 256), 0, 0, toBYTE (toUINT16 x3 % 256), toBYTE (toUINT16 x3 / 256), 0, 0, toBYTE (toUINT16 x4 % 256), toBYTE (toUINT16 x4 / 256), 0, 0, 0, 0, 0, 0, 0, 0, 0, 0, 0, 0, 0, 0, 0, 0, 0, 0]
      rfl rfl rfl rfl rfl rfl rfl (ima_stereo_pack e2 e3 he2 he3).1 (ima_stereo_pack e2 e3 he2 he3).2
      (L2 y0 u0 ms).2 (L3 y0 u0 ms).2 rfl]
    rw [ima_decode_stereo_step 5 6 2 3 16 17 20 21 _ _ _ 0 _ e4 e5 (toUINT16 x5) (toUINT16 x6) _
      [toBYTE (toUINT16 x1 % 256), toBYTE (toUINT16 x1 / 256), 0, 0, toBYTE (toUINT16 x2 % 256), toBYTE (toUINT16 x2 / 256), 0, 0, toBYTE (toUINT16 x3 % 256), toBYTE (toUINT16 x3 / 256), 0, 0, toBYTE (toUINT16 x4 % 256), toBYTE (toUINT16 x4 / 256), 0, 0, 0, 0, 0, 0, 0, 0, 0, 0, 0, 0, 0, 0, 0, 0, 0, 0]
      [toBYTE (toUINT16 x1 % 256), toBYTE (toUINT16 x1 / 256), 0, 0, toBYTE (toUINT16 x2 % 256), toBYTE (toUINT16 x2 / 256), 0, 0, toBYTE (toUINT16 x3 % 256), toBYTE (toUINT16 x3 / 256), 0, 0, toBYTE (toUINT16 x4 % 256), toBYTE (toUINT16 x4 / 256), 0, 0, toBYTE (toUINT16 x5 % 256), toBYTE (toUINT16 x5 / 256), 0, 0, toBYTE (toUINT16 x6 % 256), toBYTE (toUINT16 x6 / 256), 0, 0, 0, 0, 0, 0, 0, 0, 0, 0]
      rfl rfl rfl rfl rfl rfl rfl (ima_stereo_pack e4 e5 he4 he5).1 (ima_stereo_pack e4 e5 he4 he5).2
      (L4 y0 u0 ms).2 (L5 y0 u0 ms).2 rfl]
    rw [ima_decode_stereo_step 4 5 3 4 24 25 28 29 _ _ _ 0 _ e6 e7 (toUINT16 x7) (toUINT16 x8) _
      [toBYTE (toUINT16 x1 % 256), toBYTE (toUINT16 x1 / 256), 0, 0, toBYTE (toUINT16 x2 % 256), toBYTE (toUINT16 x2 / 256), 0, 0, toBYTE (toUINT16 x3 % 256), toBYTE (toUINT16 x3 / 256), 0, 0, toBYTE (toUINT16 x4 % 256), toBYTE (toUINT16 x4 / 256), 0, 0, toBYTE (toUINT16 x5 % 256), toBYTE (toUINT16 x5 / 256), 0, 0, toBYTE (toUINT16 x6 % 256), toBYTE (toUINT16 x6 / 256), 0, 0, 0, 0, 0, 0, 0, 0, 0, 0]
      [toBYTE (toUINT16 x1 % 256), toBYTE (toUINT16 x1 / 256), 0, 0, toBYTE (toUINT16 x2 % 256), toBYTE (toUINT16 x2 / 256), 0, 0, toBYTE (toUINT16 x3 % 256), toBYTE (toUINT16 x3 / 256), 0, 0, toBYTE (toUINT16 x4 % 256), toBYTE (toUINT16 x4 / 256), 0, 0, toBYTE (toUINT16 x5 % 256), toBYTE (toUINT16 x5 / 256), 0, 0, toBYTE (toUINT16 x6 % 256), toBYTE (toUINT16 x6 / 256), 0, 0, toBYTE (toUINT16 x7 % 256), toBYTE (toUINT16 x7 / 256), 0, 0, toBYTE (toUINT16 x8 % 256), toBYTE (toUINT16 x8 / 256), 0, 0]
      rfl rfl rfl rfl rfl rfl rfl (ima_stereo_pack e6 e7 he6 he7).1 (ima_stereo_pack e6 e7 he6 he7).2
      (L6 y0 u0 ms).2 (L7 y0 u0 ms).2 rfl]
    rw [ima_decode_stereo_step 3 4 4 5 2 3 6 7 _ _ _ 1 _ f0 f1 (toUINT16 y1) (toUINT16 y2) _
      [toBYTE (toUINT16 x1 % 256), toBYTE (toUINT16 x1 / 256), 0, 0, toBYTE (toUINT16 x2 % 256), toBYTE (toUINT16 x2 / 256), 0, 0, toBYTE (toUINT16 x3 % 256), toBYTE (toUINT16 x3 / 256), 0, 0, toBYTE (toUINT16 x4 % 256), toBYTE (toUINT16 x4 / 256), 0, 0, toBYTE (toUINT16 x5 % 256), toBYTE (toUINT16 x5 / 256), 0, 0, toBYTE (toUINT16 x6 % 256), toBYTE (toUINT16 x6 / 256), 0, 0, toBYTE (toUINT16 x7 % 256), toBYTE (toUINT16 x7 / 256), 0, 0, toBYTE (toUINT16 x8 % 256), toBYTE (toUINT16 x8 / 256), 0, 0]
      [toBYTE (toUINT16 x1 % 256), toBYTE (toUINT16 x1 / 256), toBYTE (toUINT16 y1 % 256), toBYTE (toUINT16 y1 / 256), toBYTE (toUINT16 x2 % 256), toBYTE (toUINT16 x2 / 256), toBYTE (toUINT16 y2 % 256), toBYTE (toUINT16 y2 / 256), toBYTE (toUINT16 x3 % 256), toBYTE (toUINT16 x3 / 256), 0, 0, toBYTE (toUINT16 x4 % 256), toBYTE (toUINT16 x4 / 256), 0, 0, toBYTE (toUINT16 x5 % 256), toBYTE (toUINT16 x5 / 256), 0, 0, toBYTE (toUINT16 x6 % 256), toBYTE (toUINT16 x6 / 256), 0, 0, toBYTE (toUINT16 x7 % 256), toBYTE (toUINT16 x7 / 256), 0, 0, toBYTE (toUINT16 x8 % 256), toBYTE (toUINT16 x8 / 256), 0, 0]
      rfl rfl rfl rfl rfl rfl rfl (ima_stereo_pack f0 f1 hf0 hf1).1 (ima_stereo_pack f0 f1 hf0 hf1).2
      (R0 x8 t8 ms).2 (R1 x8 t8 ms).2 rfl]
    rw [ima_decode_stereo_step 2 3 5 6 10 11 14 15 _ _ _ 1 _ f2 f3 (toUINT16 y3) (toUINT16 y4) _
      [toBYTE (toUINT16 x1 % 256), toBYTE (toUINT16 x1 / 256), toBYTE (toUINT16 y1 % 256), toBYTE (toUINT16 y1 / 256), toBYTE (toUINT16 x2 % 256), toBYTE (toUINT16 x2 / 256), toBYTE (toUINT16 y2 % 256), toBYTE (toUINT16 y2 / 256), toBYTE (toUINT16 x3 % 256), toBYTE (toUINT16 x3 / 256), 0, 0, toBYTE (toUINT16 x4 % 256), toBYTE (toUINT16 x4 / 256), 0, 0, toBYTE (toUINT16 x5 % 256), toBYTE (toUINT16 x5 / 256), 0, 0, toBYTE (toUINT16 x6 % 256), toBYTE (toUINT16 x6 / 256), 0, 0, toBYTE (toUINT16 x7 % 256), toBYTE (toUINT16 x7 / 256), 0, 0, toBYTE (toUINT16 x8 % 256), toBYTE (toUINT16 x8 / 256), 0, 0]
      [toBYTE (toUINT16 x1 % 256), toBYTE (toUINT16 x1 / 256), toBYTE (toUINT16 y1 % 256), toBYTE (toUINT16 y1 / 256), toBYTE (toUINT16 x2 % 256), toBYTE (toUINT16 x2 / 256), toBYTE (toUINT16 y2 % 256), toBYTE (toUINT16 y2 / 256), toBYTE (toUINT16 x3 % 256), toBYTE (toUINT16 x3 / 256), toBYTE (toUINT16 y3 % 256), toBYTE (toUINT16 y3 / 256), toBYTE (toUINT16 x4 % 256), toBYTE (toUINT16 x4 / 256), toBYTE (toUINT16 y4 % 256), toBYTE (toUINT16 y4 / 256), toBYTE (toUINT16 x5 % 256), toBYTE (toUINT16 x5 / 256), 0, 0, toBYTE (toUINT16 x6 % 256), toBYTE (toUINT16 x6 / 256), 0, 0, toBYTE (toUINT16 x7 % 256), toBYTE (toUINT16 x7 / 256), 0, 0, toBYTE (toUINT16 x8 % 256), toBYTE (toUINT16 x8 / 256), 0, 0]
      rfl rfl rfl rfl rfl rfl rfl (ima_stereo_pack f2 f3 hf2 hf3).1 (ima_stereo_pack f2 f3 hf2 hf3).2
      (R2 x8 t8 ms).2 (R3 x8 t8 ms).2 rfl]
    rw [ima_decode_stereo_step 1 2 6 7 18 19 22 23 _ _ _ 1 _ f4 f5 (toUINT16 y5) (toUINT16 y6) _
      [toBYTE (toUINT16 x1 % 256), toBYTE (toUINT16 x1 / 256), toBYTE (toUINT16 y1 % 256), toBYTE (toUINT16 y1 / 256), toBYTE (toUINT16 x2 % 256), toBYTE (toUINT16 x2 / 256), toBYTE (toUINT16 y2 % 256), toBYTE (toUINT16 y2 / 256), toBYTE (toUINT16 x3 % 256), toBYTE (toUINT16 x3 / 256), toBYTE (toUINT16 y3 % 256), toBYTE (toUINT16 y3 / 256), toBYTE (toUINT16 x4 % 256), toBYTE (toUINT16 x4 / 256), toBYTE (toUINT16 y4 % 256), toBYTE (toUINT16 y4 / 256), toBYTE (toUINT16 x5 % 256), toBYTE (toUINT16 x5 / 256), 0, 0, toBYTE (toUINT16 x6 % 256), toBYTE (toUINT16 x6 / 256), 0, 0, toBYTE (toUINT16 x7 % 256), toBYTE (toUINT16 x7 / 256), 0, 0, toBYTE (toUINT16 x8 % 256), toBYTE (toUINT16 x8 / 256), 0, 0]
      [toBYTE (toUINT16 x1 % 256), toBYTE (toUINT16 x1 / 256), toBYTE (toUINT16 y1 % 256), toBYTE (toUINT16 y1 / 256), toBYTE (toUINT16 x2 % 256), toBYTE (toUINT16 x2 / 256), toBYTE (toUINT16 y2 % 256), toBYTE (toUINT16 y2 / 256), toBYTE (toUINT16 x3 % 256), toBYTE (toUINT16 x3 / 256), toBYTE (toUINT16 y3 % 256), toBYTE (toUINT16 y3 / 256), toBYTE (toUINT16 x4 % 256), toBYTE (toUINT16 x4 / 256), toBYTE (toUINT16 y4 % 256), toBYTE (toUINT16 y4 / 256), toBYTE (toUINT16 x5 % 256), toBYTE (toUINT16 x5 / 256), toBYTE (toUINT16 y5 % 256), toBYTE (toUINT16 y5 / 256), toBYTE (toUINT16 x6 % 256), toBYTE (toUINT16 x6 / 256), toBYTE (toUINT16 y6 % 256), toBYTE (toUINT16 y6 / 256), toBYTE (toUINT16 x7 % 256), toBYTE (toUINT16 x7 / 256), 0, 0, toBYTE (toUINT16 x8 % 256), toBYTE (toUINT16 x8 / 256), 0, 0]
      rfl rfl rfl rfl rfl rfl rfl (ima_stereo_pack f4 f5 hf4 hf5).1 (ima_stereo_pack f4 f5 hf4 hf5).2
      (R4 x8 t8 ms).2 (R5 x8 t8 ms).2 rfl]
    rw [ima_decode_stereo_step 0 1 7 8 26 27 30 31 _ _ _ 1 _ f6 f7 (toUINT16 y7) (toUINT16 y8) _
      [toBYTE (toUINT16 x1 % 256), toBYTE (toUINT16 x1 / 256), toBYTE (toUINT16 y1 % 256), toBYTE (toUINT16 y1 / 256), toBYTE (toUINT16 x2 % 256), toBYTE (toUINT16 x2 / 256), toBYTE (toUINT16 y2 % 256), toBYTE (toUINT16 y2 / 256), toBYTE (toUINT16 x3 % 256), toBYTE (toUINT16 x3 / 256), toBYTE (toUINT16 y3 % 256), toBYTE (toUINT16 y3 / 256), toBYTE (toUINT16 x4 % 256), toBYTE (toUINT16 x4 / 256), toBYTE (toUINT16 y4 % 256), toBYTE (toUINT16 y4 / 256), toBYTE (toUINT16 x5 % 256), toBYTE (toUINT16 x5 / 256), toBYTE (toUINT16 y5 % 256), toBYTE (toUINT16 y5 / 256), toBYTE (toUINT16 x6 % 256), toBYTE (toUINT16 x6 / 256), toBYTE (toUINT16 y6 % 256), toBYTE (toUINT16 y6 / 256), toBYTE (toUINT16 x7 % 256), toBYTE (toUINT16 x7 / 256), 0, 0, toBYTE (toUINT16 x8 % 256), toBYTE (toUINT16 x8 / 256), 0, 0]
      [toBYTE (toUINT16 x1 % 256), toBYTE (toUINT16 x1 / 256), toBYTE (toUINT16 y1 % 256), toBYTE (toUINT16 y1 / 256), toBYTE (toUINT16 x2 % 256), toBYTE (toUINT16 x2 / 256), toBYTE (toUINT16 y2 % 256), toBYTE (toUINT16 y2 / 256), toBYTE (toUINT16 x3 % 256), toBYTE (toUINT16 x3 / 256), toBYTE (toUINT16 y3 % 256), toBYTE (toUINT16 y3 / 256), toBYTE (toUINT16 x4 % 256), toBYTE (toUINT16 x4 / 256), toBYTE (toUINT16 y4 % 256), toBYTE (toUINT16 y4 / 256), toBYTE (toUINT16 x5 % 256), toBYTE (toUINT16 x5 / 256), toBYTE (toUINT16 y5 % 256), toBYTE (toUINT16 y5 / 256), toBYTE (toUINT16 x6 % 256), toBYTE (toUINT16 x6 / 256), toBYTE (toUINT16 y6 % 256), toBYTE (toUINT16 y6 / 256), toBYTE (toUINT16 x7 % 256), toBYTE (toUINT16 x7 / 256), toBYTE (toUINT16 y7 % 256), toBYTE (toUINT16 y7 / 256), toBYTE (toUINT16 x8 % 256), toBYTE (toUINT16 x8 / 256), toBYTE (toUINT16 y8 % 256), toBYTE (toUINT16 y8 / 256)]
      rfl rfl rfl rfl rfl rfl rfl (ima_stereo_pack f6 f7 hf6 hf7).1 (ima_stereo_pack f6 f7 hf6 hf7).2
      (R6 x8 t8 ms).2 (R7 x8 t8 ms).2 rfl]
    simp only [ima_decode_stereo_bytes, decoded_low_byte, decoded_high_byte]
    rfl

theorem ima_stereo_map_inverted_witness :
    ∃ post win recon,
      ima_encode_stereo_samples 16 0 ima_stereo_state (pcm16 ima_stereo_frames ++ [77])
          (List.replicate 8 0) = some (post, [77], win) ∧
      win.length = 8 ∧
      ima_encode_stereo_trace ima_stereo_state 0 ima_stereo_frames = some (post, recon) ∧
      recon.length = 16 ∧
      ima_decode_stereo_bytes 8 0 ima_stereo_state (win ++ [5]) (List.replicate 32 0) =
        some (post, [5], pcm16 recon) :=
  ima_stereo_map_inverted ima_stereo_state ima_stereo_frames [77] [5] (by decide) (by decide)
    (by decide) (by decide)

/-! ## MS ADPCM: the encoder's delta fits the header field -/

theorem ms_errordelta_sign (err d : Int) (hd : 16 ≤ d) (h1 : err ≤ 2147483647) :
    (0 ≤ err → 0 ≤ ms_encode_errordelta err d) ∧
    (err < 0 → ms_encode_errordelta err d ≤ 0) := by
  constructor
  · intro h0
    obtain ⟨_, hb⟩ := ms_errordelta_nonneg err d hd h0 h1
    by_contra hq
    have hm : ms_encode_errordelta err d * d ≤ (-1) * d :=
      Int.mul_le_mul_of_nonneg_right (by omega) (by omega)
    omega
  · intro h0
    obtain ⟨hq, _, _⟩ := ms_errordelta_neg err d hd h0
    have : 0 ≤ -err / d := Int.ediv_nonneg (by omega) (by omega)
    omega

/-- The adaptation factor that belongs to a clamped quotient. -/
theorem ms_adaptation_of_nibble (e : Int) (h0 : -8 ≤ e) (h1 : e ≤ 7) :
    ∃ a, ms_adpcm_adaptation_table[toBYTE e &&& 0x0F]? = some a ∧
      (a = 230 ∨ (a = 307 ∧ (e = 4 ∨ e = -4)) ∨ (a = 409 ∧ (e = 5 ∨ e = -5)) ∨
        (a = 512 ∧ (e = 6 ∨ e = -6)) ∨ (a = 614 ∧ (e = 7 ∨ e = -7)) ∨
        (a = 768 ∧ e = -8)) := by
  interval_cases e <;> exact ⟨_, rfl, by decide⟩

/-- The adapted delta stays below 32768 when the old delta is small enough for the
adaptation factor. -/
theorem ms_delta_next_fits (d a bound : Int) (hd0 : 16 ≤ d) (hd1 : d ≤ bound)
    (hcase : (a = 230 ∧ bound = 32767) ∨ (a = 307 ∧ bound = 18724) ∨
      (a = 409 ∧ bound = 14563) ∨ (a = 512 ∧ bound = 11915) ∨ (a = 614 ∧ bound = 10082) ∨
      (a = 768 ∧ bound = 8191)) :
    16 ≤ (if Int.tdiv (toINT32 (d * a)) 256 < 16 then 16 else Int.tdiv (toINT32 (d * a)) 256) ∧
    (if Int.tdiv (toINT32 (d * a)) 256 < 16 then 16 else Int.tdiv (toINT32 (d * a)) 256)
      ≤ 32767 := by
  rcases hcase with ⟨rfl, rfl⟩ | ⟨rfl, rfl⟩ | ⟨rfl, rfl⟩ | ⟨rfl, rfl⟩ | ⟨rfl, rfl⟩ | ⟨rfl, rfl⟩ <;>
  · rw [toINT32_of_range _ (by omega) (by omega), Int.tdiv_eq_ediv (by omega) (by omega)]
    split <;> omega

/-- With predictor 0 the prediction is `sample1`. -/
theorem ms_adpcm_predict_zero (st : ADPCM) (c : Fin 2)
    (hp : Arr2.get st.ms.predictor c = 0)
    (h0 : -32768 ≤ Arr2.get st.ms.sample1 c) (h1 : Arr2.get st.ms.sample1 c ≤ 32767) :
    ms_adpcm_predict st c = some (Arr2.get st.ms.sample1 c) := by
  simp only [ms_adpcm_predict, hp, ms_adpcm_coeffs1, ms_adpcm_coeffs2,
    List.getElem?_cons_zero, bind, Option.bind, pure]
  apply congrArg some
  have e0 : toINT32 (Arr2.get st.ms.sample2 c * 0) = 0 := by rw [Int.mul_zero]; rfl
  rw [e0, Int.add_zero,
    toINT32_of_range (Arr2.get st.ms.sample1 c * 256) (by omega) (by omega),
    toINT32_of_range _ (by omega) (by omega)]
  exact Int.mul_tdiv_cancel _ (by decide)

/-- One sample of the MS encoder keeps predictor 0, the delta in `[16, 32767]` and
`sample1` in the 16-bit range, on both channels. -/
theorem ms_encode_step_inv (st : ADPCM) (s : Int) (c : Fin 2) (hinv : ms_delta_inv st)
    (hs : -32768 ≤ s ∧ s ≤ 32767) :
    ∃ code st', freerdp_dsp_encode_ms_adpcm_sample st s c = some (code, st') ∧ code < 16 ∧
      ms_delta_inv st' := by
  obtain ⟨hpred, d0a, d0b, d1a, d1b, s0a, s0b, s1a, s1b⟩ := hinv
  have hc : c = 0 ∨ c = 1 := by omega
  have hpc : Arr2.get st.ms.predictor c = 0 := by
    rcases hc with rfl | rfl <;> simp [Arr2.get, hpred]
  have hdc : 16 ≤ Arr2.get st.ms.delta c ∧ Arr2.get st.ms.delta c ≤ 32767 := by
    rcases hc with rfl | rfl
    · exact ⟨d0a, d0b⟩
    · exact ⟨d1a, d1b⟩
  have hsc : -32768 ≤ Arr2.get st.ms.sample1 c ∧ Arr2.get st.ms.sample1 c ≤ 32767 := by
    rcases hc with rfl | rfl
    · exact ⟨s0a, s0b⟩
    · exact ⟨s1a, s1b⟩
  have hp := ms_adpcm_predict_zero st c hpc hsc.1 hsc.2
  obtain ⟨a, ha, henc⟩ := freerdp_dsp_encode_ms_adpcm_sample_eq st c s _ hp (by omega)
  have herr : toINT32 (s - Arr2.get st.ms.sample1 c) = s - Arr2.get st.ms.sample1 c :=
    toINT32_of_range _ (by omega) (by omega)
  rw [herr] at ha henc
  obtain ⟨x, hx⟩ : ∃ x, x = Arr2.get st.ms.sample1 c := ⟨_, rfl⟩
  obtain ⟨d, hd⟩ : ∃ d, d = Arr2.get st.ms.delta c := ⟨_, rfl⟩
  rw [← hx] at ha henc hsc
  rw [← hd] at ha henc hdc
  obtain ⟨q, hq⟩ : ∃ q, q = ms_encode_errordelta (s - x) d := ⟨_, rfl⟩
  rw [← hq] at ha henc
  obtain ⟨e0, e1⟩ := ms_clamp_nibble_range q
  obtain ⟨hlt, _⟩ := ms_nibble_of_code _ e0 e1
  obtain ⟨sg0, sg1⟩ := ms_errordelta_sign (s - x) d hdc.1 (by omega)
  rw [← hq] at sg0 sg1
  -- the bound on the old delta that belongs to the code
  have F1 : 1 ≤ ms_clamp_nibble q → 2 * (ms_clamp_nibble q * d) - d < 131070 := by
    intro he
    have hqe : ms_clamp_nibble q ≤ q := by unfold ms_clamp_nibble at he ⊢; split_ifs at he ⊢ <;> omega
    have hpos : 0 ≤ s - x := by
      by_contra hneg
      have := sg1 (by omega)
      omega
    obtain ⟨ha', _⟩ := ms_errordelta_nonneg (s - x) d hdc.1 hpos (by omega)
    rw [← hq] at ha'
    have hm : ms_clamp_nibble q * d ≤ q * d := Int.mul_le_mul_of_nonneg_right hqe (by omega)
    omega
  have F2 : ms_clamp_nibble q ≤ -1 → -(ms_clamp_nibble q * d) ≤ 65535 := by
    intro he
    have hqe : q ≤ ms_clamp_nibble q := by unfold ms_clamp_nibble at he ⊢; split_ifs at he ⊢ <;> omega
    have hneg : s - x < 0 := by
      by_contra hpos
      have := sg0 (by omega)
      omega
    obtain ⟨_, hb', _⟩ := ms_errordelta_neg (s - x) d hdc.1 hneg
    rw [← hq] at hb'
    have hm : q * d ≤ ms_clamp_nibble q * d := Int.mul_le_mul_of_nonneg_right hqe (by omega)
    omega
  obtain ⟨a', ha', hcases⟩ := ms_adaptation_of_nibble (ms_clamp_nibble q) e0 e1
  have haa : a = a' := Option.some.inj (ha.symm.trans ha')
  subst haa
  obtain ⟨bound, hb, hbc⟩ : ∃ bound, d ≤ bound ∧
      ((a = 230 ∧ bound = 32767) ∨ (a = 307 ∧ bound = 18724) ∨
      (a = 409 ∧ bound = 14563) ∨ (a = 512 ∧ bound = 11915) ∨ (a = 614 ∧ bound = 10082) ∨
      (a = 768 ∧ bound = 8191)) := by
    generalize ms_clamp_nibble q = e at F1 F2 hcases
    rcases hcases with h | ⟨h, he | he⟩ | ⟨h, he | he⟩ | ⟨h, he | he⟩ | ⟨h, he | he⟩ | ⟨h, he⟩
    · exact ⟨32767, hdc.2, Or.inl ⟨h, rfl⟩⟩
    · subst he; have := F1 (by decide); exact ⟨18724, by omega, Or.inr (Or.inl ⟨h, rfl⟩)⟩
    · subst he; have := F2 (by decide); exact ⟨18724, by omega, Or.inr (Or.inl ⟨h, rfl⟩)⟩
    · subst he; have := F1 (by decide)
      exact ⟨14563, by omega, Or.inr (Or.inr (Or.inl ⟨h, rfl⟩))⟩
    · subst he; have := F2 (by decide)
      exact ⟨14563, by omega, Or.inr (Or.inr (Or.inl ⟨h, rfl⟩))⟩
    · subst he; have := F1 (by decide)
      exact ⟨11915, by omega, Or.inr (Or.inr (Or.inr (Or.inl ⟨h, rfl⟩)))⟩
    · subst he; have := F2 (by decide)
      exact ⟨11915, by omega, Or.inr (Or.inr (Or.inr (Or.inl ⟨h, rfl⟩)))⟩
    · subst he; have := F1 (by decide)
      exact ⟨10082, by omega, Or.inr (Or.inr (Or.inr (Or.inr (Or.inl ⟨h, rfl⟩))))⟩
    · subst he; have := F2 (by decide)
      exact ⟨10082, by omega, Or.inr (Or.inr (Or.inr (Or.inr (Or.inl ⟨h, rfl⟩))))⟩
    · subst he; have := F2 (by decide)
      exact ⟨8191, by omega, Or.inr (Or.inr (Or.inr (Or.inr (Or.inr ⟨h, rfl⟩))))⟩
  obtain ⟨n0, n1⟩ := ms_delta_next_fits d a bound hdc.1 hb hbc
  have hcl : ∀ z : Int, -32768 ≤ ms_clamp z ∧ ms_clamp z ≤ 32767 := by
    intro z; unfold ms_clamp; split_ifs <;> omega
  obtain ⟨c0, c1⟩ := hcl (toINT32 (x + toINT32 (d * ms_clamp_nibble q)))
  refine ⟨_, _, henc, hlt, ?_⟩
  rw [hd] at n0 n1
  simp only [ms_delta_inv, ms_adpcm_update, Arr2.get_set_ite]
  rcases hc with rfl | rfl
  · simp only [if_true, show ((1 : Fin 2) = 0) = False from by decide, if_false]
    exact ⟨hpred, n0, n1, d1a, d1b, c0, c1, s1a, s1b⟩
  · simp only [if_true, show ((0 : Fin 2) = 1) = False from by decide, if_false]
    exact ⟨hpred, d0a, d0b, n0, n1, s0a, s0b, c0, c1⟩

theorem ms_encode_loop_nil (B ch fuel : Nat) (st : ADPCM) (dst : List Nat) :
    ms_encode_loop B ch fuel st [] dst = some (st, dst) := by
  cases fuel <;> simp [ms_encode_loop]

/-- Data rounds of the MS encoder loop inside a block, followed by more input: `n` data
bytes are stored for `2 * n` samples and the state keeps fitting the header. -/
theorem ms_encode_data_cont (B ch : Nat) :
    ∀ (n : Nat) (st : ADPCM) (S : List Int) (dst : List Nat) (q r : Nat),
      S.length = 2 * n → (∀ s ∈ S, -32768 ≤ s ∧ s ≤ 32767) → ms_delta_inv st →
      dst.length = q * B + r → (n = 0 ∨ (0 < r ∧ r + n ≤ B)) →
      ∃ st' data, (∀ (rest : List Nat) (fuel : Nat),
          ms_encode_loop B ch (fuel + n) st (pcm16 S ++ rest) dst =
          ms_encode_loop B ch fuel st' rest (dst ++ data)) ∧
        data.length = n ∧ ms_delta_inv st' := by
  intro n
  induction n with
  | zero =>
    intro st S dst q r hS _ hinv _ _
    have hS' : S = [] := List.length_eq_zero.mp (by omega)
    subst hS'
    exact ⟨st, [], fun rest fuel => by simp [pcm16_nil], rfl, hinv⟩
  | succ n ih =>
    intro st S dst q r hS hrange hinv hlen hr
    obtain ⟨s1, S1, rfl⟩ := List.exists_cons_of_length_pos (l := S) (by omega)
    obtain ⟨s2, S', rfl⟩ := List.exists_cons_of_length_pos (l := S1)
      (by simp only [List.length_cons] at hS; omega)
    have hs1 := hrange s1 (by simp)
    have hs2 := hrange s2 (by simp)
    have hrange' : ∀ s ∈ S', -32768 ≤ s ∧ s ≤ 32767 := fun s hs => hrange s (by simp [hs])
    have hS' : S'.length = 2 * n := by simp only [List.length_cons] at hS; omega
    have hr' : 0 < r ∧ r + (n + 1) ≤ B := by
      rcases hr with h | h
      · omega
      · exact h
    have hB : B ≠ 0 := by omega
    have hnb : ¬ dst.length % B = 0 := by
      rw [hlen, Nat.add_comm, Nat.add_mul_mod_self_right, Nat.mod_eq_of_lt (by omega)]
      omega
    obtain ⟨e1, st1, h1, _, inv1⟩ := ms_encode_step_inv st s1 0 hinv hs1
    obtain ⟨e2, st2, h2, _, inv2⟩ :=
      ms_encode_step_inv st1 s2 (if ch > 1 then 1 else 0) inv1 hs2
    obtain ⟨stF, data, hloop, hdl, hinvF⟩ :=
      ih st2 S' (dst ++ [] ++ [((e1 <<< 4) % 256 + e2) % 256]) q (r + 1) hS' hrange' inv2
        (by simp only [List.length_append, List.length_cons, List.length_nil]; omega)
        (by omega)
    refine ⟨stF, [((e1 <<< 4) % 256 + e2) % 256] ++ data, fun rest fuel => ?_,
      by simp [hdl], hinvF⟩
    have hstep := ms_encode_loop_step B ch (fuel + n) hB st st st1 st2
      (pcm16 (s1 :: s2 :: S') ++ rest) [] dst (pcm16 S' ++ rest) s1 s2 e1 e2
      (by simp [pcm16_cons, bytesINT16])
      (by rw [if_neg hnb, pcm16_cons, pcm16_cons]; simp only [List.append_assoc])
      hs1 hs2 h1 h2
    rw [show fuel + (n + 1) = fuel + n + 1 from rfl, hstep, hloop rest fuel]
    simp

/-- One whole block of the mono MS encoder, followed by more input: the block is the
7-byte header, which carries the delta of the state at the start of the block, and
`B - 7` data bytes. -/
theorem ms_encode_block_mono (B ch : Nat) (hch : ¬ ch > 1) (hB : 8 ≤ B) (st : ADPCM)
    (b : List Int) (dst : List Nat) (q : Nat)
    (hb : b.length = 2 * (B - 6)) (hrange : ∀ s ∈ b, -32768 ≤ s ∧ s ≤ 32767)
    (hinv : ms_delta_inv st) (hlen : dst.length = q * B) :
    ∃ st' blk, (∀ (rest : List Nat) (fuel : Nat),
        ms_encode_loop B ch (fuel + (B - 7)) st (pcm16 b ++ rest) dst =
        ms_encode_loop B ch fuel st' rest (dst ++ blk)) ∧
      blk.length = B ∧ ms_delta_inv st' ∧ ms_header_carries ch blk st := by
  obtain ⟨s0, b1, rfl⟩ := List.exists_cons_of_length_pos (l := b) (by omega)
  obtain ⟨s1, b2, rfl⟩ := List.exists_cons_of_length_pos (l := b1)
    (by simp only [List.length_cons] at hb; omega)
  obtain ⟨a, b3, rfl⟩ := List.exists_cons_of_length_pos (l := b2)
    (by simp only [List.length_cons] at hb; omega)
  obtain ⟨c, S, rfl⟩ := List.exists_cons_of_length_pos (l := b3)
    (by simp only [List.length_cons] at hb; omega)
  have hS : S.length = 2 * (B - 8) := by simp only [List.length_cons] at hb; omega
  have h0 := hrange s0 (by simp)
  have h1 := hrange s1 (by simp)
  have ha := hrange a (by simp)
  have hc := hrange c (by simp)
  have hrange' : ∀ s ∈ S, -32768 ≤ s ∧ s ≤ 32767 := fun s hs => hrange s (by simp [hs])
  obtain ⟨hpred, d0a, d0b, d1a, d1b, s0a, s0b, s1a, s1b⟩ := hinv
  have invh : ms_delta_inv { st with ms := { st.ms with
      sample1 := Arr2.set st.ms.sample1 0 s1
      sample2 := Arr2.set st.ms.sample2 0 s0 } } := by
    simp only [ms_delta_inv, Arr2.get_set_ite, if_true,
      show ((1 : Fin 2) = 0) = False from by decide, if_false]
    exact ⟨hpred, d0a, d0b, d1a, d1b, h1.1, h1.2, s1a, s1b⟩
  obtain ⟨e1, st1, hs1, _, inv1⟩ := ms_encode_step_inv _ a 0 invh ha
  obtain ⟨e2, st2, hs2, _, inv2⟩ :=
    ms_encode_step_inv st1 c (if ch > 1 then 1 else 0) inv1 hc
  have hmod : dst.length % B = 0 := by rw [hlen]; exact Nat.mul_mod_left _ _
  obtain ⟨stF, data, hloop, hdl, hinvF⟩ := ms_encode_data_cont B ch (B - 8) st2 S
    (dst ++ ([Arr2.get st.ms.predictor 0 % 256] ++ bytesINT16 (Arr2.get st.ms.delta 0) ++
      bytesINT16 s1 ++ bytesINT16 s0) ++ [((e1 <<< 4) % 256 + e2) % 256]) q 8 hS hrange' inv2
    (by simp [bytesINT16, hlen]) (by omega)
  refine ⟨stF, ([Arr2.get st.ms.predictor 0 % 256] ++ bytesINT16 (Arr2.get st.ms.delta 0) ++
      bytesINT16 s1 ++ bytesINT16 s0) ++ [((e1 <<< 4) % 256 + e2) % 256] ++ data,
    fun rest fuel => ?_, ?_, hinvF, ?_⟩
  · have hhdr := ms_encode_header_mono_eq st s0 s1
      (bytesINT16 a ++ (bytesINT16 c ++ (pcm16 S ++ rest))) h0 h1
    have hsrc : pcm16 (s0 :: s1 :: a :: c :: S) ++ rest =
        bytesINT16 s0 ++ (bytesINT16 s1 ++
          (bytesINT16 a ++ (bytesINT16 c ++ (pcm16 S ++ rest)))) := by
      simp only [pcm16_cons, List.append_assoc]
    have hstep := ms_encode_loop_step B ch (fuel + (B - 8)) (by omega) st _ st1 st2
      (pcm16 (s0 :: s1 :: a :: c :: S) ++ rest) _ dst (pcm16 S ++ rest) a c e1 e2
      (by simp [pcm16_cons, bytesINT16])
      (by rw [if_pos hmod, if_neg hch, hsrc]; exact hhdr) ha hc hs1 hs2
    rw [show fuel + (B - 7) = fuel + (B - 8) + 1 by omega, hstep, hloop rest fuel]
    simp only [List.append_assoc]
  · simp [bytesINT16, hdl]; omega
  · simp only [ms_header_carries, if_neg hch]
    have := readINT16_append_bytes [Arr2.get st.ms.predictor 0 % 256] (Arr2.get st.ms.delta 0)
      (bytesINT16 s1 ++ bytesINT16 s0 ++ [((e1 <<< 4) % 256 + e2) % 256] ++ data) 1 rfl
      (by omega) (by omega)
    simpa only [List.append_assoc] using this

/-- One whole block of the stereo MS encoder, followed by more input: the block is the
14-byte header, which carries the deltas of the state at the start of the block, and
`B - 14` data bytes. -/
theorem ms_encode_block_stereo (B ch : Nat) (hch : ch > 1) (hB : 15 ≤ B) (st : ADPCM)
    (b : List Int) (dst : List Nat) (q : Nat)
    (hb : b.length = 2 * (B - 12)) (hrange : ∀ s ∈ b, -32768 ≤ s ∧ s ≤ 32767)
    (hinv : ms_delta_inv st) (hlen : dst.length = q * B) :
    ∃ st' blk, (∀ (rest : List Nat) (fuel : Nat),
        ms_encode_loop B ch (fuel + (B - 14)) st (pcm16 b ++ rest) dst =
        ms_encode_loop B ch fuel st' rest (dst ++ blk)) ∧
      blk.length = B ∧ ms_delta_inv st' ∧ ms_header_carries ch blk st := by
  obtain ⟨a0, b1, rfl⟩ := List.exists_cons_of_length_pos (l := b) (by omega)
  obtain ⟨a1, b2, rfl⟩ := List.exists_cons_of_length_pos (l := b1)
    (by simp only [List.length_cons] at hb; omega)
  obtain ⟨a2, b3, rfl⟩ := List.exists_cons_of_length_pos (l := b2)
    (by simp only [List.length_cons] at hb; omega)
  obtain ⟨a3, b4, rfl⟩ := List.exists_cons_of_length_pos (l := b3)
    (by simp only [List.length_cons] at hb; omega)
  obtain ⟨a, b5, rfl⟩ := List.exists_cons_of_length_pos (l := b4)
    (by simp only [List.length_cons] at hb; omega)
  obtain ⟨c, S, rfl⟩ := List.exists_cons_of_length_pos (l := b5)
    (by simp only [List.length_cons] at hb; omega)
  have hS : S.length = 2 * (B - 15) := by simp only [List.length_cons] at hb; omega
  have h0 := hrange a0 (by simp)
  have h1 := hrange a1 (by simp)
  have h2 := hrange a2 (by simp)
  have h3 := hrange a3 (by simp)
  have ha := hrange a (by simp)
  have hc := hrange c (by simp)
  have hrange' : ∀ s ∈ S, -32768 ≤ s ∧ s ≤ 32767 := fun s hs => hrange s (by simp [hs])
  obtain ⟨hpred, d0a, d0b, d1a, d1b, s0a, s0b, s1a, s1b⟩ := hinv
  have invh : ms_delta_inv { st with ms := { st.ms with
      sample1 := (a2, a3), sample2 := (a0, a1) } } := by
    simp only [ms_delta_inv, Arr2.get, if_true,
      show ((1 : Fin 2) = 0) = False from by decide, if_false]
    exact ⟨hpred, d0a, d0b, d1a, d1b, h2.1, h2.2, h3.1, h3.2⟩
  obtain ⟨e1, st1, hs1, _, inv1⟩ := ms_encode_step_inv _ a 0 invh ha
  obtain ⟨e2, st2, hs2, _, inv2⟩ :=
    ms_encode_step_inv st1 c (if ch > 1 then 1 else 0) inv1 hc
  have hmod : dst.length % B = 0 := by rw [hlen]; exact Nat.mul_mod_left _ _
  obtain ⟨stF, data, hloop, hdl, hinvF⟩ := ms_encode_data_cont B ch (B - 15) st2 S
    (dst ++ ([Arr2.get st.ms.predictor 0 % 256, Arr2.get st.ms.predictor 1 % 256] ++
      bytesINT16 (Arr2.get st.ms.delta 0) ++ bytesINT16 (Arr2.get st.ms.delta 1) ++
      bytesINT16 a2 ++ bytesINT16 a3 ++ bytesINT16 a0 ++ bytesINT16 a1) ++
      [((e1 <<< 4) % 256 + e2) % 256]) q 15 hS hrange' inv2
    (by simp [bytesINT16, hlen]) (by omega)
  refine ⟨stF, ([Arr2.get st.ms.predictor 0 % 256, Arr2.get st.ms.predictor 1 % 256] ++
      bytesINT16 (Arr2.get st.ms.delta 0) ++ bytesINT16 (Arr2.get st.ms.delta 1) ++
      bytesINT16 a2 ++ bytesINT16 a3 ++ bytesINT16 a0 ++ bytesINT16 a1) ++
      [((e1 <<< 4) % 256 + e2) % 256] ++ data,
    fun rest fuel => ?_, ?_, hinvF, ?_⟩
  · have hhdr := ms_encode_header_stereo_eq st a0 a1 a2 a3
      (bytesINT16 a ++ (bytesINT16 c ++ (pcm16 S ++ rest))) h0 h1 h2 h3
    have hsrc : pcm16 (a0 :: a1 :: a2 :: a3 :: a :: c :: S) ++ rest =
        bytesINT16 a0 ++ (bytesINT16 a1 ++ (bytesINT16 a2 ++ (bytesINT16 a3 ++
          (bytesINT16 a ++ (bytesINT16 c ++ (pcm16 S ++ rest)))))) := by
      simp only [pcm16_cons, List.append_assoc]
    have hstep := ms_encode_loop_step B ch (fuel + (B - 15)) (by omega) st _ st1 st2
      (pcm16 (a0 :: a1 :: a2 :: a3 :: a :: c :: S) ++ rest) _ dst (pcm16 S ++ rest) a c e1 e2
      (by simp [pcm16_cons, bytesINT16])
      (by rw [if_pos hmod, if_pos hch, hsrc]; exact hhdr) ha hc hs1 hs2
    rw [show fuel + (B - 14) = fuel + (B - 15) + 1 by omega, hstep, hloop rest fuel]
    simp only [List.append_assoc]
  · simp [bytesINT16, hdl]; omega
  · simp only [ms_header_carries, if_pos hch]
    constructor
    · have := readINT16_append_bytes
        [Arr2.get st.ms.predictor 0 % 256, Arr2.get st.ms.predictor 1 % 256]
        (Arr2.get st.ms.delta 0)
        (bytesINT16 (Arr2.get st.ms.delta 1) ++ bytesINT16 a2 ++ bytesINT16 a3 ++
          bytesINT16 a0 ++ bytesINT16 a1 ++ [((e1 <<< 4) % 256 + e2) % 256] ++ data) 2 rfl
        (by omega) (by omega)
      simpa only [List.append_assoc] using this
    · have := readINT16_append_bytes
        ([Arr2.get st.ms.predictor 0 % 256, Arr2.get st.ms.predictor 1 % 256] ++
          bytesINT16 (Arr2.get st.ms.delta 0))
        (Arr2.get st.ms.delta 1)
        (bytesINT16 a2 ++ bytesINT16 a3 ++
          bytesINT16 a0 ++ bytesINT16 a1 ++ [((e1 <<< 4) % 256 + e2) % 256] ++ data) 4 rfl
        (by omega) (by omega)
      simpa only [List.append_assoc] using this

/-- One whole block of the MS encoder, mono or stereo. -/
theorem ms_encode_block (B ch : Nat) (hB : if ch > 1 then 15 ≤ B else 8 ≤ B) (st : ADPCM)
    (b : List Int) (dst : List Nat) (q : Nat)
    (hb : b.length = ms_block_samples B ch) (hrange : ∀ s ∈ b, -32768 ≤ s ∧ s ≤ 32767)
    (hinv : ms_delta_inv st) (hlen : dst.length = q * B) :
    ∃ st' blk, (∀ (rest : List Nat) (fuel : Nat),
        ms_encode_loop B ch (fuel + ms_block_rounds B ch) st (pcm16 b ++ rest) dst =
        ms_encode_loop B ch fuel st' rest (dst ++ blk)) ∧
      blk.length = B ∧ ms_delta_inv st' ∧ ms_header_carries ch blk st := by
  by_cases hch : ch > 1
  · simp only [ms_block_samples, ms_block_rounds, if_pos hch] at hb hB ⊢
    exact ms_encode_block_stereo B ch hch hB st b dst q hb hrange hinv hlen
  · simp only [ms_block_samples, ms_block_rounds, if_neg hch] at hb hB ⊢
    exact ms_encode_block_mono B ch hch hB st b dst q hb hrange hinv hlen

theorem readINT16_append_left (l m : List Nat) (off : Nat) (v : Int)
    (h : readINT16 l off = some v) : readINT16 (l ++ m) off = some v := by
  simp only [readINT16, bind, Option.bind, pure] at h ⊢
  cases h0 : l[off]? with
  | none => simp [h0] at h
  | some lo =>
    cases h1 : l[off + 1]? with
    | none => simp [h0, h1] at h
    | some hi =>
      have e0 : (l ++ m)[off]? = some lo := by
        rw [List.getElem?_append_left (by
          rcases Nat.lt_or_ge off l.length with hlt | hge
          · exact hlt
          · rw [List.getElem?_eq_none hge] at h0; cases h0)]
        exact h0
      have e1 : (l ++ m)[off + 1]? = some hi := by
        rw [List.getElem?_append_left (by
          rcases Nat.lt_or_ge (off + 1) l.length with hlt | hge
          · exact hlt
          · rw [List.getElem?_eq_none hge] at h1; cases h1)]
        exact h1
      simp only [h0, h1] at h
      simp only [e0, e1]
      exact h

theorem ms_header_carries_append (ch : Nat) (blk more : List Nat) (st : ADPCM)
    (h : ms_header_carries ch blk st) : ms_header_carries ch (blk ++ more) st := by
  unfold ms_header_carries at h ⊢
  split_ifs at h ⊢
  · exact ⟨readINT16_append_left _ _ _ _ h.1, readINT16_append_left _ _ _ _ h.2⟩
  · exact readINT16_append_left _ _ _ _ h

/-- Whole blocks of the MS encoder: `n` blocks are stored for `n` blocks of samples, the
state keeps fitting the header, and the header of block `k` carries the deltas of the
state the loop reaches on the first `k` blocks alone. -/
theorem ms_encode_blocks (B ch : Nat) (hB : if ch > 1 then 15 ≤ B else 8 ≤ B) :
    ∀ (n : Nat) (st : ADPCM) (S : List Int) (dst : List Nat) (q : Nat),
      S.length = n * ms_block_samples B ch → (∀ s ∈ S, -32768 ≤ s ∧ s ≤ 32767) →
      ms_delta_inv st → dst.length = q * B →
      ∃ stF out, (∀ (rest : List Nat) (fuel : Nat),
          ms_encode_loop B ch (fuel + n * ms_block_rounds B ch) st (pcm16 S ++ rest) dst =
          ms_encode_loop B ch fuel stF rest (dst ++ out)) ∧
        out.length = n * B ∧ ms_delta_inv stF ∧
        ∀ k, k < n → ∃ stk, ms_delta_inv stk ∧
          (∀ fuel, ms_encode_loop B ch (fuel + k * ms_block_rounds B ch) st
              (pcm16 (S.take (k * ms_block_samples B ch))) dst =
            some (stk, dst ++ out.take (k * B))) ∧
          ms_header_carries ch (out.drop (k * B)) stk := by
  intro n
  induction n with
  | zero =>
    intro st S dst q hS _ hinv _
    have hS' : S = [] := List.length_eq_zero.mp (by omega)
    subst hS'
    exact ⟨st, [], fun rest fuel => by simp [pcm16_nil], by simp, hinv,
      fun k hk => absurd hk (by omega)⟩
  | succ n ih =>
    intro st S dst q hS hrange hinv hlen
    obtain ⟨L, hL⟩ : ∃ L, L = ms_block_samples B ch := ⟨_, rfl⟩
    obtain ⟨R, hR⟩ : ∃ R, R = ms_block_rounds B ch := ⟨_, rfl⟩
    rw [← hL] at hS ih ⊢
    rw [← hR] at ih ⊢
    have hSl : S.length = L + n * L := by rw [hS]; ring
    have hb : (S.take L).length = L := by rw [List.length_take]; omega
    have hd : (S.drop L).length = n * L := by rw [List.length_drop]; omega
    have hsplit : S = S.take L ++ S.drop L := (List.take_append_drop L S).symm
    obtain ⟨st1, blk, hblk, hbl, inv1, hc0⟩ := ms_encode_block B ch hB st (S.take L) dst q
      (by rw [hb, hL]) (fun s hs => hrange s (List.mem_of_mem_take hs)) hinv hlen
    rw [← hR] at hblk
    obtain ⟨stF, out', hloop, hol, invF, hks⟩ := ih st1 (S.drop L) (dst ++ blk) (q + 1) hd
      (fun s hs => hrange s (List.mem_of_mem_drop hs)) inv1
      (by rw [List.length_append, hlen, hbl]; ring)
    refine ⟨stF, blk ++ out', fun rest fuel => ?_, ?_, invF, ?_⟩
    · have e : pcm16 S ++ rest = pcm16 (S.take L) ++ (pcm16 (S.drop L) ++ rest) := by
        rw [← List.append_assoc, ← pcm16_append, ← hsplit]
      rw [e, show fuel + (n + 1) * R = fuel + n * R + R by ring, hblk, hloop,
        List.append_assoc]
    · rw [List.length_append, hbl, hol]; ring
    · intro k hk
      cases k with
      | zero =>
        refine ⟨st, hinv, fun fuel => ?_, ?_⟩
        · simp [pcm16_nil, ms_encode_loop_nil]
        · simpa using ms_header_carries_append ch blk out' st hc0
      | succ k =>
        obtain ⟨stk, invk, hrun, hck⟩ := hks k (by omega)
        refine ⟨stk, invk, fun fuel => ?_, ?_⟩
        · have et : S.take ((k + 1) * L) = S.take L ++ (S.drop L).take (k * L) := by
            rw [show (k + 1) * L = L + k * L by ring, List.take_add]
          have e : pcm16 (S.take ((k + 1) * L)) =
              pcm16 (S.take L) ++ pcm16 ((S.drop L).take (k * L)) := by
            rw [et, pcm16_append]
          have eo : (blk ++ out').take ((k + 1) * B) = blk ++ out'.take (k * B) := by
            rw [show (k + 1) * B = blk.length + k * B by rw [hbl]; ring,
              List.take_append]
          rw [e, show fuel + (k + 1) * R = fuel + k * R + R by ring, hblk, hrun, eo,
            List.append_assoc]
        · have eo : (blk ++ out').drop ((k + 1) * B) = out'.drop (k * B) := by
            rw [show (k + 1) * B = blk.length + k * B by rw [hbl]; ring,
              List.drop_append]
          rw [eo]; exact hck

theorem ms_encode_init_of_inv (st : ADPCM) (h : ms_delta_inv st) : ms_encode_init st = st := by
  obtain ⟨_, d0a, _, d1a, _⟩ := h
  simp only [ms_encode_init]
  rw [if_neg (show ¬ Arr2.get st.ms.delta 0 < 16 by omega)]
  rw [if_neg (show ¬ Arr2.get st.ms.delta 1 < 16 by omega)]

theorem ms_block_geometry (B ch : Nat) (hB : if ch > 1 then 15 ≤ B else 8 ≤ B) :
    0 < ms_block_samples B ch ∧ ms_block_rounds B ch ≤ ms_block_samples B ch ∧
      (if ch > 1 then 14 else 7) ≤ B ∧ 0 < B := by
  unfold ms_block_samples ms_block_rounds
  split_ifs at hB ⊢ <;> omega

/-- The loop of the MS block encoder on whole blocks, from a state that fits the header
once the floor on delta is applied: it stores `n` blocks, ends in a state that fits the
header, and the header of block `k` carries the deltas of the state the loop reaches on
the first `k` blocks alone. -/
theorem ms_encode_call (ctx : FREERDP_DSP_CONTEXT) (S : List Int) (n : Nat)
    (hB : if ctx.format.nChannels > 1 then 15 ≤ ctx.format.nBlockAlign
      else 8 ≤ ctx.format.nBlockAlign)
    (hpre : ms_delta_inv (ms_encode_init ctx.adpcm))
    (hS : S.length = n * ms_block_samples ctx.format.nBlockAlign ctx.format.nChannels)
    (hrange : ∀ s ∈ S, -32768 ≤ s ∧ s ≤ 32767) :
    ∃ stF out,
      ms_encode_loop ctx.format.nBlockAlign ctx.format.nChannels (pcm16 S).length
          (ms_encode_init ctx.adpcm) (pcm16 S) [] = some (stF, out) ∧
      out.length = n * ctx.format.nBlockAlign ∧ ms_delta_inv stF ∧
      ∀ k, k < n → ∃ stk, ms_delta_inv stk ∧
        ms_encode_loop ctx.format.nBlockAlign ctx.format.nChannels
            (pcm16 (S.take
              (k * ms_block_samples ctx.format.nBlockAlign ctx.format.nChannels))).length
            (ms_encode_init ctx.adpcm)
            (pcm16 (S.take (k * ms_block_samples ctx.format.nBlockAlign ctx.format.nChannels)))
            [] =
          some (stk, out.take (k * ctx.format.nBlockAlign)) ∧
        ms_header_carries ctx.format.nChannels (out.drop (k * ctx.format.nBlockAlign)) stk := by
  obtain ⟨hL0, hRL, _, _⟩ := ms_block_geometry _ _ hB
  obtain ⟨stF, out, hloop, hol, invF, hks⟩ := ms_encode_blocks ctx.format.nBlockAlign
    ctx.format.nChannels hB n (ms_encode_init ctx.adpcm) S [] 0 hS hrange hpre (by simp)
  obtain ⟨L, hL⟩ : ∃ L, L = ms_block_samples ctx.format.nBlockAlign ctx.format.nChannels :=
    ⟨_, rfl⟩
  obtain ⟨R, hR⟩ : ∃ R, R = ms_block_rounds ctx.format.nBlockAlign ctx.format.nChannels :=
    ⟨_, rfl⟩
  rw [← hL] at hS hks hL0 hRL ⊢
  rw [← hR] at hloop hks hRL
  refine ⟨stF, out, ?_, hol, invF, ?_⟩
  · have hfuel : (pcm16 S).length = (2 * (n * L) - n * R) + n * R := by
      have : n * R ≤ n * L := Nat.mul_le_mul_left n hRL
      rw [pcm16_length, hS]; omega
    have h := hloop [] (2 * (n * L) - n * R)
    rw [List.append_nil, ms_encode_loop_nil, List.nil_append] at h
    rw [hfuel]
    exact h
  · intro k hk
    obtain ⟨stk, invk, hrun, hck⟩ := hks k hk
    refine ⟨stk, invk, ?_, hck⟩
    have hkl : k * L ≤ n * L := Nat.mul_le_mul_right L (by omega)
    have hfuel : (pcm16 (S.take (k * L))).length = (2 * (k * L) - k * R) + k * R := by
      have : k * R ≤ k * L := Nat.mul_le_mul_left k hRL
      rw [pcm16_length, List.length_take, hS, Nat.min_eq_left hkl]; omega
    have h := hrun (2 * (k * L) - k * R)
    rw [List.nil_append] at h
    rw [hfuel]
    exact h

theorem freerdp_dsp_encode_ms_dispatch (ctx : FREERDP_DSP_CONTEXT) (f : AUDIO_FORMAT)
    (data : List Nat) (o : wStream) (he : ctx.encoder = true)
    (htag : ctx.format.wFormatTag = WAVE_FORMAT_ADPCM) :
    freerdp_dsp_encode (some ctx) (some f) (some data) (some o) =
      (freerdp_dsp_encode_ms_adpcm ctx data o).map (fun r => (r.1, some r.2.1, some r.2.2)) := by
  have hne : WAVE_FORMAT_ADPCM ≠ WAVE_FORMAT_PCM := by decide
  simp only [freerdp_dsp_encode, he, Bool.not_true, Bool.false_eq_true, if_false, htag, hne,
    if_true]

theorem readINT16_of_lt (src : List Nat) (off : Nat) (h : off + 1 < src.length) :
    ∃ v, readINT16 src off = some v := by
  simp only [readINT16, bind, Option.bind, pure]
  rw [List.getElem?_eq_getElem (by omega : off < src.length),
    List.getElem?_eq_getElem h]
  exact ⟨_, rfl⟩

/-- The header parse of the MS decoder at a block boundary stores the 16-bit values of the
delta fields as the deltas of its state. -/
theorem ms_decode_header_of_carries (B ch : Nat) (stD st : ADPCM) (src : List Nat)
    (hb : B ≠ 0) (hsz : src.length % B = 0)
    (hlen : (if ch > 1 then 14 else 7) ≤ src.length)
    (hc : ms_header_carries ch src st) :
    ∃ stD' rest hdr, ms_decode_header B ch stD src = some (stD', rest, hdr) ∧
      Arr2.get stD'.ms.delta 0 = Arr2.get st.ms.delta 0 ∧
      (ch > 1 → Arr2.get stD'.ms.delta 1 = Arr2.get st.ms.delta 1) := by
  by_cases hch : ch > 1
  · rw [if_pos hch] at hlen
    simp only [ms_header_carries, if_pos hch] at hc
    obtain ⟨p0, h0⟩ : ∃ p, src[0]? = some p :=
      ⟨_, List.getElem?_eq_getElem (by omega : 0 < src.length)⟩
    obtain ⟨p1, h1⟩ : ∃ p, src[1]? = some p :=
      ⟨_, List.getElem?_eq_getElem (by omega : 1 < src.length)⟩
    obtain ⟨v6, h6⟩ := readINT16_of_lt src 6 (by omega)
    obtain ⟨v8, h8⟩ := readINT16_of_lt src 8 (by omega)
    obtain ⟨v10, h10⟩ := readINT16_of_lt src 10 (by omega)
    obtain ⟨v12, h12⟩ := readINT16_of_lt src 12 (by omega)
    have hres : ms_decode_header B ch stD src =
        some ({ stD with ms :=
            { predictor := (p0, p1)
              delta := (Arr2.get st.ms.delta 0, Arr2.get st.ms.delta 1)
              sample1 := (v6, v8), sample2 := (v10, v12) } },
          src.drop 14,
          bytesINT16 (toINT16 v10) ++ bytesINT16 (toINT16 v12) ++
            bytesINT16 (toINT16 v6) ++ bytesINT16 (toINT16 v8)) := by
      simp only [ms_decode_header, if_neg hb, hsz, if_true, if_pos hch,
        ms_decode_header_stereo, h0, h1, hc.1, hc.2, h6, h8, h10, h12, bind, Option.bind,
        pure]
    exact ⟨_, _, _, hres, rfl, fun _ => rfl⟩
  · rw [if_neg hch] at hlen
    simp only [ms_header_carries, if_neg hch] at hc
    obtain ⟨p0, h0⟩ : ∃ p, src[0]? = some p :=
      ⟨_, List.getElem?_eq_getElem (by omega : 0 < src.length)⟩
    obtain ⟨v3, h3⟩ := readINT16_of_lt src 3 (by omega)
    obtain ⟨v5, h5⟩ := readINT16_of_lt src 5 (by omega)
    have hres : ms_decode_header B ch stD src =
        some ({ stD with ms :=
            { predictor := Arr2.set stD.ms.predictor 0 p0
              delta := Arr2.set stD.ms.delta 0 (Arr2.get st.ms.delta 0)
              sample1 := Arr2.set stD.ms.sample1 0 v3
              sample2 := Arr2.set stD.ms.sample2 0 v5 } },
          src.drop 7, bytesINT16 (toINT16 v5) ++ bytesINT16 (toINT16 v3)) := by
      simp only [ms_decode_header, if_neg hb, hsz, if_true, if_neg hch,
        ms_decode_header_mono, h0, hc, h3, h5, bind, Option.bind, pure]
    exact ⟨_, _, _, hres, by simp only [Arr2.get_set], fun h => absurd h hch⟩

/-- A call of `freerdp_dsp_encode` on whole blocks, on an encoder context with an MS-ADPCM
format whose state fits the header once the floor on delta is applied: the call returns
when the blocks fit the buffer it reserved and is undefined otherwise; the bytes of the
blocks and the states of the loop do not depend on the output stream. -/
theorem ms_encode_dispatch_call (ctx : FREERDP_DSP_CONTEXT) (f : AUDIO_FORMAT) (o : wStream)
    (S : List Int) (he : ctx.encoder = true)
    (htag : ctx.format.wFormatTag = WAVE_FORMAT_ADPCM)
    (hB : if ctx.format.nChannels > 1 then 15 ≤ ctx.format.nBlockAlign
      else 8 ≤ ctx.format.nBlockAlign)
    (hpre : ms_delta_inv (ms_encode_init ctx.adpcm))
    (hS : ms_whole_blocks ctx.format S) :
    ∃ stF out,
      freerdp_dsp_encode (some ctx) (some f) (some (pcm16 S)) (some o) =
        (if out.length ≤ (Stream_EnsureRemainingCapacity o
            ((pcm16 S).length / 2 % 4294967296)).buffer.length then
          some (true, some { ctx with adpcm := stF },
            some (Stream_StoreFromBuffer
              (Stream_EnsureRemainingCapacity o ((pcm16 S).length / 2 % 4294967296)) out))
        else none) ∧
      out.length = ms_encoded_size ctx.format S ∧ ms_delta_inv stF ∧
      ∀ k, k * ms_block_samples ctx.format.nBlockAlign ctx.format.nChannels < S.length →
        (if ctx.format.nChannels > 1 then 14 else 7) ≤
          (out.drop (k * ctx.format.nBlockAlign)).length ∧
        (out.drop (k * ctx.format.nBlockAlign)).length % ctx.format.nBlockAlign = 0 ∧
        ∃ stk, ms_delta_inv stk ∧
          ms_encode_loop ctx.format.nBlockAlign ctx.format.nChannels
              (pcm16 (S.take
                (k * ms_block_samples ctx.format.nBlockAlign ctx.format.nChannels))).length
              (ms_encode_init ctx.adpcm)
              (pcm16 (S.take
                (k * ms_block_samples ctx.format.nBlockAlign ctx.format.nChannels)))
              [] =
            some (stk, out.take (k * ctx.format.nBlockAlign)) ∧
          ms_header_carries ctx.format.nChannels (out.drop (k * ctx.format.nBlockAlign))
            stk := by
  obtain ⟨hL0, _, hH, hB0⟩ := ms_block_geometry _ _ hB
  obtain ⟨hmod, hrange⟩ := hS
  obtain ⟨n, hn⟩ : ∃ n, n =
      S.length / ms_block_samples ctx.format.nBlockAlign ctx.format.nChannels := ⟨_, rfl⟩
  have hSn : S.length = n * ms_block_samples ctx.format.nBlockAlign ctx.format.nChannels := by
    rw [hn]
    exact (Nat.div_mul_cancel (Nat.dvd_of_mod_eq_zero hmod)).symm
  obtain ⟨stF, out, hrun, hol, invF, hks⟩ := ms_encode_call ctx S n hB hpre hSn hrange
  refine ⟨stF, out, ?_, ?_, invF, ?_⟩
  · rw [freerdp_dsp_encode_ms_dispatch ctx f _ o he htag,
      freerdp_dsp_encode_ms_adpcm_eq ctx _ o stF out hrun]
    split_ifs <;> rfl
  · rw [hol, hn]; rfl
  · intro k hk
    have hkn : k < n := by
      rw [hSn] at hk
      exact Nat.lt_of_mul_lt_mul_right hk
    obtain ⟨stk, invk, hrunk, hck⟩ := hks k hkn
    have hdl : (out.drop (k * ctx.format.nBlockAlign)).length =
        (n - k) * ctx.format.nBlockAlign := by
      rw [List.length_drop, hol, Nat.sub_mul]
    have hge : ctx.format.nBlockAlign ≤ (n - k) * ctx.format.nBlockAlign :=
      Nat.le_mul_of_pos_left _ (by omega)
    exact ⟨by rw [hdl]; omega, by rw [hdl]; exact Nat.mul_mod_left _ _, stk, invk, hrunk, hck⟩

theorem Stream_EnsureRemainingCapacity_length (out : wStream) (size : Nat) :
    out.buffer.length ≤ (Stream_EnsureRemainingCapacity out size).buffer.length := by
  simp [Stream_EnsureRemainingCapacity]

theorem Stream_StoreFromBuffer_length (out : wStream) (written : List Nat) :
    out.buffer.length ≤ (Stream_StoreFromBuffer out written).buffer.length := by
  simp only [Stream_StoreFromBuffer, List.length_append, List.length_drop]
  omega

/-- Every sequence of calls of `freerdp_dsp_encode` on whole blocks that returns leaves an
encoder context with the same format whose state fits the header once the floor on delta
is applied. -/
theorem ms_encode_calls_inv (fmt : AUDIO_FORMAT)
    (htag : fmt.wFormatTag = WAVE_FORMAT_ADPCM)
    (hB : if fmt.nChannels > 1 then 15 ≤ fmt.nBlockAlign else 8 ≤ fmt.nBlockAlign) :
    ∀ (calls : List (List Int)) (ctx : FREERDP_DSP_CONTEXT) (out0 : wStream)
      (ctx' : FREERDP_DSP_CONTEXT) (out1 : wStream),
      ctx.encoder = true → ctx.format = fmt → ms_delta_inv (ms_encode_init ctx.adpcm) →
      (∀ C ∈ calls, ms_whole_blocks fmt C) →
      ms_encode_calls ctx out0 (calls.map pcm16) = some (ctx', out1) →
      ctx'.encoder = true ∧ ctx'.format = fmt ∧ ms_delta_inv (ms_encode_init ctx'.adpcm) := by
  intro calls
  induction calls with
  | nil =>
    intro ctx out0 ctx' out1 he hf hpre _ hseq
    simp only [List.map_nil, ms_encode_calls, Option.some.injEq, Prod.mk.injEq] at hseq
    rw [← hseq.1]
    exact ⟨he, hf, hpre⟩
  | cons C more ih =>
    intro ctx out0 ctx' out1 he hf hpre hcalls hseq
    have hC := hcalls C (by simp)
    rw [← hf] at hC htag hB
    obtain ⟨stF, out, hrun, _, invF, _⟩ :=
      ms_encode_dispatch_call ctx ctx.format out0 C he htag hB hpre hC
    simp only [List.map_cons, ms_encode_calls, hrun] at hseq
    split_ifs at hseq
    exact ih { ctx with adpcm := stF } _ ctx' out1 he hf
      (by rw [ms_encode_init_of_inv _ invF]; exact invF)
      (fun D hD => hcalls D (by simp [hD])) hseq

/-- A sequence of calls of `freerdp_dsp_encode` on whole blocks returns when the buffer of
the output stream holds the blocks of every single call. -/
theorem ms_encode_calls_defined (fmt : AUDIO_FORMAT)
    (htag : fmt.wFormatTag = WAVE_FORMAT_ADPCM)
    (hB : if fmt.nChannels > 1 then 15 ≤ fmt.nBlockAlign else 8 ≤ fmt.nBlockAlign) :
    ∀ (calls : List (List Int)) (ctx : FREERDP_DSP_CONTEXT) (out0 : wStream),
      ctx.encoder = true → ctx.format = fmt → ms_delta_inv (ms_encode_init ctx.adpcm) →
      (∀ C ∈ calls, ms_whole_blocks fmt C) →
      (∀ C ∈ calls, ms_encoded_size fmt C ≤ out0.buffer.length) →
      ∃ ctx' out1, ms_encode_calls ctx out0 (calls.map pcm16) = some (ctx', out1) := by
  intro calls
  induction calls with
  | nil =>
    intro ctx out0 _ _ _ _ _
    exact ⟨ctx, out0, rfl⟩
  | cons C more ih =>
    intro ctx out0 he hf hpre hcalls hroom
    have hC := hcalls C (by simp)
    have hrC := hroom C (by simp)
    rw [← hf] at hC htag hB hrC
    obtain ⟨stF, out, hrun, hol, invF, _⟩ :=
      ms_encode_dispatch_call ctx ctx.format out0 C he htag hB hpre hC
    have hfit : out.length ≤ (Stream_EnsureRemainingCapacity out0
        ((pcm16 C).length / 2 % 4294967296)).buffer.length :=
      Nat.le_trans (by rw [hol]; exact hrC) (Stream_EnsureRemainingCapacity_length _ _)
    rw [if_pos hfit] at hrun
    obtain ⟨ctx', out1, hrest⟩ := ih { ctx with adpcm := stF }
      (Stream_StoreFromBuffer (Stream_EnsureRemainingCapacity out0
        ((pcm16 C).length / 2 % 4294967296)) out) he hf
      (by rw [ms_encode_init_of_inv _ invF]; exact invF)
      (fun D hD => hcalls D (by simp [hD]))
      (fun D hD => Nat.le_trans (hroom D (by simp [hD]))
        (Nat.le_trans (Stream_EnsureRemainingCapacity_length _ _)
          (Stream_StoreFromBuffer_length _ _)))
    refine ⟨ctx', out1, ?_⟩
    simp only [List.map_cons, ms_encode_calls, hrun]
    exact hrest

/-- A zero-filled state fits the header once the floor on delta is applied. -/
theorem ms_encode_init_zero_inv : ms_delta_inv (ms_encode_init ADPCM.zero) := by
  decide

/-- C26. The delta of the MS-ADPCM encoder always fits its 16-bit header field.  Start
from a freshly created encoder context reset to an MS-ADPCM format (mono with
`nBlockAlign >= 8`, or stereo with `nBlockAlign >= 15`) and drive it by a sequence of calls
of `freerdp_dsp_encode` on whole blocks of signed 16-bit samples; the sequence returns
when the buffer of the output stream holds the blocks of every single call.  For a further
such call on a context the sequence has left: the call returns when its blocks fit the
buffer once `size / 2` bytes are reserved behind the stream position; and whenever it
returns, it has succeeded, the delta of both channels is in `[16, 32767]` afterwards, and
for every block `k` of the call the header parse of `freerdp_dsp_decode_ms_adpcm` at byte
`k * nBlockAlign` of the bytes stored yields, for every channel in use, exactly the delta
the encoder had when it wrote the header, that is the delta (in `[16, 32767]`) of the state
its loop reaches on the first `k` blocks alone, after which it has stored the bytes before
that header. -/
theorem ms_encoder_delta_fits_header (fmt : AUDIO_FORMAT) (calls : List (List Int))
    (S : List Int) (out0 out : wStream) (stD : ADPCM)
    (htag : fmt.wFormatTag = WAVE_FORMAT_ADPCM)
    (hB : if fmt.nChannels > 1 then 15 ≤ fmt.nBlockAlign else 8 ≤ fmt.nBlockAlign)
    (hcalls : ∀ C ∈ calls, ms_whole_blocks fmt C)
    (hS : ms_whole_blocks fmt S) :
    ∃ ctx0,
      freerdp_dsp_context_reset (some (freerdp_dsp_context_new true)) (some fmt) =
        (true, some ctx0) ∧
      ((∀ C ∈ calls, ms_encoded_size fmt C ≤ out0.buffer.length) →
        ∃ ctx out1, ms_encode_calls ctx0 out0 (calls.map pcm16) = some (ctx, out1)) ∧
      ∀ ctx out1, ms_encode_calls ctx0 out0 (calls.map pcm16) = some (ctx, out1) →
        (ms_encoded_size fmt S ≤ (Stream_EnsureRemainingCapacity out
            ((pcm16 S).length / 2 % 4294967296)).buffer.length →
          ∃ res, freerdp_dsp_encode (some ctx) (some fmt) (some (pcm16 S)) (some out) =
            some res) ∧
        ∀ res, freerdp_dsp_encode (some ctx) (some fmt) (some (pcm16 S)) (some out) =
            some res →
          ∃ ctx' out', res = (true, some ctx', some out') ∧
            out'.pointer = ms_encoded_size fmt S ∧
            16 ≤ Arr2.get ctx'.adpcm.ms.delta 0 ∧ Arr2.get ctx'.adpcm.ms.delta 0 ≤ 32767 ∧
            16 ≤ Arr2.get ctx'.adpcm.ms.delta 1 ∧ Arr2.get ctx'.adpcm.ms.delta 1 ≤ 32767 ∧
            ∀ k, k * ms_block_samples fmt.nBlockAlign fmt.nChannels < S.length →
              ∃ stk stD' rest hdr,
                ms_encode_loop fmt.nBlockAlign fmt.nChannels
                    (pcm16 (S.take
                      (k * ms_block_samples fmt.nBlockAlign fmt.nChannels))).length
                    (ms_encode_init ctx.adpcm)
                    (pcm16 (S.take (k * ms_block_samples fmt.nBlockAlign fmt.nChannels)))
                    [] =
                  some (stk, (out'.buffer.take out'.pointer).take (k * fmt.nBlockAlign)) ∧
                16 ≤ Arr2.get stk.ms.delta 0 ∧ Arr2.get stk.ms.delta 0 ≤ 32767 ∧
                16 ≤ Arr2.get stk.ms.delta 1 ∧ Arr2.get stk.ms.delta 1 ≤ 32767 ∧
                ms_decode_header fmt.nBlockAlign fmt.nChannels stD
                    ((out'.buffer.take out'.pointer).drop (k * fmt.nBlockAlign)) =
                  some (stD', rest, hdr) ∧
                Arr2.get stD'.ms.delta 0 = Arr2.get stk.ms.delta 0 ∧
                (fmt.nChannels > 1 → Arr2.get stD'.ms.delta 1 = Arr2.get stk.ms.delta 1) := by
  obtain ⟨_, _, _, hB0⟩ := ms_block_geometry _ _ hB
  refine ⟨{ freerdp_dsp_context_new true with format := fmt }, rfl, ?_, ?_⟩
  · intro hroom0
    exact ms_encode_calls_defined fmt htag hB calls _ out0 rfl rfl ms_encode_init_zero_inv
      hcalls hroom0
  intro ctx out1 hseq
  obtain ⟨he, hf, hpre⟩ := ms_encode_calls_inv fmt htag hB calls _ out0 ctx out1 rfl rfl
    ms_encode_init_zero_inv hcalls hseq
  subst hf
  obtain ⟨stF, written, hrun, hol, invF, hks⟩ :=
    ms_encode_dispatch_call ctx ctx.format out S he htag hB hpre hS
  rw [hrun]
  constructor
  · intro hroom
    rw [if_pos (by rw [hol]; exact hroom)]
    exact ⟨_, rfl⟩
  intro res hres
  split_ifs at hres
  injection hres with hres
  obtain ⟨_, f0a, f0b, f1a, f1b, _⟩ := invF
  refine ⟨_, _, hres.symm, hol, f0a, f0b, f1a, f1b, ?_⟩
  intro k hk
  obtain ⟨hlen, hmod, stk, invk, hrunk, hck⟩ := hks k hk
  obtain ⟨stD', rest, hdr, hdec, hd0, hd1⟩ := ms_decode_header_of_carries
    ctx.format.nBlockAlign ctx.format.nChannels stD stk _ (by omega) hmod hlen hck
  obtain ⟨_, k0a, k0b, k1a, k1b, _⟩ := invk
  rw [Stream_StoreFromBuffer_written]
  exact ⟨stk, stD', rest, hdr, hrunk, k0a, k0b, k1a, k1b, hdec, hd0, hd1⟩

theorem ms_encoder_delta_fits_header_witness :
    ∃ ctx0 ctx out1 ctx' out',
      freerdp_dsp_context_reset (some (freerdp_dsp_context_new true)) (some ms_mono_format8) =
        (true, some ctx0) ∧
      ms_encode_calls ctx0 { buffer := [9, 9, 9, 9, 9, 9, 9, 9], pointer := 0 }
        ([[1000, 2000, -3000, 32767]].map pcm16) = some (ctx, out1) ∧
      freerdp_dsp_encode (some ctx) (some ms_mono_format8)
          (some (pcm16 [5, -32768, 32767, -32768, 100, 200, 300, 400]))
          (some { buffer := [9, 9, 9, 9, 9, 9, 9, 9, 9, 9, 9, 9], pointer := 8 }) =
        some (true, some ctx', some out') ∧
      out'.pointer = 16 ∧
      16 ≤ Arr2.get ctx'.adpcm.ms.delta 0 ∧ Arr2.get ctx'.adpcm.ms.delta 0 ≤ 32767 ∧
      16 ≤ Arr2.get ctx'.adpcm.ms.delta 1 ∧ Arr2.get ctx'.adpcm.ms.delta 1 ≤ 32767 ∧
      ∀ k, k * ms_block_samples ms_mono_format8.nBlockAlign ms_mono_format8.nChannels <
          ([5, -32768, 32767, -32768, 100, 200, 300, 400] : List Int).length →
        ∃ stk stD' rest hdr,
          ms_encode_loop ms_mono_format8.nBlockAlign ms_mono_format8.nChannels
              (pcm16 (([5, -32768, 32767, -32768, 100, 200, 300, 400] : List Int).take
                (k * ms_block_samples ms_mono_format8.nBlockAlign
                  ms_mono_format8.nChannels))).length
              (ms_encode_init ctx.adpcm)
              (pcm16 (([5, -32768, 32767, -32768, 100, 200, 300, 400] : List Int).take
                (k * ms_block_samples ms_mono_format8.nBlockAlign
                  ms_mono_format8.nChannels)))
              [] =
            some (stk, (out'.buffer.take out'.pointer).take
              (k * ms_mono_format8.nBlockAlign)) ∧
          16 ≤ Arr2.get stk.ms.delta 0 ∧ Arr2.get stk.ms.delta 0 ≤ 32767 ∧
          16 ≤ Arr2.get stk.ms.delta 1 ∧ Arr2.get stk.ms.delta 1 ≤ 32767 ∧
          ms_decode_header ms_mono_format8.nBlockAlign ms_mono_format8.nChannels ADPCM.zero
              ((out'.buffer.take out'.pointer).drop (k * ms_mono_format8.nBlockAlign)) =
            some (stD', rest, hdr) ∧
          Arr2.get stD'.ms.delta 0 = Arr2.get stk.ms.delta 0 ∧
          (ms_mono_format8.nChannels > 1 →
            Arr2.get stD'.ms.delta 1 = Arr2.get stk.ms.delta 1) := by
  obtain ⟨ctx0, hreset, hdef, hinv⟩ := ms_encoder_delta_fits_header ms_mono_format8
    [[1000, 2000, -3000, 32767]] [5, -32768, 32767, -32768, 100, 200, 300, 400]
    { buffer := [9, 9, 9, 9, 9, 9, 9, 9], pointer := 0 }
    { buffer := [9, 9, 9, 9, 9, 9, 9, 9, 9, 9, 9, 9], pointer := 8 } ADPCM.zero rfl
    (by decide) (by decide) (by decide)
  obtain ⟨ctx, out1, hseq⟩ := hdef (by decide)
  obtain ⟨hcall, hprop⟩ := hinv ctx out1 hseq
  obtain ⟨res, hres⟩ := hcall (by decide)
  obtain ⟨ctx', out', hr, hrest⟩ := hprop res hres
  rw [hr] at hres
  exact ⟨ctx0, ctx, out1, ctx', out', hreset, hseq, hres, hrest⟩
